import Mathlib

/-!
Shallow embedding of the `durango` game engine (Rust) in Lean 4.

Source files embedded: `src/data.rs`, `src/cards.rs`, `src/player.rs`,
`src/graph.rs`, `src/game.rs`.

Conventions of the embedding:
* Rust `u8`/`usize`/`i32` counters and costs are modelled as `Nat` (no
  arithmetic here comes close to overflow in the quantities the code
  manipulates); coordinates (`i32 q, r`) are modelled as `Int`.
* A Rust panic (out-of-bounds index on a `Vec`, `unwrap` failure) is
  modelled by the value `none` of an `Option` wrapper; `some (s, .error e)`
  models a `Result::Err` return, together with the state `s` the mutable
  `&mut self` receiver holds at the moment of the early return, and
  `some (s, .ok o)` models a successful return.
* `rand::Rng`-driven shuffles are modelled by an explicit function
  parameter `shuffle : List Card → List Card`; theorems that depend on the
  shuffle being a permutation take that as a hypothesis.
* `Vec::swap_remove`, `Vec::pop`, `partition_point`, `binary_search` are
  modelled by executable functions with the semantics the Rust standard
  library documents for them (for the two search functions: on the sorted
  inputs the repository uses them on).
-/

namespace Durango

/-- Decidable equality for `Except`, used by concrete evaluations. -/
instance {ε α : Type} [DecidableEq ε] [DecidableEq α] :
    DecidableEq (Except ε α) := fun x y =>
  match x, y with
  | .ok a, .ok b =>
    if h : a = b then isTrue (by rw [h])
    else isFalse (by intro hc; cases hc; exact h rfl)
  | .error a, .error b =>
    if h : a = b then isTrue (by rw [h])
    else isFalse (by intro hc; cases hc; exact h rfl)
  | .ok _, .error _ => isFalse (by intro hc; cases hc)
  | .error _, .ok _ => isFalse (by intro hc; cases hc)

/-! ## Basic data (`data.rs`) -/

/-- `AxialCoord` from `data.rs`: a (q, r) hex position. -/
structure AxialCoord where
  q : Int
  r : Int
deriving DecidableEq, Repr

/-- `AxialCoord::is_adjacent`. -/
def AxialCoord.isAdjacent (a b : AxialCoord) : Bool :=
  let dq := (a.q - b.q).natAbs
  let dr := (a.r - b.r).natAbs
  let ds := (a.q + a.r - b.q - b.r).natAbs
  dq ≤ 1 && dr ≤ 1 && ds ≤ 1 && dq + dr + ds = 2

/-- Derived `Ord` on `AxialCoord` is lexicographic on (q, r); this is the
comparison `sort_unstable_by_key` and the map lookups use. -/
def AxialCoord.lexLe (a b : AxialCoord) : Bool :=
  a.q < b.q || (a.q = b.q && a.r ≤ b.r)

/-- Strict lexicographic order on coordinates. -/
def AxialCoord.lexLt (a b : AxialCoord) : Bool :=
  a.q < b.q || (a.q = b.q && a.r < b.r)

/-- `HexDirection` from `data.rs`. -/
inductive HexDirection where
  | northEast
  | east
  | southEast
  | southWest
  | west
  | northWest
deriving DecidableEq, Repr

/-- `HexDirection::reverse`. -/
def HexDirection.reverse : HexDirection → HexDirection
  | .northEast => .southWest
  | .east => .west
  | .southEast => .northWest
  | .southWest => .northEast
  | .west => .east
  | .northWest => .southEast

/-- `HexDirection::neighbor_coord`. -/
def HexDirection.neighborCoord (dir : HexDirection) (c : AxialCoord) : AxialCoord :=
  match dir with
  | .east => ⟨c.q + 1, c.r⟩
  | .west => ⟨c.q - 1, c.r⟩
  | .northEast => ⟨c.q + 1, c.r - 1⟩
  | .northWest => ⟨c.q, c.r - 1⟩
  | .southEast => ⟨c.q, c.r + 1⟩
  | .southWest => ⟨c.q - 1, c.r + 1⟩

/-- `ALL_DIRECTIONS` from `data.rs`. -/
def allDirections : List HexDirection :=
  [.northEast, .east, .southEast, .southWest, .west, .northWest]

/-- `Terrain` from `data.rs`. -/
inductive Terrain where
  | invalid
  | jungle
  | desert
  | water
  | village
  | swamp
  | cave
deriving DecidableEq, Repr

/-- `BonusToken` from `data.rs`. -/
inductive BonusToken where
  | jungle (m : Nat)
  | desert (m : Nat)
  | water (m : Nat)
  | drawCard
  | trashCard
  | replaceHand
  | doubleUse
  | shareHex
  | freeMove
  | swapSymbol
deriving DecidableEq, Repr

/-- `BonusToken::gold_value`. -/
def BonusToken.goldValue : BonusToken → Nat
  | .desert v => v * 2
  | _ => 0

/-- `Node` from `data.rs`. -/
structure Node where
  terrain : Terrain
  cost : Nat
  boardIdx : Nat
deriving DecidableEq, Repr

/-- `Barrier` from `data.rs`. -/
structure Barrier where
  fromBoard : Nat
  toBoard : Nat
  terrain : Terrain
  cost : Nat
  edges : List (AxialCoord × HexDirection)
deriving DecidableEq, Repr

/-- `BrokenBarrier`: referenced from `game.rs` (`data::BrokenBarrier
{ terrain, cost }`) and `api.rs` but its declaration is not part of the
provided sources; reconstructed from those two use sites as a record of the
broken barrier's terrain and cost. -/
structure BrokenBarrier where
  terrain : Terrain
  cost : Nat
deriving DecidableEq, Repr

/-! ## Cards (`cards.rs`) -/

/-- `CardAction` from `cards.rs`. -/
inductive CardAction where
  | freeBuy
  | freeMove
  | draw (n : Nat)
  | drawAndTrash (n : Nat)
deriving DecidableEq, Repr

/-- The `[u8; 3]` movement triple of a card: [jungle, desert, water]. -/
structure Movement where
  j : Nat
  d : Nat
  w : Nat
deriving DecidableEq, Repr

/-- `movement.iter().sum()`. -/
def Movement.sum (m : Movement) : Nat := m.j + m.d + m.w

/-- `movement.iter().max().unwrap()`. -/
def Movement.maxv (m : Movement) : Nat := max m.j (max m.d m.w)

/-- `Card` from `cards.rs`. -/
structure Card where
  movement : Movement
  singleUse : Bool
  action : Option CardAction
deriving DecidableEq, Repr

/-- `Card::gold_value`: `1.max(2 * self.movement[1])`. -/
def Card.goldValue (c : Card) : Nat := max 1 (2 * c.movement.d)

/-- `Card::explorer`. -/
def Card.explorer : Card := ⟨⟨1, 0, 0⟩, false, none⟩

/-- `Card::traveler`. -/
def Card.traveler : Card := ⟨⟨0, 1, 0⟩, false, none⟩

/-- `Card::sailor`. -/
def Card.sailor : Card := ⟨⟨0, 0, 1⟩, false, none⟩

/-- `BuyableCard` from `cards.rs`. -/
structure BuyableCard where
  cost : Nat
  card : Card
  quantity : Nat
deriving DecidableEq, Repr

/-- `BuyableCard::to_card`. -/
def BuyableCard.toCard (b : BuyableCard) : Card := b.card

/-! ## Modelled `Vec` primitives -/

/-- `Vec::pop`: removes and returns the last element. -/
def popLast (l : List α) : Option (α × List α) :=
  match l.getLast? with
  | some a => some (a, l.dropLast)
  | none => none

/-- `Vec::swap_remove(i)`: removes element `i`, replacing it by the last
element; returns the removed element and the remaining vector, or `none`
(panic) when `i` is out of bounds. -/
def swapRemoveGet (l : List α) (i : Nat) : Option (α × List α) :=
  match l.get? i, l.get? (l.length - 1) with
  | some a, some last => some (a, l.dropLast.set i last)
  | _, _ => none

/-- `Vec::swap_remove(i)` when the removed element is dropped. -/
def swapRemoveL (l : List α) (i : Nat) : Option (List α) :=
  (swapRemoveGet l i).map (·.2)

/-! ## Player (`player.rs`) -/

/-- `HAND_SIZE` from `player.rs`. -/
def handSizeConst : Nat := 4

/-- `Player` from `player.rs`.  (`broken_barriers` is typed `Vec<Barrier>`
in `player.rs` but `game.rs` pushes `data::BrokenBarrier` records onto it;
the embedding follows the pushing site, which is the only writer.) -/
structure Player where
  position : AxialCoord
  deck : List Card
  hand : List Card
  played : List Card
  discard : List Card
  tokens : List BonusToken
  trashes : Nat
  canBuy : Bool
  visitedCaves : List AxialCoord
  brokenBarriers : List BrokenBarrier
deriving DecidableEq, Repr

/-- `rev_sorted` from `player.rs`: indices sorted in descending order
(insertion sort; the source uses `sort_unstable_by(|a, b| b.cmp(a))`). -/
def insertDesc (x : Nat) : List Nat → List Nat
  | [] => [x]
  | y :: ys => if y ≤ x then x :: y :: ys else y :: insertDesc x ys

/-- `rev_sorted` from `player.rs`. -/
def revSorted (xs : List Nat) : List Nat := xs.foldr insertDesc []

/-- `Player::mark_played`: move `cards` (hand indices) into `played`.
`none` models the panic on an out-of-range index. -/
def Player.markPlayed (p : Player) (cards : List Nat) : Option Player :=
  (revSorted cards).foldlM
    (fun q i =>
      match swapRemoveGet q.hand i with
      | some (c, rest) => some { q with hand := rest, played := q.played ++ [c] }
      | none => none)
    p

/-- `Player::discard_cards`. -/
def Player.discardCards (p : Player) (cards : List Nat) : Option Player :=
  (revSorted cards).foldlM
    (fun q i =>
      match swapRemoveGet q.hand i with
      | some (c, rest) => some { q with hand := rest, discard := q.discard ++ [c] }
      | none => none)
    p

/-- `Player::trash_cards`: remove `cards` from the hand permanently. -/
def Player.trashCards (p : Player) (cards : List Nat) : Option Player :=
  (revSorted cards).foldlM
    (fun q i =>
      match swapRemoveL q.hand i with
      | some rest => some { q with hand := rest }
      | none => none)
    p

/-- The in-loop deck refill of `fill_hand`: when the deck is exhausted and
the discard pile is not, the discard pile is shuffled into the deck. -/
def refillIfNeeded (shuffle : List Card → List Card) (p : Player) : Player :=
  if p.deck.isEmpty && !p.discard.isEmpty then
    { p with deck := shuffle (p.deck ++ p.discard), discard := [] }
  else p

/-- One iteration of the `fill_hand` loop, fuelled; the fuel picked by
`fillHand` provably outlasts the loop (the loop pops one card per
iteration and refills the deck from the discard pile at most once). -/
def fillHandAux (shuffle : List Card → List Card) (handSize : Nat) :
    Nat → Player → Player
  | 0, p => p
  | fuel + 1, p =>
    if p.hand.length < handSize then
      match popLast (refillIfNeeded shuffle p).deck with
      | some (c, deckRest) =>
          fillHandAux shuffle handSize fuel
            { refillIfNeeded shuffle p with
              deck := deckRest,
              hand := (refillIfNeeded shuffle p).hand ++ [c] }
      | none => refillIfNeeded shuffle p
    else p

/-- `Player::fill_hand`. -/
def Player.fillHand (p : Player) (handSize : Nat)
    (shuffle : List Card → List Card) : Player :=
  fillHandAux shuffle handSize
    (p.deck.length + (shuffle (p.deck ++ p.discard)).length + 1) p

/-- `Player::replace_hand`. -/
def Player.replaceHand (p : Player) (shuffle : List Card → List Card) : Player :=
  let numCurrent := p.hand.length
  Player.fillHand { p with played := p.played ++ p.hand, hand := [] }
    numCurrent shuffle

/-- `Player::finish_turn`. -/
def Player.finishTurn (p : Player) (shuffle : List Card → List Card) : Player :=
  let p1 := { p with discard := p.discard ++ p.played, played := [] }
  let p2 := p1.fillHand handSizeConst shuffle
  { p2 with trashes := 0, canBuy := true }

/-- `Player::num_cards`. -/
def Player.numCards (p : Player) : Nat :=
  p.hand.length + p.deck.length + p.played.length + p.discard.length

/-! ## HexMap (`data.rs`) -/

/-- `slice::partition_point(pred)`: on a slice partitioned by `pred`
(all satisfying elements first) this is the number of leading elements
satisfying `pred`, which is what the binary search computes. -/
def partitionPoint (p : α → Bool) (l : List α) : Nat := (l.takeWhile p).length

/-- `slice::binary_search(&x).ok()` on a sorted slice: the index of a
matching element if one is present (unique here, the repository searches
deduplicated sorted data). -/
def binarySearchIdx (l : List Int) (x : Int) : Option Nat := l.findIdx? (· = x)

/-- `HexMap` from `data.rs`. -/
structure HexMap where
  qs : List Int
  rs : List Int
  nodes : List Node
  finishIdx : Nat
deriving DecidableEq, Repr

/-- The coordinate list `zip(qs, rs)`. -/
def HexMap.coords (m : HexMap) : List AxialCoord :=
  (m.qs.zip m.rs).map fun p => ⟨p.1, p.2⟩

/-- `HexMap::all_nodes`. -/
def HexMap.allNodes (m : HexMap) : List (AxialCoord × Node) :=
  m.coords.zip m.nodes

/-- `HexMap::node_idx`. -/
def HexMap.nodeIdx (m : HexMap) (c : AxialCoord) : Option Nat :=
  let s := partitionPoint (· < c.q) m.qs
  let e := partitionPoint (· = c.q) (m.qs.drop s) + s
  (binarySearchIdx ((m.rs.drop s).take (e - s)) c.r).map (· + s)

/-- `HexMap::node_at`. -/
def HexMap.nodeAt (m : HexMap) (c : AxialCoord) : Option Node :=
  (m.nodeIdx c).bind fun i => m.nodes.get? i

/-- `HexMap::node_at_idx`. -/
def HexMap.nodeAtIdx (m : HexMap) (i : Nat) : Option Node := m.nodes.get? i

/-- `HexMap::coord_at_idx`. -/
def HexMap.coordAtIdx (m : HexMap) (i : Nat) : Option AxialCoord :=
  (m.qs.get? i).bind fun q => (m.rs.get? i).map fun r => ⟨q, r⟩

/-- `HexMap::with_terrain`. -/
def HexMap.withTerrain (m : HexMap) (c : AxialCoord) (t : Terrain) : Option Node :=
  (m.nodeAt c).filter fun n => n.terrain = t

/-- `HexMap::is_finish`. -/
def HexMap.isFinish (m : HexMap) (c : AxialCoord) : Bool :=
  ((m.nodeAt c).map (·.boardIdx)) = some m.finishIdx

/-- The per-board node templates of `boards/*.csv` (`SavedNode`). -/
structure SavedNode where
  terrain : Terrain
  cost : Nat
  coord : AxialCoord
deriving DecidableEq, Repr

/-- `LayoutInfo` from `data.rs`. -/
structure LayoutInfo where
  board : Char
  rot : Nat
  center : AxialCoord
deriving DecidableEq, Repr

/-- One application of the cube rotation `(q, r) ↦ (−r, q + r)`. -/
def rotOnce (c : AxialCoord) : AxialCoord := ⟨-c.r, c.q + c.r⟩

/-- The rotation loop `for _ in 0..rotation`. -/
def rotN : Nat → AxialCoord → AxialCoord
  | 0, c => c
  | n + 1, c => rotN n (rotOnce c)

/-- Rotate then translate one template coordinate per `create_custom`. -/
def placeCoord (info : LayoutInfo) (c : AxialCoord) : AxialCoord :=
  let rc := rotN info.rot c
  ⟨rc.q + info.center.q, rc.r + info.center.r⟩

/-- The node-collection loop of `create_custom`; `i` is the enumeration
index used as `board_idx`.  Board templates live in CSV assets outside the
provided sources, so the loader is a parameter. -/
def buildNodes (loadBoard : Char → Except String (List SavedNode)) :
    List LayoutInfo → Nat → Except String (List (AxialCoord × Node))
  | [], _ => .ok []
  | info :: rest, i =>
    match loadBoard info.board with
    | .error e => .error e
    | .ok boardNodes =>
      match buildNodes loadBoard rest (i + 1) with
      | .error e => .error e
      | .ok tail =>
          .ok ((boardNodes.map fun sn =>
            (placeCoord info sn.coord, Node.mk sn.terrain sn.cost i)) ++ tail)

/-- Insertion step of the modelled sort (`sort_unstable_by_key`). -/
def insertLe (le : α → α → Bool) (x : α) : List α → List α
  | [] => [x]
  | y :: ys => if le x y then x :: y :: ys else y :: insertLe le x ys

/-- The modelled `sort_unstable_by_key` (any sort agreeing with the key
order is a refinement of the unstable sort's contract). -/
def sortLe (le : α → α → Bool) (l : List α) : List α := l.foldr (insertLe le) []

/-- The `windows(2)` overlap check of `create_custom`. -/
def hasAdjDup : List (AxialCoord × Node) → Bool
  | a :: b :: rest => a.1 = b.1 || hasAdjDup (b :: rest)
  | _ => false

/-- Key order used by `create_custom`'s sort: the derived (lexicographic)
`Ord` on `AxialCoord`. -/
def nodeKeyLe (a b : AxialCoord × Node) : Bool := AxialCoord.lexLe a.1 b.1

/-- `HexMap::create_custom`. -/
def createCustom (loadBoard : Char → Except String (List SavedNode))
    (layout : List LayoutInfo) : Except String HexMap :=
  if layout.isEmpty then .error "Cannot create map with an empty layout"
  else
    match buildNodes loadBoard layout 0 with
    | .error e => .error e
    | .ok ns =>
      let sorted := sortLe nodeKeyLe ns
      if hasAdjDup sorted then .error "Overlapping nodes"
      else
        .ok { qs := sorted.map (·.1.q), rs := sorted.map (·.1.r),
              nodes := sorted.map (·.2), finishIdx := layout.length - 1 }

/-! ## HexGraph (`graph.rs`) -/

/-- `usize::MAX`, the missing-neighbor sentinel of the adjacency lists. -/
def usizeMax : Nat := 2 ^ 64 - 1

/-- `i32::MAX`, the unreachable sentinel of the BFS distance array. -/
def intMax : Nat := 2 ^ 31 - 1

/-- `create_adjacencies`. -/
def createAdjacencies (m : HexMap) : List (List Nat) :=
  m.allNodes.map fun pn =>
    allDirections.map fun dir => (m.nodeIdx (dir.neighborCoord pn.1)).getD usizeMax

/-- The BFS seed queue: all finish-board nodes with distance 0. -/
def bfsSeeds (m : HexMap) (finishBoardIdx : Nat) : List (Nat × Nat) :=
  m.allNodes.enum.filterMap fun inode =>
    if inode.2.2.boardIdx = finishBoardIdx then some (inode.1, 0) else none

/-- The neighbor-relaxation inner loop of `create_hex_distances`:
a neighbor whose current distance exceeds `nextDist` and whose cost is
below 10 is rewritten and appended to the queue. -/
def relaxNbrs (m : HexMap) (nextDist : Nat) :
    List Nat → List Nat → List (Nat × Nat) → List Nat × List (Nat × Nat)
  | [], dists, queue => (dists, queue)
  | nbr :: rest, dists, queue =>
    match dists.get? nbr, m.nodes.get? nbr with
    | some d, some nd =>
      if nextDist < d && nd.cost < 10 then
        relaxNbrs m nextDist rest (dists.set nbr nextDist)
          (queue ++ [(nbr, nextDist)])
      else relaxNbrs m nextDist rest dists queue
    | _, _ => relaxNbrs m nextDist rest dists queue

/-- The fuelled BFS work loop of `create_hex_distances`; each iteration
pops the queue front and relaxes its neighbors.  The fuel chosen by
`createHexDistances` provably outlasts the loop, because every queue push
is paired with a strict decrease of an entry of `dists`. -/
def bfsAux (m : HexMap) (adj : List (List Nat)) :
    Nat → List (Nat × Nat) → List Nat → List Nat
  | 0, _, dists => dists
  | _ + 1, [], dists => dists
  | fuel + 1, (idx, dist) :: rest, dists =>
    let step := relaxNbrs m (dist + 1) ((adj.get? idx).getD []) dists rest
    bfsAux m adj fuel step.2 step.1

/-- `create_hex_distances`. -/
def createHexDistances (m : HexMap) (adj : List (List Nat))
    (finishBoardIdx : Nat) : List Nat :=
  let queue := bfsSeeds m finishBoardIdx
  let dists0 := List.replicate adj.length intMax
  let dists := queue.foldl (fun d iv => d.set iv.1 0) dists0
  bfsAux m adj (dists.sum + queue.length + 1) queue dists

/-- `HexGraph` from `graph.rs`. -/
structure HexGraph where
  adj : List (List Nat)
  dists : List Nat
  maxDist : Nat
deriving DecidableEq, Repr

/-- `HexGraph::new`. -/
def HexGraph.new (m : HexMap) : HexGraph :=
  let adj := createAdjacencies m
  let dists := createHexDistances m adj m.finishIdx
  { adj := adj, dists := dists,
    maxDist := (dists.filter (fun d => d < intMax)).foldr max 0 }

/-! ## Actions (`game.rs`) -/

/-- `BuyIndex` from `game.rs`. -/
inductive BuyIndex where
  | shop (i : Nat)
  | storage (i : Nat)
deriving DecidableEq, Repr

/-- `BuyCardAction` from `game.rs`. -/
structure BuyCardAction where
  cards : List Nat
  tokens : List Nat
  index : BuyIndex
deriving DecidableEq, Repr

/-- `MoveAction` from `game.rs`. -/
structure MoveAction where
  cards : List Nat
  tokens : List Nat
  path : List HexDirection
deriving DecidableEq, Repr

/-- `DrawAction` from `game.rs`. -/
structure DrawAction where
  card : Option Nat
  token : Option Nat
deriving DecidableEq, Repr

/-- `PlayerAction` from `game.rs`. -/
inductive PlayerAction where
  | buyCard (b : BuyCardAction)
  | move (m : MoveAction)
  | draw (d : DrawAction)
  | trash (idxs : List Nat)
  | discard (idxs : List Nat)
  | finishTurn
deriving DecidableEq, Repr

/-- `ActionOutcome` from `game.rs`. -/
inductive ActionOutcome where
  | ok
  | ignoreMoveIdx (i : Nat)
  | gameOver
deriving DecidableEq, Repr

/-- `GameState` from `game.rs`. -/
structure GameState where
  map : HexMap
  graph : HexGraph
  barriers : List Barrier
  players : List Player
  shop : List BuyableCard
  storage : List BuyableCard
  bonuses : List (AxialCoord × List BonusToken)
  currPlayerIdx : Nat
  roundIdx : Nat
deriving DecidableEq, Repr

/-- `GameState::is_occupied`: is `pos` held by a player other than the
current player? -/
def GameState.isOccupied (g : GameState) (pos : AxialCoord) : Bool :=
  g.players.enum.any fun ip => ip.2.position = pos && ip.1 ≠ g.currPlayerIdx

/-- `GameState::any_finished_player`. -/
def GameState.anyFinishedPlayer (g : GameState) : Bool :=
  g.players.any fun p => g.map.isFinish p.position

/-- `GameState::has_open_shop`. -/
def GameState.hasOpenShop (g : GameState) : Bool := g.shop.length < 6

/-- `GameState::buyable_card` (direct index; `none` is the panic). -/
def GameState.buyableCard? (g : GameState) : BuyIndex → Option BuyableCard
  | .shop i => g.shop.get? i
  | .storage i => g.storage.get? i

/-- The match closure of `barrier_index`'s linear scan. -/
def barrierLinks (a b : Nat) (bar : Barrier) : Bool :=
  (bar.fromBoard = a && bar.toBoard = b) || (bar.fromBoard = b && bar.toBoard = a)

/-- `GameState::barrier_index`. -/
def GameState.barrierIndex (g : GameState) (fromBoard toBoard : Nat) : Option Nat :=
  if toBoard ≤ fromBoard then none
  else g.barriers.findIdx? (barrierLinks fromBoard toBoard)

/-- `take_card` from `game.rs` (out-of-range index is a no-op: the source
uses `get_mut`). -/
def takeCard (cards : List BuyableCard) (idx : Nat) : List BuyableCard :=
  match cards.get? idx with
  | some card =>
    let card1 : BuyableCard := { card with quantity := card.quantity - 1 }
    let cards1 := cards.set idx card1
    if card1.quantity = 0 then (swapRemoveL cards1 idx).getD cards1 else cards1
  | none => cards

/-- Gold sum over referenced hand-card indices; `none` models the panic of
the direct `hand[*i]` indexing on an out-of-range index. -/
def sumCardGold (hand : List Card) : List Nat → Option Nat
  | [] => some 0
  | i :: rest =>
    match hand.get? i with
    | some c => (sumCardGold hand rest).map (c.goldValue + ·)
    | none => none

/-- Gold sum over referenced token indices (direct `tokens[*i]` indexing). -/
def sumTokenGold (tokens : List BonusToken) : List Nat → Option Nat
  | [] => some 0
  | i :: rest =>
    match tokens.get? i with
    | some t => (sumTokenGold tokens rest).map (t.goldValue + ·)
    | none => none

/-- The "Not enough gold" error of `handle_buy` (the source prints the
integer halves `bucks / 2` and `cost / 2`). -/
def notEnoughGoldMsg (bucksHalf needHalf : Nat) : String :=
  "Not enough gold: have " ++ toString bucksHalf ++ ", need " ++ toString needHalf

/-- The `single_use_idxs` filter of `handle_buy` (indices were already
validated by the gold sum, so the `none` default cannot be hit there). -/
def singleUseIdxs (hand : List Card) (isFreeBuy : Bool) (cards : List Nat) :
    List Nat :=
  cards.filter fun i =>
    match hand.get? i with
    | some c => c.singleUse && (isFreeBuy || decide (0 < c.goldValue))
    | none => false

/-- The mixed-payment loop of `handle_buy`: push every referenced card
that is not single-use onto `played` (returned in push order). -/
def mixedPushLoop (hand : List Card) (suIdxs : List Nat) :
    List Nat → Option (List Card)
  | [] => some []
  | i :: rest =>
    if suIdxs.contains i then mixedPushLoop hand suIdxs rest
    else
      match hand.get? i with
      | some c => (mixedPushLoop hand suIdxs rest).map (c :: ·)
      | none => none

/-- The descending-order token removal loop (`for idx in tokens.iter().rev()
{ swap_remove(*idx) }`). -/
def removeTokens (tokens : List BonusToken) (idxs : List Nat) :
    Option (List BonusToken) :=
  idxs.reverse.foldlM (fun ts i => swapRemoveL ts i) tokens

/-- `GameState::handle_buy`. -/
def GameState.handleBuy (g : GameState) (buy : BuyCardAction) :
    Option (GameState × Except String Unit) :=
  match g.buyableCard? buy.index with
  | none => none
  | some bcard =>
    if bcard.quantity = 0 then some (g, .error "Card is out of stock")
    else
      match g.players.get? g.currPlayerIdx with
      | none => none
      | some player =>
        match sumCardGold player.hand buy.cards,
            sumTokenGold player.tokens buy.tokens with
        | some cg, some tg =>
          let bucks := cg + tg
          let freeBuyCond : Bool :=
            buy.cards.length = 1 &&
              match player.hand.get? (buy.cards.headD 0) with
              | some c => c.action = some CardAction.freeBuy
              | none => false
          if bucks < bcard.cost && !freeBuyCond then
            some (g, .error (notEnoughGoldMsg (bucks / 2) (bcard.cost / 2)))
          else
            let isFreeBuy := decide (bucks < bcard.cost)
            if !isFreeBuy && !player.canBuy then
              some (g, .error "Can only buy one card per turn")
            else
              let suIdxs := singleUseIdxs player.hand isFreeBuy buy.cards
              let card := bcard.toCard
              let acquired : Option (Except String GameState) :=
                if isFreeBuy then
                  match buy.index with
                  | .shop i => some (.ok { g with shop := takeCard g.shop i })
                  | .storage i =>
                      some (.ok { g with storage := takeCard g.storage i })
                else
                  match buy.index with
                  | .shop i => some (.ok { g with shop := takeCard g.shop i })
                  | .storage i =>
                    if !g.hasOpenShop then
                      some (.error "Cannot buy from storage while shop is full")
                    else
                      match swapRemoveGet g.storage i with
                      | some (bc, storageRest) =>
                        let shop1 := g.shop ++ [bc]
                        let g1 : GameState :=
                          { g with storage := storageRest,
                                   shop := takeCard shop1 (shop1.length - 1) }
                        some (.ok g1)
                      | none => none
              match acquired with
              | none => none
              | some (.error e) => some (g, .error e)
              | some (.ok g1) =>
                let player1 :=
                  { player with discard := player.discard ++ [card] }
                let disposed : Option Player :=
                  if suIdxs.isEmpty then player1.markPlayed buy.cards
                  else if suIdxs.length = buy.cards.length then
                    player1.trashCards buy.cards
                  else
                    match mixedPushLoop player1.hand suIdxs buy.cards with
                    | some pushed =>
                        some { player1 with
                          played := player1.played ++ pushed, hand := [] }
                    | none => none
                match disposed with
                | none => none
                | some player2 =>
                  let player3 :=
                    if isFreeBuy then player2
                    else { player2 with canBuy := false }
                  match removeTokens player3.tokens buy.tokens with
                  | none => none
                  | some toks =>
                    let player4 := { player3 with tokens := toks }
                    some ({ g1 with
                        players := g1.players.set g1.currPlayerIdx player4,
                        shop := sortLe
                          (fun a b : BuyableCard => a.cost ≤ b.cost) g1.shop },
                      .ok ())
        | _, _ => none

/-! ### Move handling -/

/-- Debug rendering of an `AxialCoord`, as in the source's error strings. -/
def coordStr (c : AxialCoord) : String :=
  "(" ++ toString c.q ++ "," ++ toString c.r ++ ")"

/-- The loop state of `handle_move`'s path walk. -/
structure WalkAcc where
  pos : AxialCoord
  boardIdx : Nat
  mcJ : Nat
  mcD : Nat
  mcW : Nat
  cardCost : Nat
  brokenBarrier : Option Nat
  visitedCave : Option AxialCoord
  ignoreIdx : Option Nat
deriving DecidableEq, Repr

/-- Short-circuiting `mv.tokens.iter().any(|&i| p(tokens[i]))`; `none`
models the panic of the direct indexing. -/
def anyTokM (p : BonusToken → Bool) (tokens : List BonusToken) :
    List Nat → Option Bool
  | [] => some false
  | i :: rest =>
    match tokens.get? i with
    | some t => if p t then some true else anyTokM p tokens rest
    | none => none

/-- The shared tail of a regular (non-cave) walk step: the occupancy check
followed by the position/board update. -/
def stepRegular (g : GameState) (mv : MoveAction) (tokens : List BonusToken)
    (acc2 : WalkAcc) (npos : AxialCoord) (nextBoardIdx : Nat) :
    Option (Except String WalkAcc) :=
  let finish : Except String WalkAcc :=
    .ok { acc2 with pos := npos, boardIdx := nextBoardIdx }
  if acc2.visitedCave = none then
    if g.isOccupied npos then
      match anyTokM (fun t => t = BonusToken.shareHex) tokens mv.tokens with
      | none => none
      | some true => some finish
      | some false =>
          some (.error ("Cannot move to occupied node " ++ coordStr npos))
    else some finish
  else some finish

/-- One iteration of `handle_move`'s path walk. -/
def walkStep (g : GameState) (mv : MoveAction) (tokens : List BonusToken)
    (pathIdx : Nat) (dir : HexDirection) (acc : WalkAcc) :
    Option (Except String WalkAcc) :=
  let nextPos := dir.neighborCoord acc.pos
  match g.map.nodeAt nextPos with
  | none => some (.error ("No node at position " ++ coordStr nextPos))
  | some nextNode =>
    let nextBoardIdx := nextNode.boardIdx
    match g.barrierIndex acc.boardIdx nextBoardIdx with
    | some barrierIdx =>
      match g.barriers.get? barrierIdx with
      | none => none
      | some bar =>
        let mark : WalkAcc → Except String WalkAcc := fun a =>
          .ok { a with brokenBarrier := some barrierIdx,
                       ignoreIdx := some pathIdx, boardIdx := nextBoardIdx }
        match bar.terrain with
        | .jungle => some (mark { acc with mcJ := acc.mcJ + bar.cost })
        | .desert => some (mark { acc with mcD := acc.mcD + bar.cost })
        | .water => some (mark { acc with mcW := acc.mcW + bar.cost })
        | .swamp => some (mark { acc with cardCost := acc.cardCost + bar.cost })
        | _ => some (.error "Invalid barrier")
    | none =>
      match nextNode.terrain with
      | .invalid =>
          some (.error ("Cannot move onto invalid terrain " ++ coordStr nextPos))
      | .jungle =>
          stepRegular g mv tokens { acc with mcJ := acc.mcJ + nextNode.cost }
            nextPos nextBoardIdx
      | .desert =>
          stepRegular g mv tokens { acc with mcD := acc.mcD + nextNode.cost }
            nextPos nextBoardIdx
      | .water =>
          stepRegular g mv tokens { acc with mcW := acc.mcW + nextNode.cost }
            nextPos nextBoardIdx
      | .swamp =>
          stepRegular g mv tokens
            { acc with cardCost := acc.cardCost + nextNode.cost }
            nextPos nextBoardIdx
      | .village =>
          stepRegular g mv tokens
            { acc with cardCost := acc.cardCost + nextNode.cost }
            nextPos nextBoardIdx
      | .cave =>
          some (.ok { acc with visitedCave := some nextPos,
                               ignoreIdx := some pathIdx,
                               boardIdx := nextBoardIdx })

/-- The path walk of `handle_move`. -/
def walkPath (g : GameState) (mv : MoveAction) (tokens : List BonusToken) :
    List HexDirection → Nat → WalkAcc → Option (Except String WalkAcc)
  | [], _, acc => some (.ok acc)
  | dir :: rest, pathIdx, acc =>
    match walkStep g mv tokens pathIdx dir acc with
    | none => none
    | some (.error e) => some (.error e)
    | some (.ok acc2) => walkPath g mv tokens rest (pathIdx + 1) acc2

/-- `MoveAction::is_free_move`. -/
def MoveAction.isFreeMove (mv : MoveAction) (player : Player) : Bool :=
  match (if mv.cards.length = 1 then player.hand.get? (mv.cards.headD 0)
         else none) with
  | some c => c.action = some CardAction.freeMove
  | none =>
    match (if mv.tokens.length = 1 then player.tokens.get? (mv.tokens.headD 0)
           else none) with
    | some t => t = BonusToken.freeMove
    | none => false

/-- `GameState::give_bonus`. -/
def GameState.giveBonus (g : GameState) (pos : AxialCoord) :
    Option (Except String GameState) :=
  match g.bonuses.findIdx? (fun pt => pt.1 = pos) with
  | none => some (.error ("No cave at " ++ coordStr pos))
  | some bi =>
    match g.bonuses.get? bi with
    | none => none
    | some pt =>
      match popLast pt.2 with
      | none =>
          some (.error ("No bonus tokens remaining in cave at " ++ coordStr pos))
      | some (tok, toksRest) =>
        match g.players.get? g.currPlayerIdx with
        | none => none
        | some p =>
          let p1 := { p with tokens := p.tokens ++ [tok],
                             visitedCaves := p.visitedCaves ++ [pos] }
          let g1 : GameState :=
            { g with bonuses := g.bonuses.set bi (pt.1, toksRest),
                     players := g.players.set g.currPlayerIdx p1 }
          some (.ok g1)

/-- The free-move adjustment block of `handle_move`: on a free move the
accumulated costs are zeroed, except that a Swamp barrier's card cost is
re-charged; movement-typed barriers cannot be broken for free.  Returns
the adjusted `(moveCost, cardCost)`. -/
def freeMoveAdjust (g : GameState) (mv : MoveAction) (player : Player)
    (acc : WalkAcc) : Option (Except String (Nat × Nat × Nat × Nat)) :=
  if mv.isFreeMove player then
    if mv.path.length ≠ 1 then
      some (.error "Only one step allowed for free movement")
    else
      match acc.brokenBarrier with
      | none => some (.ok (0, 0, 0, 0))
      | some bIdx =>
        match g.barriers.get? bIdx with
        | none => none
        | some bar =>
          match bar.terrain with
          | .jungle => some (.error "Cannot break barriers with a free move")
          | .desert => some (.error "Cannot break barriers with a free move")
          | .water => some (.error "Cannot break barriers with a free move")
          | .swamp => some (.ok (0, 0, 0, bar.cost))
          | _ => some (.error "Invalid barrier")
  else some (.ok (acc.mcJ, acc.mcD, acc.mcW, acc.cardCost))

/-- The token-only movement validation loop of `handle_move`; returns the
`ShareHex` count. -/
def tokenMoveLoop (tokens : List BonusToken) (mcJ mcD mcW : Nat) :
    List Nat → Nat → Option (Except String Nat)
  | [], cnt => some (.ok cnt)
  | i :: rest, cnt =>
    match tokens.get? i with
    | none => none
    | some t =>
      match t with
      | .jungle m =>
        if m < mcJ then some (.error "Not enough jungle movement on token")
        else tokenMoveLoop tokens mcJ mcD mcW rest cnt
      | .desert m =>
        if m < mcD then some (.error "Not enough desert movement on token")
        else tokenMoveLoop tokens mcJ mcD mcW rest cnt
      | .water m =>
        if m < mcW then some (.error "Not enough water movement on token")
        else tokenMoveLoop tokens mcJ mcD mcW rest cnt
      | .freeMove => tokenMoveLoop tokens mcJ mcD mcW rest cnt
      | .shareHex => tokenMoveLoop tokens mcJ mcD mcW rest (cnt + 1)
      | .swapSymbol => some (.error "Only cards can have their symbols swapped")
      | _ => some (.error "Cannot use token to move")

/-- The payment-validation phase of `handle_move` (after the walk, the
cave early-return and the free-move adjustment); returns `is_single_use`. -/
def moveValidate (player : Player) (mv : MoveAction)
    (mcJ mcD mcW cardCost : Nat) : Option (Except String Bool) :=
  let tokens := player.tokens
  if 0 < cardCost then
    if mv.path.length ≠ 1 then
      some (.error "Can only move one step when discarding/trashing cards")
    else if mv.cards.length ≠ cardCost then
      some (.error ("Need " ++ toString cardCost ++
        " cards to discard/trash, but got " ++ toString mv.cards.length))
    else if 1 < mv.tokens.length then
      some (.error
        "Only the ShareHex token can be used when discarding/trashing cards")
    else if mv.tokens.length = 1 then
      match tokens.get? (mv.tokens.headD 0) with
      | none => none
      | some t =>
        if t = BonusToken.shareHex then some (.ok false)
        else
          some (.error
            "Only the ShareHex token can be used when discarding/trashing cards")
    else some (.ok false)
  else
    let totalCost := mcJ + mcD + mcW
    let maxCost := max mcJ (max mcD mcW)
    if totalCost ≠ maxCost then
      some (.error ("Path must contain a single movement type, got J=" ++
        toString mcJ ++ ", D=" ++ toString mcD ++ ", W=" ++ toString mcW))
    else if !mv.cards.isEmpty then
      if mv.cards.length ≠ 1 then
        some (.error ("Must use a single card to move, got " ++
          toString mv.cards.length))
      else
        match player.hand.get? (mv.cards.headD 0) with
        | none => none
        | some card =>
          let capCheck : Option (Except String Unit) :=
            match anyTokM (fun t => t = BonusToken.swapSymbol) tokens mv.tokens with
            | none => none
            | some true =>
              if card.movement.maxv < maxCost then
                some (.error ("Need " ++ toString maxCost ++
                  "+ movement, but card can only move " ++
                  toString card.movement.maxv))
              else some (.ok ())
            | some false =>
              if card.movement.j < mcJ then
                some (.error ("Need " ++ toString mcJ ++
                  "+ jungle movement on card"))
              else if card.movement.d < mcD then
                some (.error ("Need " ++ toString mcD ++
                  "+ desert movement on card"))
              else if card.movement.w < mcW then
                some (.error ("Need " ++ toString mcW ++
                  "+ water movement on card"))
              else some (.ok ())
          match capCheck with
          | none => none
          | some (.error e) => some (.error e)
          | some (.ok _) =>
            if card.singleUse then
              match anyTokM (fun t => t = BonusToken.doubleUse) tokens mv.tokens with
              | none => none
              | some b => some (.ok !b)
            else some (.ok false)
    else if !mv.tokens.isEmpty then
      match tokenMoveLoop tokens mcJ mcD mcW mv.tokens 0 with
      | none => none
      | some (.error e) => some (.error e)
      | some (.ok cnt) =>
        if 1 < cnt then
          some (.error "Can only use one ShareHex token per move")
        else if mv.tokens.length - cnt ≠ 1 then
          some (.error ("Must use exactly one movement token to move, got " ++
            toString (mv.tokens.length - cnt)))
        else some (.ok false)
    else some (.error "Must use cards or tokens to move")

/-- The mutation phase of `handle_move` (runs after all validation). -/
def GameState.moveApply (g : GameState) (mv : MoveAction) (acc : WalkAcc)
    (cardCost : Nat) (isSingleUse : Bool) : Option GameState :=
  match g.players.get? g.currPlayerIdx with
  | none => none
  | some player0 =>
    let player := { player0 with position := acc.pos }
    let disposed : Option Player :=
      if isSingleUse ||
          (0 < cardCost && (g.map.withTerrain acc.pos Terrain.village).isSome) then
        player.trashCards mv.cards
      else player.markPlayed mv.cards
    match disposed with
    | none => none
    | some player2 =>
      let player3 := { player2 with
        visitedCaves := player2.visitedCaves.filter
          (fun cp => acc.pos.isAdjacent cp) }
      match removeTokens player3.tokens mv.tokens with
      | none => none
      | some toks =>
        let player4 := { player3 with tokens := toks }
        match acc.brokenBarrier with
        | none =>
            some { g with players := g.players.set g.currPlayerIdx player4 }
        | some bIdx =>
          match g.barriers.get? bIdx, swapRemoveL g.barriers bIdx with
          | some bar, some barriers2 =>
            let player5 := { player4 with
              brokenBarriers :=
                player4.brokenBarriers ++ [BrokenBarrier.mk bar.terrain bar.cost] }
            let g2 : GameState :=
              { g with players := g.players.set g.currPlayerIdx player5,
                       barriers := barriers2 }
            some g2
          | _, _ => none

/-- `GameState::handle_move`.  The `Option Nat` payload of the `ok` result
is the path index to ignore for history replay. -/
def GameState.handleMove (g : GameState) (mv : MoveAction) :
    Option (GameState × Except String (Option Nat)) :=
  if mv.path.isEmpty then some (g, .error "Must move at least once")
  else
    match g.players.get? g.currPlayerIdx with
    | none => none
    | some player =>
      let tokens := player.tokens
      match g.map.nodeAt player.position with
      | none => some (g, .error "Invalid position")
      | some startNode =>
        let acc0 : WalkAcc :=
          { pos := player.position, boardIdx := startNode.boardIdx,
            mcJ := 0, mcD := 0, mcW := 0, cardCost := 0,
            brokenBarrier := none, visitedCave := none, ignoreIdx := none }
        match walkPath g mv tokens mv.path 0 acc0 with
        | none => none
        | some (.error e) => some (g, .error e)
        | some (.ok acc) =>
          match acc.visitedCave with
          | some cavePos =>
            if mv.path.length ≠ 1 then
              some (g, .error "Can only visit adjacent caves")
            else if !mv.cards.isEmpty then
              some (g, .error "Cannot use cards to visit a cave")
            else if player.visitedCaves.contains cavePos then
              some (g, .error
                "Already visited this cave, must move away before returning")
            else
              match g.giveBonus cavePos with
              | none => none
              | some (.error e) => some (g, .error e)
              | some (.ok g2) => some (g2, .ok acc.ignoreIdx)
          | none =>
            match freeMoveAdjust g mv player acc with
            | none => none
            | some (.error e) => some (g, .error e)
            | some (.ok (mcJ, mcD, mcW, cardCost)) =>
              match moveValidate player mv mcJ mcD mcW cardCost with
              | none => none
              | some (.error e) => some (g, .error e)
              | some (.ok isSingleUse) =>
                match g.moveApply mv acc cardCost isSingleUse with
                | none => none
                | some g2 => some (g2, .ok acc.ignoreIdx)

/-! ### Draw / Trash / process_action -/

/-- `GameState::handle_draw`.  Index errors here are `Err`s, not panics:
the source uses checked `get` plus `ok_or`. -/
def GameState.handleDraw (g : GameState) (draw : DrawAction)
    (shuffle : List Card → List Card) :
    Option (GameState × Except String Unit) :=
  match g.players.get? g.currPlayerIdx with
  | none => none
  | some player =>
    let hand := player.hand
    let handLen := hand.length
    let tokens := player.tokens
    match draw.card with
    | some i =>
      match hand.get? i with
      | none =>
        some (g, .error ("Invalid card index " ++ toString i ++ ", given " ++
          toString handLen ++ " cards in hand"))
      | some card =>
        let tokCheck : Except String Bool :=
          match draw.token with
          | some tidx =>
            match tokens.get? tidx with
            | none =>
              .error ("Invalid token index " ++ toString tidx ++ ", given " ++
                toString tokens.length ++ " tokens")
            | some tok =>
              if tok = BonusToken.doubleUse then .ok false
              else .error "Cannot use token when drawing cards with a card"
          | none => .ok card.singleUse
        match tokCheck with
        | .error e => some (g, .error e)
        | .ok isSingleUse =>
          let fillSpec : Except String (Nat × Nat) :=
            match card.action with
            | some (.draw n) => .ok (n, 0)
            | some (.drawAndTrash n) => .ok (n, n)
            | _ => .error "Cannot use card to draw more cards"
          match fillSpec with
          | .error e => some (g, .error e)
          | .ok (n, extraTrashes) =>
            let player1 := player.fillHand (handLen + n) shuffle
            let player2 := { player1 with trashes := player1.trashes + extraTrashes }
            let disposed : Option Player :=
              if isSingleUse then player2.trashCards [i]
              else player2.markPlayed [i]
            match disposed with
            | none => none
            | some player3 =>
              match draw.token with
              | some tidx =>
                match swapRemoveL player3.tokens tidx with
                | none => none
                | some toks =>
                  let player4 := { player3 with tokens := toks }
                  some ({ g with
                    players := g.players.set g.currPlayerIdx player4 }, .ok ())
              | none =>
                some ({ g with
                  players := g.players.set g.currPlayerIdx player3 }, .ok ())
    | none =>
      match draw.token with
      | some i =>
        match tokens.get? i with
        | none =>
          some (g, .error ("Invalid token index " ++ toString i ++ ", given " ++
            toString tokens.length ++ " tokens"))
        | some tok =>
          let effect : Except String Player :=
            match tok with
            | .drawCard => .ok (player.fillHand (handLen + 1) shuffle)
            | .trashCard => .ok { player with trashes := player.trashes + 1 }
            | .replaceHand => .ok (player.replaceHand shuffle)
            | _ => .error "Cannot use token to draw cards"
          match effect with
          | .error e => some (g, .error e)
          | .ok player1 =>
            match swapRemoveL player1.tokens i with
            | none => none
            | some toks =>
              let player2 := { player1 with tokens := toks }
              some ({ g with
                players := g.players.set g.currPlayerIdx player2 }, .ok ())
      | none =>
        some (g, .error "Must specify a card or token to use for drawing cards")

/-- `GameState::handle_trash`. -/
def GameState.handleTrash (g : GameState) (trash : List Nat) :
    Option (GameState × Except String Unit) :=
  match g.players.get? g.currPlayerIdx with
  | none => none
  | some player =>
    if player.trashes < trash.length then
      some (g, .error ("Cannot trash " ++ toString trash.length ++
        " cards when " ++ toString player.trashes ++ " are allowed"))
    else
      match player.trashCards trash with
      | none => none
      | some p2 =>
        let p3 := { p2 with trashes := p2.trashes - trash.length }
        some ({ g with players := g.players.set g.currPlayerIdx p3 }, .ok ())

/-- `GameState::process_action`: the sole mutator.  The result is
`none` for a panic, `some (s, .error e)` for an `Err` return (with `s`
the state held by `&mut self` at that moment), and `some (s, .ok o)` on
success. -/
def GameState.processAction (g : GameState) (action : PlayerAction)
    (shuffle : List Card → List Card) :
    Option (GameState × Except String ActionOutcome) :=
  match action with
  | .buyCard buy =>
    (g.handleBuy buy).map fun r => (r.1, r.2.map fun _ => ActionOutcome.ok)
  | .move mv =>
    (g.handleMove mv).map fun r =>
      (r.1, r.2.map fun oi =>
        match oi with
        | some i => ActionOutcome.ignoreMoveIdx i
        | none => ActionOutcome.ok)
  | .draw d =>
    (g.handleDraw d shuffle).map fun r => (r.1, r.2.map fun _ => ActionOutcome.ok)
  | .trash t =>
    (g.handleTrash t).map fun r => (r.1, r.2.map fun _ => ActionOutcome.ok)
  | .discard cards =>
    match g.players.get? g.currPlayerIdx with
    | none => none
    | some p =>
      (p.discardCards cards).map fun p2 =>
        ({ g with players := g.players.set g.currPlayerIdx p2 },
          .ok ActionOutcome.ok)
  | .finishTurn =>
    match g.players.get? g.currPlayerIdx with
    | none => none
    | some p =>
      let g1 : GameState :=
        { g with players := g.players.set g.currPlayerIdx (p.finishTurn shuffle) }
      if g1.currPlayerIdx + 1 = g1.players.length then
        let g2 : GameState :=
          { g1 with currPlayerIdx := 0, roundIdx := g1.roundIdx + 1 }
        if g2.anyFinishedPlayer then some (g2, .ok ActionOutcome.gameOver)
        else some (g2, .ok ActionOutcome.ok)
      else
        some ({ g1 with currPlayerIdx := g1.currPlayerIdx + 1 },
          .ok ActionOutcome.ok)

/-! ## Concrete fixtures used by witnesses and counterexamples -/

/-- A two-node map: (0,0) on board 0 and (1,0) on board 1 (the finish),
both Jungle of cost 1; the nodes are lexicographically sorted. -/
def mapA : HexMap :=
  { qs := [0, 1], rs := [0, 0],
    nodes := [Node.mk Terrain.jungle 1 0, Node.mk Terrain.jungle 1 1],
    finishIdx := 1 }

/-- A placeholder graph for states whose claims never consult it. -/
def emptyGraph : HexGraph := { adj := [], dists := [], maxDist := 0 }

/-- A blank player at (0,0). -/
def basePlayer : Player :=
  { position := ⟨0, 0⟩, deck := [], hand := [], played := [], discard := [],
    tokens := [], trashes := 0, canBuy := true, visitedCaves := [],
    brokenBarriers := [] }

/-- A minimal one-player state on `mapA`. -/
def baseState : GameState :=
  { map := mapA, graph := emptyGraph, barriers := [], players := [basePlayer],
    shop := [], storage := [], bonuses := [], currPlayerIdx := 0,
    roundIdx := 0 }

/-- State with a single barrier between boards 0 and 1. -/
def c7state : GameState :=
  { baseState with barriers := [Barrier.mk 0 1 Terrain.jungle 1 []] }

/-- A card with no movement capacity whose action is `FreeMove`. -/
def freeMoveCard : Card := Card.mk (Movement.mk 0 0 0) false (some CardAction.freeMove)

/-- One-player state holding only `freeMoveCard`. -/
def c3state : GameState :=
  { baseState with players := [{ basePlayer with hand := [freeMoveCard] }] }

/-- Move one step east, paying with hand card 0 and no tokens. -/
def c3move : MoveAction := MoveAction.mk [0] [] [HexDirection.east]

/-- One-player state holding only an Explorer (1 jungle movement). -/
def c3wstate : GameState :=
  { baseState with players := [{ basePlayer with hand := [Card.explorer] }] }

/-- A one-node board template: a jungle node of cost 1 at the origin. -/
def c9load : Char → Except String (List SavedNode) :=
  fun _ => .ok [SavedNode.mk Terrain.jungle 1 ⟨0, 0⟩]

/-- Two copies of the template, centred at (0,0) and (1,0). -/
def c9layout : List LayoutInfo :=
  [LayoutInfo.mk 'B' 0 ⟨0, 0⟩, LayoutInfo.mk 'B' 0 ⟨1, 0⟩]

/-- A layout placing both copies at the same centre (overlapping). -/
def c9dupLayout : List LayoutInfo :=
  [LayoutInfo.mk 'B' 0 ⟨0, 0⟩, LayoutInfo.mk 'B' 0 ⟨0, 0⟩]

/-- A one-node map whose single node sits on the finish segment with
cost 10. -/
def c5map : HexMap :=
  { qs := [0], rs := [0], nodes := [Node.mk Terrain.jungle 10 0],
    finishIdx := 0 }

/-- Fixture for the C10 witness: the mover at (0,0), another player at
(1,0). -/
def c10state : GameState :=
  { baseState with
    players := [basePlayer, { basePlayer with position := ⟨1, 0⟩ }] }

/-- Fixture for the C4 witness: a Sailor in hand (gold value 1) cannot pay
for the cost-2 Scout. -/
def c4state : GameState :=
  { baseState with
    shop := [BuyableCard.mk 2 (Card.mk (Movement.mk 2 0 0) false none) 3],
    players := [{ basePlayer with hand := [Card.sailor] }] }

/-- The Treasure chest: a single-use card with desert movement 4. -/
def treasureChest : Card := Card.mk (Movement.mk 0 4 0) true none

/-- Fixture for C2: hand = [Treasure chest (single-use), Traveler,
Explorer]; shop sells a Scout for 2. -/
def c2state : GameState :=
  { baseState with
    shop := [BuyableCard.mk 2 (Card.mk (Movement.mk 2 0 0) false none) 3],
    players := [{ basePlayer with
      hand := [treasureChest, Card.traveler, Card.explorer] }] }

/-- One observable transition of the engine: some action was processed
(successfully or not, the state `&mut self` holds afterwards). -/
def GameStep (g g' : GameState) : Prop :=
  ∃ (a : PlayerAction) (sh : List Card → List Card)
    (r : Except String ActionOutcome), g.processAction a sh = some (g', r)

/-- Finitely many engine transitions. -/
def Reachable : GameState → GameState → Prop := Relation.ReflTransGen GameStep

/-- No active barrier links segments `a` and `b`. -/
def AbsentBetween (g : GameState) (a b : Nat) : Prop :=
  ∀ bar ∈ g.barriers, barrierLinks a b bar = false

/-- Fixture for the C6 witness: one barrier between boards 0 and 1, the
mover holding an Explorer. -/
def c6wstate : GameState :=
  { baseState with
    barriers := [Barrier.mk 0 1 Terrain.jungle 1 []],
    players := [{ basePlayer with hand := [Card.explorer] }] }

/-- The state after the barrier-breaking move in the C6 witness. -/
def c6next : GameState :=
  { c6wstate with
    barriers := [],
    players := [{ basePlayer with
      hand := [], played := [Card.explorer],
      brokenBarriers := [BrokenBarrier.mk Terrain.jungle 1] }] }

/-! ## C7 — `barrier_index` ordering -/

/-- C7 counterexample: `barrier_index` is not order-independent.  With one
active barrier between boards 0 and 1, `barrier_index(0, 1)` finds it but
`barrier_index(1, 0)` returns `None`, because the function returns `None`
whenever `from_board >= to_board`. -/
theorem c7_counterexample :
    c7state.barrierIndex 0 1 = some 0 ∧ c7state.barrierIndex 1 0 = none := by
  decide

/-- C7 (amended): `barrier_index(a, b)` returns `None` whenever `a ≥ b`;
for `a < b` it scans the active barriers orientation-independently and
returns the index of the first (hence, when barriers are unique per pair,
the unique) active barrier between segments `a` and `b`, and `None`
otherwise.  In particular it is not symmetric in its arguments. -/
theorem c7_barrier_index_spec (g : GameState) (a b : Nat) :
    (b ≤ a → g.barrierIndex a b = none) ∧
    (∀ i, g.barrierIndex a b = some i →
      a < b ∧ ∃ bar, g.barriers.get? i = some bar ∧ barrierLinks a b bar = true ∧
        ∀ j bar2, j < i → g.barriers.get? j = some bar2 →
          barrierLinks a b bar2 = false) ∧
    (a < b → ∀ bar ∈ g.barriers, barrierLinks a b bar = true →
      ∃ i, g.barrierIndex a b = some i) := by
  refine ⟨fun hba => ?_, fun i hi => ?_, fun hab bar hmem hlink => ?_⟩
  · simp [GameState.barrierIndex, hba]
  · rw [GameState.barrierIndex] at hi
    split at hi
    · exact absurd hi (by simp)
    · rename_i hguard
      have hab : a < b := by omega
      rw [List.findIdx?_eq_some_iff_getElem] at hi
      obtain ⟨hlt, hp, hprev⟩ := hi
      refine ⟨hab, g.barriers[i], by simp [List.get?_eq_getElem?, hlt], hp, ?_⟩
      intro j bar2 hj hbar2
      have hjlt : j < g.barriers.length := Nat.lt_trans hj hlt
      have : g.barriers[j] = bar2 := by
        simpa [List.get?_eq_getElem?, hjlt] using hbar2
      have := hprev j hj
      simp [this] at *
      simpa [‹g.barriers[j] = bar2›] using hprev j hj
  · have hany : g.barriers.any (barrierLinks a b) = true :=
      List.any_eq_true.mpr ⟨bar, hmem, hlink⟩
    have : (g.barriers.findIdx? (barrierLinks a b)).isSome := by
      rw [List.findIdx?_isSome]; exact hany
    obtain ⟨i, hi⟩ := Option.isSome_iff_exists.mp this
    refine ⟨i, ?_⟩
    simp [GameState.barrierIndex, Nat.not_le.mpr hab, hi]

/-- C7 witness: the amended statement applied at the concrete fixture. -/
theorem c7_witness : c7state.barrierIndex 1 0 = none :=
  (c7_barrier_index_spec c7state 1 0).1 (by decide)

/-! ## C10 — occupancy excludes the current player -/

/-- C10: `is_occupied(pos)` holds exactly when a player other than the
current player stands at `pos`; hence a destination holding only the mover
is never occupied, while a single-step Move onto a node held by another
player fails when no referenced token is a ShareHex token. -/
theorem c10_is_occupied_spec (g : GameState) (pos : AxialCoord) :
    (g.isOccupied pos = true ↔
      ∃ i p, g.players.get? i = some p ∧ i ≠ g.currPlayerIdx ∧
        p.position = pos) ∧
    ((∀ i p, g.players.get? i = some p → i ≠ g.currPlayerIdx →
        p.position ≠ pos) → g.isOccupied pos = false) ∧
    (∀ (sh : List Card → List Card) (mv : MoveAction) (p : Player)
        (startNode nextNode : Node) (dir : HexDirection),
      g.players.get? g.currPlayerIdx = some p →
      mv.path = [dir] →
      g.map.nodeAt p.position = some startNode →
      g.map.nodeAt (dir.neighborCoord p.position) = some nextNode →
      g.barrierIndex startNode.boardIdx nextNode.boardIdx = none →
      nextNode.terrain ≠ Terrain.invalid →
      nextNode.terrain ≠ Terrain.cave →
      g.isOccupied (dir.neighborCoord p.position) = true →
      anyTokM (fun t => t = BonusToken.shareHex) p.tokens mv.tokens =
        some false →
      g.processAction (.move mv) sh =
        some (g, .error ("Cannot move to occupied node " ++
          coordStr (dir.neighborCoord p.position)))) := by
  have hiff : g.isOccupied pos = true ↔
      ∃ i p, g.players.get? i = some p ∧ i ≠ g.currPlayerIdx ∧
        p.position = pos := by
    rw [GameState.isOccupied, List.any_eq_true]
    constructor
    · rintro ⟨⟨i, p⟩, hmem, hpred⟩
      rw [List.mk_mem_enum_iff_getElem?] at hmem
      simp only [Bool.and_eq_true, decide_eq_true_eq, ne_eq,
        Bool.not_eq_true', decide_eq_false_iff_not] at hpred
      exact ⟨i, p, by simpa [List.get?_eq_getElem?] using hmem,
        hpred.2, hpred.1⟩
    · rintro ⟨i, p, hget, hne, hpos⟩
      refine ⟨(i, p), List.mk_mem_enum_iff_getElem?.mpr
        (by simpa [List.get?_eq_getElem?] using hget), ?_⟩
      simp [hpos, hne]
  refine ⟨hiff, fun h => ?_, ?_⟩
  · cases hocc : g.isOccupied pos with
    | false => rfl
    | true =>
      obtain ⟨i, p, hget, hne, hpos⟩ := hiff.mp hocc
      exact absurd hpos (h i p hget hne)
  · intro sh mv p startNode nextNode dir hp hpath hstart hnext hbar hinv
      hcave hocc hshare
    have hne : mv.path.isEmpty = false := by simp [hpath]
    simp only [GameState.processAction, GameState.handleMove, hne,
      Bool.false_eq_true, if_false, hp, hstart, hpath, walkPath, walkStep,
      hnext, hbar]
    cases htt : nextNode.terrain with
    | invalid => exact absurd htt hinv
    | cave => exact absurd htt hcave
    | jungle => simp [stepRegular, hocc, hshare, Except.map]
    | desert => simp [stepRegular, hocc, hshare, Except.map]
    | water => simp [stepRegular, hocc, hshare, Except.map]
    | swamp => simp [stepRegular, hocc, hshare, Except.map]
    | village => simp [stepRegular, hocc, hshare, Except.map]

/-- C10 witness: the theorem applied at the concrete fixture — the move
onto the occupied node fails and the state is unchanged. -/
theorem c10_witness :
    c10state.processAction (.move (MoveAction.mk [] [] [.east])) id =
      some (c10state, .error ("Cannot move to occupied node " ++
        coordStr ⟨1, 0⟩)) := by
  have h := (c10_is_occupied_spec c10state ⟨1, 0⟩).2.2 id
    (MoveAction.mk [] [] [.east]) basePlayer
    (Node.mk Terrain.jungle 1 0) (Node.mk Terrain.jungle 1 1) .east
    (by decide) rfl (by decide) (by decide) (by decide) (by decide)
    (by decide) (by decide) (by decide)
  simpa using h

/-! ## C4 — buy payment -/

/-- C4: the payment of a `BuyCard` action is the sum of `gold_value` over
the referenced hand cards and tokens, a card's gold value is
`max(1, 2 × desert movement)`, only a Desert token has nonzero gold value,
and whenever payment is below the listed cost the purchase succeeds only
when exactly one card is referenced and it carries the FreeBuy action —
otherwise `handle_buy` returns the insufficient-gold error. -/
theorem c4_buy_payment_spec :
    (∀ t : BonusToken, 0 < t.goldValue → ∃ v, t = BonusToken.desert v) ∧
    (∀ c : Card, c.goldValue = max 1 (2 * c.movement.d)) ∧
    (∀ (hand : List Card) idxs s, sumCardGold hand idxs = some s →
      s = ((idxs.filterMap fun i => hand.get? i).map Card.goldValue).sum) ∧
    (∀ (toks : List BonusToken) idxs s, sumTokenGold toks idxs = some s →
      s = ((idxs.filterMap fun i => toks.get? i).map BonusToken.goldValue).sum) ∧
    (∀ (g : GameState) (buy : BuyCardAction) (bcard : BuyableCard)
        (p : Player) (cg tg : Nat),
      g.buyableCard? buy.index = some bcard →
      bcard.quantity ≠ 0 →
      g.players.get? g.currPlayerIdx = some p →
      sumCardGold p.hand buy.cards = some cg →
      sumTokenGold p.tokens buy.tokens = some tg →
      cg + tg < bcard.cost →
      ¬(buy.cards.length = 1 ∧ ∃ c, p.hand.get? (buy.cards.headD 0) = some c ∧
          c.action = some CardAction.freeBuy) →
      g.handleBuy buy =
        some (g, .error (notEnoughGoldMsg ((cg + tg) / 2) (bcard.cost / 2)))) ∧
    (∀ (g : GameState) (buy : BuyCardAction) (bcard : BuyableCard)
        (p : Player) (cg tg : Nat) (g' : GameState) (r : Unit),
      g.buyableCard? buy.index = some bcard →
      g.players.get? g.currPlayerIdx = some p →
      sumCardGold p.hand buy.cards = some cg →
      sumTokenGold p.tokens buy.tokens = some tg →
      cg + tg < bcard.cost →
      g.handleBuy buy = some (g', .ok r) →
      buy.cards.length = 1 ∧ ∃ c, p.hand.get? (buy.cards.headD 0) = some c ∧
        c.action = some CardAction.freeBuy) := by
  refine ⟨?_, ?_, ?_, ?_, ?_, ?_⟩
  · intro t h
    cases t <;> simp [BonusToken.goldValue] at h ⊢
  · intro c; rfl
  · intro hand idxs
    induction idxs with
    | nil => intro s hs; simp [sumCardGold] at hs; simp [← hs]
    | cons i rest ih =>
      intro s hs
      rw [sumCardGold, List.get?_eq_getElem?] at hs
      cases hg : hand[i]? with
      | none => simp [hg] at hs
      | some c =>
        simp only [hg, Option.map_eq_some'] at hs
        obtain ⟨s1, hs1, rfl⟩ := hs
        simp [List.filterMap_cons, List.get?_eq_getElem?, hg, ih s1 hs1]
  · intro toks idxs
    induction idxs with
    | nil => intro s hs; simp [sumTokenGold] at hs; simp [← hs]
    | cons i rest ih =>
      intro s hs
      rw [sumTokenGold, List.get?_eq_getElem?] at hs
      cases hg : toks[i]? with
      | none => simp [hg] at hs
      | some c =>
        simp only [hg, Option.map_eq_some'] at hs
        obtain ⟨s1, hs1, rfl⟩ := hs
        simp [List.filterMap_cons, List.get?_eq_getElem?, hg, ih s1 hs1]
  · intro g buy bcard p cg tg hbc h0 hp hs1 hs2 hlt hnf
    have hfc : (decide (buy.cards.length = 1) &&
        match p.hand.get? (buy.cards.headD 0) with
        | some c => decide (c.action = some CardAction.freeBuy)
        | none => false) = false := by
      cases hlen : decide (buy.cards.length = 1) with
      | false => simp [hlen]
      | true =>
        have hlen' : buy.cards.length = 1 := of_decide_eq_true hlen
        cases hg : p.hand.get? (buy.cards.headD 0) with
        | none => simp [hlen, hg]
        | some c =>
          have hc : ¬(c.action = some CardAction.freeBuy) := fun hc =>
            hnf ⟨hlen', c, hg, hc⟩
          simp [hlen, hg, hc]
    rw [GameState.handleBuy, hbc]
    simp only [hp, hs1, hs2]
    rw [if_neg h0]
    rw [if_pos (by rw [hfc]; simp [hlt])]
  · intro g buy bcard p cg tg g' r hbc hp hs1 hs2 hlt hok
    rw [GameState.handleBuy, hbc] at hok
    simp only [hp, hs1, hs2] at hok
    by_cases h0 : bcard.quantity = 0
    · rw [if_pos h0] at hok
      exact absurd hok (by simp)
    · rw [if_neg h0] at hok
      by_cases hfc : (decide (buy.cards.length = 1) &&
          match p.hand.get? (buy.cards.headD 0) with
          | some c => decide (c.action = some CardAction.freeBuy)
          | none => false) = true
      · rw [Bool.and_eq_true] at hfc
        refine ⟨of_decide_eq_true hfc.1, ?_⟩
        cases hg : p.hand.get? (buy.cards.headD 0) with
        | none => rw [hg] at hfc; exact absurd hfc.2 (by simp)
        | some c =>
          rw [hg] at hfc
          exact ⟨c, rfl, of_decide_eq_true hfc.2⟩
      · rw [Bool.not_eq_true] at hfc
        rw [if_pos (by rw [hfc]; simp [hlt])] at hok
        exact absurd hok (by simp)

/-- C4 witness: buying with insufficient gold and no FreeBuy card yields
the insufficient-gold error (state unchanged). -/
theorem c4_witness :
    c4state.handleBuy (BuyCardAction.mk [0] [] (.shop 0)) =
      some (c4state, .error (notEnoughGoldMsg 0 1)) := by
  have h := c4_buy_payment_spec.2.2.2.2.1 c4state
    (BuyCardAction.mk [0] [] (.shop 0))
    (BuyableCard.mk 2 (Card.mk (Movement.mk 2 0 0) false none) 3)
    { basePlayer with hand := [Card.sailor] } 1 0
    (by decide) (by decide) (by decide) (by decide) (by decide) (by decide)
    (by decide)
  simpa using h

/-! ## C2 — card conservation is broken by the mixed-payment branch -/

/-- C2: buying the Scout with cards [0, 1] (a single-use card plus a
regular card) succeeds, and the player's total card count drops from 3 to
2 even though only one single-use card was consumed and one card was
bought: the mixed-payment branch of `handle_buy` clears the whole hand,
destroying the unreferenced Explorer.  The claimed invariant
(3 + 1 bought − 1 trashed = 3) is violated. -/
theorem c2_conservation_bug :
    ((c2state.processAction (.buyCard (BuyCardAction.mk [0, 1] [] (.shop 0)))
        id).bind
      fun r =>
        match r.2 with
        | .ok ActionOutcome.ok => (r.1.players.get? 0).map Player.numCards
        | _ => none) = some 2 ∧
    (c2state.players.get? 0).map Player.numCards = some 3 := by
  decide

/-! ## C1 — Err implies no mutation; out-of-range indices panic -/

/-- `handle_buy` returns every `Err` before mutating. -/
theorem handleBuy_err_eq (g : GameState) (buy : BuyCardAction)
    (g' : GameState) (e : String)
    (h : g.handleBuy buy = some (g', .error e)) : g' = g := by
  rw [GameState.handleBuy] at h
  repeat' first
    | split at h
    | split_ifs at h
    | simp only [] at h
  all_goals
    first
      | exact Option.noConfusion h
      | (rw [Option.some.injEq, Prod.mk.injEq] at h; exact h.1.symm)
      | (rw [Option.some.injEq, Prod.mk.injEq] at h; exact Except.noConfusion h.2)

/-- `handle_move` returns every `Err` before mutating. -/
theorem handleMove_err_eq (g : GameState) (mv : MoveAction)
    (g' : GameState) (e : String)
    (h : g.handleMove mv = some (g', .error e)) : g' = g := by
  rw [GameState.handleMove] at h
  repeat' first
    | split at h
    | split_ifs at h
    | simp only [] at h
  all_goals
    first
      | exact Option.noConfusion h
      | (rw [Option.some.injEq, Prod.mk.injEq] at h; exact h.1.symm)
      | (rw [Option.some.injEq, Prod.mk.injEq] at h; exact Except.noConfusion h.2)

/-- `handle_draw` returns every `Err` before mutating. -/
theorem handleDraw_err_eq (g : GameState) (d : DrawAction)
    (sh : List Card → List Card) (g' : GameState) (e : String)
    (h : g.handleDraw d sh = some (g', .error e)) : g' = g := by
  rw [GameState.handleDraw] at h
  repeat' first
    | split at h
    | split_ifs at h
    | simp only [] at h
  all_goals
    first
      | exact Option.noConfusion h
      | (rw [Option.some.injEq, Prod.mk.injEq] at h; exact h.1.symm)
      | (rw [Option.some.injEq, Prod.mk.injEq] at h; exact Except.noConfusion h.2)

/-- `handle_trash` returns every `Err` before mutating. -/
theorem handleTrash_err_eq (g : GameState) (t : List Nat)
    (g' : GameState) (e : String)
    (h : g.handleTrash t = some (g', .error e)) : g' = g := by
  rw [GameState.handleTrash] at h
  repeat' first
    | split at h
    | split_ifs at h
    | simp only [] at h
  all_goals
    first
      | exact Option.noConfusion h
      | (rw [Option.some.injEq, Prod.mk.injEq] at h; exact h.1.symm)
      | (rw [Option.some.injEq, Prod.mk.injEq] at h; exact Except.noConfusion h.2)

/-- C1 (amended): whenever `process_action` returns an `Err`, the entire
`GameState` is exactly as it was before the call.  (The original claim
additionally asserts that out-of-range card/token indices are themselves
`Err`s; the counterexample shows they panic instead.) -/
theorem c1_err_no_mutation (g : GameState) (a : PlayerAction)
    (sh : List Card → List Card) (g' : GameState) (e : String)
    (h : g.processAction a sh = some (g', .error e)) : g' = g := by
  cases a with
  | buyCard buy =>
    rw [GameState.processAction] at h
    rw [Option.map_eq_some'] at h
    obtain ⟨r, hr, hmap⟩ := h
    cases r with
    | mk r1 r2 =>
      cases r2 with
      | ok v => simp [Except.map] at hmap
      | error e2 =>
        simp only [Except.map, Prod.mk.injEq, Except.error.injEq] at hmap
        exact hmap.1 ▸ handleBuy_err_eq g buy r1 e2 hr
  | move mv =>
    rw [GameState.processAction] at h
    rw [Option.map_eq_some'] at h
    obtain ⟨r, hr, hmap⟩ := h
    cases r with
    | mk r1 r2 =>
      cases r2 with
      | ok v => simp [Except.map] at hmap
      | error e2 =>
        simp only [Except.map, Prod.mk.injEq, Except.error.injEq] at hmap
        exact hmap.1 ▸ handleMove_err_eq g mv r1 e2 hr
  | draw d =>
    rw [GameState.processAction] at h
    rw [Option.map_eq_some'] at h
    obtain ⟨r, hr, hmap⟩ := h
    cases r with
    | mk r1 r2 =>
      cases r2 with
      | ok v => simp [Except.map] at hmap
      | error e2 =>
        simp only [Except.map, Prod.mk.injEq, Except.error.injEq] at hmap
        exact hmap.1 ▸ handleDraw_err_eq g d sh r1 e2 hr
  | trash t =>
    rw [GameState.processAction] at h
    rw [Option.map_eq_some'] at h
    obtain ⟨r, hr, hmap⟩ := h
    cases r with
    | mk r1 r2 =>
      cases r2 with
      | ok v => simp [Except.map] at hmap
      | error e2 =>
        simp only [Except.map, Prod.mk.injEq, Except.error.injEq] at hmap
        exact hmap.1 ▸ handleTrash_err_eq g t r1 e2 hr
  | discard cards =>
    rw [GameState.processAction] at h
    repeat' split at h
    all_goals simp_all [Option.map_eq_some']
  | finishTurn =>
    rw [GameState.processAction] at h
    repeat' first
      | split at h
      | split_ifs at h
      | simp only [] at h
    all_goals
      first
        | exact Option.noConfusion h
        | (rw [Option.some.injEq, Prod.mk.injEq] at h; exact h.1.symm)
        | (rw [Option.some.injEq, Prod.mk.injEq] at h; exact Except.noConfusion h.2)

/-- C1 counterexample: a `BuyCard` whose card index 5 is out of range for
a 1-card hand makes `process_action` panic (the model's `none`) instead of
returning an `Err`; the spec's "bad indices … never panics" does not hold. -/
theorem c1_counterexample :
    c4state.processAction
      (.buyCard (BuyCardAction.mk [5] [] (.shop 0))) id = none := by
  decide

/-- C1 witness: the amended statement applied at a concrete erroring
action (an empty Move path): the state is returned unchanged. -/
theorem c1_witness :
    baseState.processAction (.move (MoveAction.mk [] [] [])) id =
      some (baseState, .error "Must move at least once") ∧
    (∀ g' e, baseState.processAction (.move (MoveAction.mk [] [] [])) id =
      some (g', .error e) → g' = baseState) :=
  ⟨by decide, fun g' e h => c1_err_no_mutation baseState _ id g' e h⟩

/-! ## C6 — barrier breaking: helper lemmas -/

/-- Elements surviving a `swap_remove` were in the original vector. -/
theorem swapRemoveGet_mem (l : List α) (i : Nat) (a : α) (l' : List α)
    (h : swapRemoveGet l i = some (a, l')) : ∀ x ∈ l', x ∈ l := by
  rw [swapRemoveGet] at h
  split at h
  · rename_i a0 last hg hlast
    rw [Option.some.injEq, Prod.mk.injEq] at h
    intro x hx
    rw [← h.2] at hx
    rcases List.mem_or_eq_of_mem_set hx with h1 | rfl
    · exact (List.dropLast_sublist l).subset h1
    · exact List.get?_mem hlast
  · exact absurd h (by simp)

/-- Elements surviving a `swap_remove` were in the original vector. -/
theorem swapRemoveL_mem (l : List α) (i : Nat) (l' : List α)
    (h : swapRemoveL l i = some l') : ∀ x ∈ l', x ∈ l := by
  rw [swapRemoveL, Option.map_eq_some'] at h
  obtain ⟨⟨a, l2⟩, hget, hl⟩ := h
  exact hl ▸ swapRemoveGet_mem l i a l2 hget

/-- A fold of player updates that each preserve a projection preserves it
overall. -/
theorem foldlM_preserve {β : Type} (f : Player → Nat → Option Player)
    (proj : Player → β)
    (hf : ∀ q i q', f q i = some q' → proj q' = proj q) :
    ∀ (l : List Nat) (p p' : Player), l.foldlM f p = some p' →
      proj p' = proj p := by
  intro l
  induction l with
  | nil =>
    intro p p' h
    simp only [List.foldlM_nil] at h
    cases h; rfl
  | cons i rest ih =>
    intro p p' h
    rw [List.foldlM_cons] at h
    cases hf1 : f p i with
    | none => rw [hf1] at h; exact absurd h (by simp)
    | some q =>
      rw [hf1] at h
      simp only [Option.bind_eq_bind, Option.some_bind] at h
      exact (ih q p' h).trans (hf p i q hf1)

/-- `mark_played` only moves cards from hand to played. -/
theorem markPlayed_pres (p : Player) (cards : List Nat) (p' : Player)
    (h : p.markPlayed cards = some p') :
    p'.position = p.position ∧ p'.deck = p.deck ∧ p'.discard = p.discard ∧
    p'.tokens = p.tokens ∧ p'.trashes = p.trashes ∧ p'.canBuy = p.canBuy ∧
    p'.visitedCaves = p.visitedCaves ∧
    p'.brokenBarriers = p.brokenBarriers := by
  rw [Player.markPlayed] at h
  have hp := foldlM_preserve _
    (fun q => (q.position, q.deck, q.discard, q.tokens, q.trashes, q.canBuy,
      q.visitedCaves, q.brokenBarriers))
    (fun q i q' hq => by
      split at hq
      · rename_i c rest hget
        rw [Option.some.injEq] at hq
        rw [← hq]
      · exact absurd hq (by simp))
    (revSorted cards) p p' h
  simp only [Prod.mk.injEq] at hp
  exact ⟨hp.1, hp.2.1, hp.2.2.1, hp.2.2.2.1, hp.2.2.2.2.1, hp.2.2.2.2.2.1,
    hp.2.2.2.2.2.2.1, hp.2.2.2.2.2.2.2⟩

/-- `discard_cards` only moves cards from hand to discard. -/
theorem discardCards_pres (p : Player) (cards : List Nat) (p' : Player)
    (h : p.discardCards cards = some p') :
    p'.position = p.position ∧ p'.deck = p.deck ∧ p'.played = p.played ∧
    p'.tokens = p.tokens ∧ p'.trashes = p.trashes ∧ p'.canBuy = p.canBuy ∧
    p'.visitedCaves = p.visitedCaves ∧
    p'.brokenBarriers = p.brokenBarriers := by
  rw [Player.discardCards] at h
  have hp := foldlM_preserve _
    (fun q => (q.position, q.deck, q.played, q.tokens, q.trashes, q.canBuy,
      q.visitedCaves, q.brokenBarriers))
    (fun q i q' hq => by
      split at hq
      · rename_i c rest hget
        rw [Option.some.injEq] at hq
        rw [← hq]
      · exact absurd hq (by simp))
    (revSorted cards) p p' h
  simp only [Prod.mk.injEq] at hp
  exact ⟨hp.1, hp.2.1, hp.2.2.1, hp.2.2.2.1, hp.2.2.2.2.1, hp.2.2.2.2.2.1,
    hp.2.2.2.2.2.2.1, hp.2.2.2.2.2.2.2⟩

/-- `trash_cards` only removes cards from the hand. -/
theorem trashCards_pres (p : Player) (cards : List Nat) (p' : Player)
    (h : p.trashCards cards = some p') :
    p'.position = p.position ∧ p'.deck = p.deck ∧ p'.played = p.played ∧
    p'.discard = p.discard ∧ p'.tokens = p.tokens ∧ p'.trashes = p.trashes ∧
    p'.canBuy = p.canBuy ∧ p'.visitedCaves = p.visitedCaves ∧
    p'.brokenBarriers = p.brokenBarriers := by
  rw [Player.trashCards] at h
  have hp := foldlM_preserve _
    (fun q => (q.position, q.deck, q.played, q.discard, q.tokens, q.trashes,
      q.canBuy, q.visitedCaves, q.brokenBarriers))
    (fun q i q' hq => by
      split at hq
      · rename_i rest hget
        rw [Option.some.injEq] at hq
        rw [← hq]
      · exact absurd hq (by simp))
    (revSorted cards) p p' h
  simp only [Prod.mk.injEq] at hp
  exact ⟨hp.1, hp.2.1, hp.2.2.1, hp.2.2.2.1, hp.2.2.2.2.1, hp.2.2.2.2.2.1,
    hp.2.2.2.2.2.2.1, hp.2.2.2.2.2.2.2.1, hp.2.2.2.2.2.2.2.2⟩

set_option maxHeartbeats 2000000 in
/-- `handle_buy` never changes the barrier list. -/
theorem handleBuy_barriers (g : GameState) (buy : BuyCardAction)
    (g' : GameState) (r : Except String Unit)
    (h : g.handleBuy buy = some (g', r)) : g'.barriers = g.barriers := by
  rw [GameState.handleBuy] at h
  cases hbi : buy.index with
  | shop i =>
    rw [hbi] at h
    repeat' first
      | split_ifs at h
      | simp only [] at h
      | split at h
    all_goals
      first
        | exact Option.noConfusion h
        | (rw [Option.some.injEq, Prod.mk.injEq] at h; rw [← h.1])
  | storage i =>
    rw [hbi] at h
    simp only [] at h
    rcases hsw : swapRemoveGet g.storage i with _ | ⟨bc, storageRest⟩ <;>
      rw [hsw] at h
    all_goals
      repeat' first
        | split_ifs at h
        | simp only [] at h
        | split at h
    all_goals
      first
        | exact Option.noConfusion h
        | (rw [Option.some.injEq, Prod.mk.injEq] at h; rw [← h.1])

/-- `handle_draw` never changes the barrier list. -/
theorem handleDraw_barriers (g : GameState) (d : DrawAction)
    (sh : List Card → List Card) (g' : GameState) (r : Except String Unit)
    (h : g.handleDraw d sh = some (g', r)) : g'.barriers = g.barriers := by
  rw [GameState.handleDraw] at h
  repeat' first
    | split_ifs at h
    | simp only [] at h
    | split at h
  all_goals
    first
      | exact Option.noConfusion h
      | (rw [Option.some.injEq, Prod.mk.injEq] at h; rw [← h.1])

/-- `handle_trash` never changes the barrier list. -/
theorem handleTrash_barriers (g : GameState) (t : List Nat)
    (g' : GameState) (r : Except String Unit)
    (h : g.handleTrash t = some (g', r)) : g'.barriers = g.barriers := by
  rw [GameState.handleTrash] at h
  repeat' first
    | split_ifs at h
    | simp only [] at h
    | split at h
  all_goals
    first
      | exact Option.noConfusion h
      | (rw [Option.some.injEq, Prod.mk.injEq] at h; rw [← h.1])

/-- `give_bonus` keeps barriers and the player's broken-barrier history. -/
theorem giveBonus_spec (g : GameState) (pos : AxialCoord) (g2 : GameState)
    (p : Player) (hp : g.players.get? g.currPlayerIdx = some p)
    (h : g.giveBonus pos = some (.ok g2)) :
    g2.barriers = g.barriers ∧
    ∃ p', g2.players.get? g.currPlayerIdx = some p' ∧
      p'.brokenBarriers = p.brokenBarriers := by
  have hlt : g.currPlayerIdx < g.players.length := by
    rw [List.get?_eq_getElem?] at hp
    exact (List.getElem?_eq_some_iff.mp hp).1
  rw [GameState.giveBonus] at h
  split at h
  · exact absurd h (by simp)
  · rename_i bi hfind
    split at h
    · exact Option.noConfusion h
    · rename_i pt hget
      split at h
      · exact absurd h (by simp)
      · rename_i tok toksRest hpop
        split at h
        · exact Option.noConfusion h
        · rename_i p0 hp0
          rw [Option.some.injEq, Except.ok.injEq] at h
          rw [← h]
          have hpp : p0 = p := Option.some.inj (hp0.symm.trans hp)
          refine ⟨rfl, Player.mk p0.position p0.deck p0.hand p0.played
            p0.discard (p0.tokens ++ [tok]) p0.trashes p0.canBuy
            (p0.visitedCaves ++ [pos]) p0.brokenBarriers, ?_, by rw [hpp]⟩
          rw [List.get?_eq_getElem?]
          exact List.getElem?_set_self (by simpa using hlt)

/-- The mutation phase of a Move either keeps the barrier list unchanged
(and the current player's broken-barrier history), or removes exactly the
broken barrier and appends its record to that history. -/
theorem moveApply_spec (g : GameState) (mv : MoveAction) (acc : WalkAcc)
    (cardCost : Nat) (isSingleUse : Bool) (g2 : GameState) (p : Player)
    (hp : g.players.get? g.currPlayerIdx = some p)
    (h : g.moveApply mv acc cardCost isSingleUse = some g2) :
    ∃ p', g2.players.get? g.currPlayerIdx = some p' ∧
      ((g2.barriers = g.barriers ∧ p'.brokenBarriers = p.brokenBarriers) ∨
       (∃ i bar rest, g.barriers.get? i = some bar ∧
         swapRemoveL g.barriers i = some rest ∧ g2.barriers = rest ∧
         p'.brokenBarriers =
           p.brokenBarriers ++ [BrokenBarrier.mk bar.terrain bar.cost])) := by
  have hlt : g.currPlayerIdx < g.players.length := by
    rw [List.get?_eq_getElem?] at hp
    exact (List.getElem?_eq_some_iff.mp hp).1
  rw [GameState.moveApply, hp] at h
  simp only [] at h
  split at h
  · exact Option.noConfusion h
  rename_i player2 hd
  have hbp : player2.brokenBarriers = p.brokenBarriers := by
    split_ifs at hd
    · exact (trashCards_pres _ _ _ hd).2.2.2.2.2.2.2.2
    · exact (markPlayed_pres _ _ _ hd).2.2.2.2.2.2.2
  split at h
  · exact Option.noConfusion h
  rename_i toks hrt
  split at h
  · rw [Option.some.injEq] at h
    rw [← h]
    refine ⟨Player.mk player2.position player2.deck player2.hand
      player2.played player2.discard toks player2.trashes player2.canBuy
      (List.filter (fun cp => acc.pos.isAdjacent cp) player2.visitedCaves)
      player2.brokenBarriers, ?_, Or.inl ⟨rfl, hbp⟩⟩
    rw [List.get?_eq_getElem?]
    exact List.getElem?_set_self (by simpa using hlt)
  · rename_i bIdx hbb
    split at h
    · rename_i bar barriers2 hbar hrem
      rw [Option.some.injEq] at h
      rw [← h]
      refine ⟨Player.mk player2.position player2.deck player2.hand
        player2.played player2.discard toks player2.trashes player2.canBuy
        (List.filter (fun cp => acc.pos.isAdjacent cp) player2.visitedCaves)
        (player2.brokenBarriers ++ [BrokenBarrier.mk bar.terrain bar.cost]),
        ?_, Or.inr ⟨bIdx, bar, barriers2, hbar, hrem, rfl, by rw [hbp]⟩⟩
      rw [List.get?_eq_getElem?]
      exact List.getElem?_set_self (by simpa using hlt)
    · exact Option.noConfusion h

/-- A successful `handle_move` either leaves the barrier list and the
mover's broken-barrier history unchanged, or removes exactly one barrier
and records it. -/
theorem handleMove_ok_spec (g : GameState) (mv : MoveAction) (g' : GameState)
    (o : Option Nat) (p : Player)
    (hp : g.players.get? g.currPlayerIdx = some p)
    (h : g.handleMove mv = some (g', .ok o)) :
    ∃ p', g'.players.get? g.currPlayerIdx = some p' ∧
      ((g'.barriers = g.barriers ∧ p'.brokenBarriers = p.brokenBarriers) ∨
       (∃ i bar rest, g.barriers.get? i = some bar ∧
         swapRemoveL g.barriers i = some rest ∧ g'.barriers = rest ∧
         p'.brokenBarriers =
           p.brokenBarriers ++ [BrokenBarrier.mk bar.terrain bar.cost])) := by
  rw [GameState.handleMove] at h
  repeat' first
    | split_ifs at h
    | simp only [] at h
    | split at h
  all_goals
    first
      | exact Option.noConfusion h
      | (rw [Option.some.injEq, Prod.mk.injEq] at h; exact Except.noConfusion h.2)
      | (rename_i g2 hg2
         rw [Option.some.injEq, Prod.mk.injEq] at h
         rw [← h.1]
         first
           | exact moveApply_spec g mv _ _ _ g2 p hp hg2
           | (obtain ⟨hbars, p', hp', hbroken⟩ := giveBonus_spec g _ g2 p hp hg2
              exact ⟨p', hp', Or.inl ⟨hbars, hbroken⟩⟩))

/-- The barrier-link predicate ignores the orientation of its arguments. -/
theorem barrierLinks_comm (a b : Nat) (bar : Barrier) :
    barrierLinks a b bar = barrierLinks b a bar := by
  rw [barrierLinks, barrierLinks, Bool.or_comm]

/-- When no barrier links `a` and `b`, `barrier_index` finds none in
either argument order. -/
theorem absent_barrierIndex_none (g : GameState) (a b : Nat)
    (hab : AbsentBetween g a b) :
    g.barrierIndex a b = none ∧ g.barrierIndex b a = none := by
  constructor
  · rw [GameState.barrierIndex]
    split
    · rfl
    · exact List.findIdx?_eq_none_iff.mpr fun bar hm => hab bar hm
  · rw [GameState.barrierIndex]
    split
    · rfl
    · refine List.findIdx?_eq_none_iff.mpr fun bar hm => ?_
      rw [← barrierLinks_comm]
      exact hab bar hm

/-- Every action's result keeps the barrier list a sub-collection of the
previous one (no action ever adds a barrier). -/
theorem processAction_barriers_mono (g : GameState) (a : PlayerAction)
    (sh : List Card → List Card) (g' : GameState)
    (r : Except String ActionOutcome)
    (h : g.processAction a sh = some (g', r)) :
    ∀ b ∈ g'.barriers, b ∈ g.barriers := by
  cases a with
  | buyCard buy =>
    rw [GameState.processAction, Option.map_eq_some'] at h
    obtain ⟨⟨g1, r1⟩, hr, hmap⟩ := h
    have hb := handleBuy_barriers g buy g1 r1 hr
    have hg : g1 = g' := congrArg Prod.fst hmap
    intro b hbm
    rw [← hg, hb] at hbm
    exact hbm
  | move mv =>
    rw [GameState.processAction, Option.map_eq_some'] at h
    obtain ⟨⟨g1, r1⟩, hr, hmap⟩ := h
    have hg : g1 = g' := congrArg Prod.fst hmap
    cases r1 with
    | error e =>
      have := handleMove_err_eq g mv g1 e hr
      intro b hbm
      rw [← hg, this] at hbm
      exact hbm
    | ok oi =>
      cases hp : g.players.get? g.currPlayerIdx with
      | none =>
        rw [GameState.handleMove] at hr
        by_cases hpe : mv.path.isEmpty
        · rw [if_pos hpe] at hr
          exact absurd hr (by simp)
        · rw [if_neg hpe, hp] at hr
          exact absurd hr (by simp)
      | some p =>
        obtain ⟨p', hp', hd⟩ := handleMove_ok_spec g mv g1 oi p hp hr
        intro b hbm
        rw [← hg] at hbm
        rcases hd with ⟨heq, _⟩ | ⟨i, bar, rest, hbar, hrem, heq, _⟩
        · rw [heq] at hbm; exact hbm
        · rw [heq] at hbm
          exact swapRemoveL_mem g.barriers i rest hrem b hbm
  | draw d =>
    rw [GameState.processAction, Option.map_eq_some'] at h
    obtain ⟨⟨g1, r1⟩, hr, hmap⟩ := h
    have hb := handleDraw_barriers g d sh g1 r1 hr
    have hg : g1 = g' := congrArg Prod.fst hmap
    intro b hbm
    rw [← hg, hb] at hbm
    exact hbm
  | trash t =>
    rw [GameState.processAction, Option.map_eq_some'] at h
    obtain ⟨⟨g1, r1⟩, hr, hmap⟩ := h
    have hb := handleTrash_barriers g t g1 r1 hr
    have hg : g1 = g' := congrArg Prod.fst hmap
    intro b hbm
    rw [← hg, hb] at hbm
    exact hbm
  | discard cards =>
    rw [GameState.processAction] at h
    split at h
    · exact Option.noConfusion h
    · rw [Option.map_eq_some'] at h
      obtain ⟨p2, -, hmap⟩ := h
      injection hmap with h1 h2
      subst h1
      intro b hbm
      exact hbm
  | finishTurn =>
    rw [GameState.processAction] at h
    repeat' first
      | split_ifs at h
      | simp only [] at h
      | split at h
    all_goals
      first
        | exact Option.noConfusion h
        | (rw [Option.some.injEq, Prod.mk.injEq] at h
           intro b hbm
           rw [← h.1] at hbm
           exact hbm)

/-- C6: breaking a barrier is destructive, recorded, and global — (1) no
action ever adds a barrier; (2) a successful Move either keeps barriers
and the mover's broken-barrier history unchanged, or removes exactly the
broken barrier from the active list and appends it to the mover's
history; (3) in every state reachable from a state where no barrier links
segments `a` and `b`, the boundary stays barrier-free and `barrier_index`
finds nothing in either order, so its cost can never be charged again. -/
theorem c6_barrier_break_spec :
    (∀ (g : GameState) (a : PlayerAction) (sh : List Card → List Card)
        (g' : GameState) (r : Except String ActionOutcome),
      g.processAction a sh = some (g', r) →
      ∀ b ∈ g'.barriers, b ∈ g.barriers) ∧
    (∀ (g : GameState) (mv : MoveAction) (sh : List Card → List Card)
        (g' : GameState) (o : ActionOutcome) (p : Player),
      g.players.get? g.currPlayerIdx = some p →
      g.processAction (.move mv) sh = some (g', .ok o) →
      ∃ p', g'.players.get? g.currPlayerIdx = some p' ∧
        ((g'.barriers = g.barriers ∧ p'.brokenBarriers = p.brokenBarriers) ∨
         (∃ i bar rest, g.barriers.get? i = some bar ∧
           swapRemoveL g.barriers i = some rest ∧ g'.barriers = rest ∧
           p'.brokenBarriers =
             p.brokenBarriers ++ [BrokenBarrier.mk bar.terrain bar.cost]))) ∧
    (∀ (g g' : GameState) (a b : Nat), Reachable g g' → AbsentBetween g a b →
      AbsentBetween g' a b ∧ g'.barrierIndex a b = none ∧
        g'.barrierIndex b a = none) := by
  refine ⟨processAction_barriers_mono, ?_, ?_⟩
  · intro g mv sh g' o p hp h
    rw [GameState.processAction, Option.map_eq_some'] at h
    obtain ⟨⟨g1, r1⟩, hr, hmap⟩ := h
    have hg : g1 = g' := congrArg Prod.fst hmap
    have hr2 := congrArg Prod.snd hmap
    cases r1 with
    | error e => exact absurd hr2 (by simp [Except.map])
    | ok oi =>
      rw [← hg]
      exact handleMove_ok_spec g mv g1 oi p hp hr
  · intro g g' a b hreach
    induction hreach with
    | refl =>
      intro hab
      exact ⟨hab, absent_barrierIndex_none g a b hab⟩
    | tail hsteps hstep ih =>
      intro hab
      rename_i gmid glast
      obtain ⟨habmid, _⟩ := ih hab
      obtain ⟨act, sh, r, hact⟩ := hstep
      have hmono := processAction_barriers_mono gmid act sh glast r hact
      have habl : AbsentBetween glast a b := fun bar hm => habmid bar (hmono bar hm)
      exact ⟨habl, absent_barrierIndex_none glast a b habl⟩

/-- C6 witness: the move across the barrier succeeds, removes the barrier
and records it, and the theorem applied at the resulting state yields
`barrier_index = none` for the crossed boundary. -/
theorem c6_witness :
    c6wstate.processAction (.move (MoveAction.mk [0] [] [.east])) id =
      some (c6next, .ok (.ignoreMoveIdx 0)) ∧
    c6next.barrierIndex 0 1 = none :=
  ⟨by decide,
    (c6_barrier_break_spec.2.2 c6next c6next 0 1 .refl (by
      intro bar hm
      rw [show c6next.barriers = ([] : List Barrier) from rfl] at hm
      exact absurd hm (List.not_mem_nil bar))).2.1⟩

/-! ## C8 — FinishTurn -/

/-- `Vec::pop` on a concatenation with a last element. -/
theorem popLast_concat (l : List α) (a : α) : popLast (l ++ [a]) = some (a, l) := by
  rw [popLast]
  simp [List.getLast?_concat]

/-- `Vec::pop` of the empty vector. -/
theorem popLast_nil : popLast ([] : List α) = none := rfl

/-- A successful `Vec::pop` splits off the last element. -/
theorem popLast_eq_some (l : List α) (a : α) (l' : List α)
    (h : popLast l = some (a, l')) : l = l' ++ [a] := by
  cases l using List.reverseRecOn with
  | nil => exact absurd h (by simp [popLast])
  | append_singleton l2 b =>
    rw [popLast_concat] at h
    rw [Option.some.injEq, Prod.mk.injEq] at h
    rw [← h.1, ← h.2]

/-- `refillIfNeeded` changes only deck and discard. -/
theorem refillIfNeeded_pres (sh : List Card → List Card) (p : Player) :
    (refillIfNeeded sh p).position = p.position ∧
    (refillIfNeeded sh p).hand = p.hand ∧
    (refillIfNeeded sh p).played = p.played ∧
    (refillIfNeeded sh p).tokens = p.tokens ∧
    (refillIfNeeded sh p).trashes = p.trashes ∧
    (refillIfNeeded sh p).canBuy = p.canBuy ∧
    (refillIfNeeded sh p).visitedCaves = p.visitedCaves ∧
    (refillIfNeeded sh p).brokenBarriers = p.brokenBarriers := by
  rw [refillIfNeeded]
  split_ifs <;> exact ⟨rfl, rfl, rfl, rfl, rfl, rfl, rfl, rfl⟩

/-- `refillIfNeeded` permutes deck and discard together. -/
theorem refillIfNeeded_perm (sh : List Card → List Card)
    (hsh : ∀ l, List.Perm (sh l) l) (p : Player) :
    List.Perm ((refillIfNeeded sh p).deck ++ (refillIfNeeded sh p).discard)
      (p.deck ++ p.discard) := by
  rw [refillIfNeeded]
  split_ifs with hc
  · simpa using hsh (p.deck ++ p.discard)
  · exact List.Perm.refl _

/-- A non-popping deck after the refill means deck and discard were both
exhausted. -/
theorem refill_deck_nil (sh : List Card → List Card)
    (hsh : ∀ l, List.Perm (sh l) l) (p : Player)
    (hpop : popLast (refillIfNeeded sh p).deck = none) :
    (refillIfNeeded sh p).deck = [] ∧ (refillIfNeeded sh p).discard = [] ∧
    p.deck = [] ∧ p.discard = [] := by
  have hdeck : (refillIfNeeded sh p).deck = [] := by
    rcases hl : (refillIfNeeded sh p).deck with _ | ⟨x, xs⟩
    · rfl
    · exfalso
      rw [hl, popLast] at hpop
      split at hpop
      · exact absurd hpop (by simp)
      · rename_i hg
        rw [List.getLast?_eq_none_iff] at hg
        exact absurd hg (by simp)
  have hlen := (refillIfNeeded_perm sh hsh p).length_eq
  rw [hdeck] at hlen
  simp only [List.nil_append, List.length_append] at hlen
  rw [refillIfNeeded] at hdeck ⊢
  split_ifs at hdeck ⊢ with hc
  · exfalso
    have hsl := (hsh (p.deck ++ p.discard)).length_eq
    have hz : (sh (p.deck ++ p.discard)).length = 0 := by
      rw [show sh (p.deck ++ p.discard) = [] from hdeck]
      rfl
    rw [Bool.and_eq_true] at hc
    have hdne : p.discard ≠ [] := by simpa using hc.2
    have : p.discard.length = 0 := by
      rw [hz] at hsl
      simp only [List.length_append] at hsl
      omega
    exact hdne (List.eq_nil_of_length_eq_zero this)
  · refine ⟨hdeck, ?_, hdeck, ?_⟩ <;>
    · rcases hd : p.discard with _ | ⟨x, xs⟩
      · rfl
      · exfalso
        apply hc
        rw [Bool.and_eq_true]
        refine ⟨List.isEmpty_iff.mpr hdeck, ?_⟩
        rw [hd]
        simp

/-- The `fill_hand` loop touches only hand, deck and discard. -/
theorem fillHandAux_pres (sh : List Card → List Card) (hs : Nat) :
    ∀ (fuel : Nat) (p : Player),
      (fillHandAux sh hs fuel p).position = p.position ∧
      (fillHandAux sh hs fuel p).played = p.played ∧
      (fillHandAux sh hs fuel p).tokens = p.tokens ∧
      (fillHandAux sh hs fuel p).trashes = p.trashes ∧
      (fillHandAux sh hs fuel p).canBuy = p.canBuy ∧
      (fillHandAux sh hs fuel p).visitedCaves = p.visitedCaves ∧
      (fillHandAux sh hs fuel p).brokenBarriers = p.brokenBarriers := by
  intro fuel
  induction fuel with
  | zero => intro p; exact ⟨rfl, rfl, rfl, rfl, rfl, rfl, rfl⟩
  | succ fuel ih =>
    intro p
    by_cases h1 : p.hand.length < hs
    · rw [fillHandAux, if_pos h1]
      have hr := refillIfNeeded_pres sh p
      rcases hpop : popLast (refillIfNeeded sh p).deck with _ | ⟨c, rest⟩
      · exact ⟨hr.1, hr.2.2.1, hr.2.2.2.1, hr.2.2.2.2.1, hr.2.2.2.2.2.1,
          hr.2.2.2.2.2.2.1, hr.2.2.2.2.2.2.2⟩
      · have hi := ih { refillIfNeeded sh p with
          deck := rest,
          hand := (refillIfNeeded sh p).hand ++ [c] }
        exact ⟨hi.1.trans hr.1, hi.2.1.trans hr.2.2.1,
          hi.2.2.1.trans hr.2.2.2.1, hi.2.2.2.1.trans hr.2.2.2.2.1,
          hi.2.2.2.2.1.trans hr.2.2.2.2.2.1,
          hi.2.2.2.2.2.1.trans hr.2.2.2.2.2.2.1,
          hi.2.2.2.2.2.2.trans hr.2.2.2.2.2.2.2⟩
    · rw [fillHandAux, if_neg h1]
      exact ⟨rfl, rfl, rfl, rfl, rfl, rfl, rfl⟩

/-- The `fill_hand` loop permutes hand + deck + discard. -/
theorem fillHandAux_perm (sh : List Card → List Card) (hs : Nat)
    (hsh : ∀ l, List.Perm (sh l) l) :
    ∀ (fuel : Nat) (p : Player),
      List.Perm
        ((fillHandAux sh hs fuel p).hand ++ (fillHandAux sh hs fuel p).deck ++
          (fillHandAux sh hs fuel p).discard)
        (p.hand ++ p.deck ++ p.discard) := by
  intro fuel
  induction fuel with
  | zero => intro p; exact List.Perm.refl _
  | succ fuel ih =>
    intro p
    have hr := refillIfNeeded_pres sh p
    have hperm := refillIfNeeded_perm sh hsh p
    by_cases h1 : p.hand.length < hs
    · rw [fillHandAux, if_pos h1]
      rcases hpop : popLast (refillIfNeeded sh p).deck with _ | ⟨c, rest⟩
      · show List.Perm ((refillIfNeeded sh p).hand ++
          (refillIfNeeded sh p).deck ++ (refillIfNeeded sh p).discard)
          (p.hand ++ p.deck ++ p.discard)
        rw [List.append_assoc, hr.2.1, List.append_assoc]
        exact List.Perm.append_left _ hperm
      · have hsplit := popLast_eq_some _ _ _ hpop
        refine (ih _).trans ?_
        show List.Perm ((refillIfNeeded sh p).hand ++ [c] ++ rest ++
          (refillIfNeeded sh p).discard) (p.hand ++ p.deck ++ p.discard)
        have h2 : List.Perm ((refillIfNeeded sh p).hand ++ [c] ++ rest)
            ((refillIfNeeded sh p).hand ++ (rest ++ [c])) := by
          rw [List.append_assoc]
          exact List.Perm.append_left _ List.perm_append_comm
        refine (List.Perm.append_right _ h2).trans ?_
        rw [show (refillIfNeeded sh p).hand ++ (rest ++ [c]) =
          (refillIfNeeded sh p).hand ++ (refillIfNeeded sh p).deck from by
            rw [hsplit]]
        rw [List.append_assoc, hr.2.1, List.append_assoc]
        exact List.Perm.append_left _ hperm
    · rw [fillHandAux, if_neg h1]

/-- The `fill_hand` loop, with enough fuel, fills the hand to the target
or exhausts deck and discard. -/
theorem fillHandAux_len (sh : List Card → List Card) (hs : Nat)
    (hsh : ∀ l, List.Perm (sh l) l) :
    ∀ (fuel : Nat) (p : Player),
      p.deck.length + p.discard.length + 1 ≤ fuel →
      (fillHandAux sh hs fuel p).hand.length =
        max p.hand.length
          (min hs (p.hand.length + p.deck.length + p.discard.length)) := by
  intro fuel
  induction fuel with
  | zero => intro p hf; omega
  | succ fuel ih =>
    intro p hf
    have hr := refillIfNeeded_pres sh p
    have hlen2 := (refillIfNeeded_perm sh hsh p).length_eq
    simp only [List.length_append] at hlen2
    by_cases h1 : p.hand.length < hs
    · rw [fillHandAux, if_pos h1]
      rcases hpop : popLast (refillIfNeeded sh p).deck with _ | ⟨c, rest⟩
      · obtain ⟨-, -, hdk, hdc⟩ := refill_deck_nil sh hsh p hpop
        show (refillIfNeeded sh p).hand.length =
          max p.hand.length
            (min hs (p.hand.length + p.deck.length + p.discard.length))
        rw [hr.2.1, hdk, hdc]
        simp only [List.length_nil]
        omega
      · have hsplit := popLast_eq_some _ _ _ hpop
        have hrest : rest.length + 1 = (refillIfNeeded sh p).deck.length := by
          rw [hsplit]
          simp
        have hfu : rest.length + (refillIfNeeded sh p).discard.length + 1 ≤
            fuel := by omega
        show (fillHandAux sh hs fuel { refillIfNeeded sh p with
            deck := rest,
            hand := (refillIfNeeded sh p).hand ++ [c] }).hand.length =
          max p.hand.length
            (min hs (p.hand.length + p.deck.length + p.discard.length))
        rw [ih _ hfu]
        show max ((refillIfNeeded sh p).hand ++ [c]).length
            (min hs (((refillIfNeeded sh p).hand ++ [c]).length + rest.length +
              (refillIfNeeded sh p).discard.length)) =
          max p.hand.length
            (min hs (p.hand.length + p.deck.length + p.discard.length))
        rw [hr.2.1]
        simp only [List.length_append, List.length_cons, List.length_nil]
        omega
    · rw [fillHandAux, if_neg h1]
      omega

/-- `Player::fill_hand` touches only hand, deck and discard. -/
theorem fillHand_pres (p : Player) (hs : Nat) (sh : List Card → List Card) :
    (p.fillHand hs sh).position = p.position ∧
    (p.fillHand hs sh).played = p.played ∧
    (p.fillHand hs sh).tokens = p.tokens ∧
    (p.fillHand hs sh).trashes = p.trashes ∧
    (p.fillHand hs sh).canBuy = p.canBuy ∧
    (p.fillHand hs sh).visitedCaves = p.visitedCaves ∧
    (p.fillHand hs sh).brokenBarriers = p.brokenBarriers :=
  fillHandAux_pres sh hs _ p

/-- `Player::fill_hand` permutes hand + deck + discard. -/
theorem fillHand_perm (p : Player) (hs : Nat) (sh : List Card → List Card)
    (hsh : ∀ l, List.Perm (sh l) l) :
    List.Perm
      ((p.fillHand hs sh).hand ++ (p.fillHand hs sh).deck ++
        (p.fillHand hs sh).discard)
      (p.hand ++ p.deck ++ p.discard) :=
  fillHandAux_perm sh hs hsh _ p

/-- `Player::fill_hand` fills the hand to the target size, or as far as the
deck plus discard allow.  In particular with both empty the hand is left
unchanged (possibly short of the target) and no panic occurs. -/
theorem fillHand_len (p : Player) (hs : Nat) (sh : List Card → List Card)
    (hsh : ∀ l, List.Perm (sh l) l) :
    (p.fillHand hs sh).hand.length =
      max p.hand.length
        (min hs (p.hand.length + p.deck.length + p.discard.length)) := by
  have hfuel : p.deck.length + p.discard.length + 1 ≤
      p.deck.length + (sh (p.deck ++ p.discard)).length + 1 := by
    have hl := (hsh (p.deck ++ p.discard)).length_eq
    simp only [List.length_append] at hl
    omega
  exact fillHandAux_len sh hs hsh _ p hfuel

/-- `List.any` is unchanged by overwriting an entry with one on which the
predicate agrees. -/
theorem any_set_congr {α : Type} (f : α → Bool) (b : α) :
    ∀ (l : List α) (n : Nat) (a : α), l.get? n = some a → f b = f a →
      (l.set n b).any f = l.any f
  | [], _, _, hget, _ => absurd hget (by simp)
  | x :: xs, 0, a, hget, hfb => by
    have ha : x = a := by simpa using hget
    subst ha
    show (f b || xs.any f) = (f x || xs.any f)
    rw [hfb]
  | x :: xs, n + 1, a, hget, hfb => by
    show (f x || (xs.set n b).any f) = (f x || xs.any f)
    rw [any_set_congr f b xs n a hget hfb]

/-- `Player::finish_turn`: played cards move to the discard pile, the hand
is refilled towards `HAND_SIZE`, the card multiset is preserved, and the
per-turn counters are reset. -/
theorem finishTurn_spec (p : Player) (sh : List Card → List Card)
    (hsh : ∀ l, List.Perm (sh l) l) :
    (p.finishTurn sh).position = p.position ∧
    (p.finishTurn sh).played = [] ∧
    (p.finishTurn sh).trashes = 0 ∧
    (p.finishTurn sh).canBuy = true ∧
    List.Perm
      ((p.finishTurn sh).hand ++ (p.finishTurn sh).deck ++
        (p.finishTurn sh).discard)
      (p.hand ++ p.deck ++ (p.discard ++ p.played)) ∧
    (p.finishTurn sh).hand.length =
      max p.hand.length (min handSizeConst p.numCards) := by
  have h1 := fillHand_pres
    { p with discard := p.discard ++ p.played, played := [] } handSizeConst sh
  have h2 := fillHand_perm
    { p with discard := p.discard ++ p.played, played := [] } handSizeConst sh hsh
  have h3 := fillHand_len
    { p with discard := p.discard ++ p.played, played := [] } handSizeConst sh hsh
  refine ⟨h1.1, h1.2.1, rfl, rfl, h2, ?_⟩
  have h3' : (p.finishTurn sh).hand.length =
      max p.hand.length (min handSizeConst
        (p.hand.length + p.deck.length + (p.discard ++ p.played).length)) := h3
  rw [h3', Player.numCards]
  simp only [List.length_append]
  omega

/-- C8: processing `FinishTurn` moves all of the current player's played
cards to their discard pile (the card multiset over hand, deck, played and
discard is preserved and `played` ends empty), refills the hand up to
`HAND_SIZE` as far as deck plus discard allow (so with both empty the hand
stays short, without panicking), resets the trash allowance and buy flag,
and advances the current-player index with wraparound; on wraparound the
round index increments and the outcome is `GameOver` exactly when some
player occupies a finish-segment node.  The shop, storage, barriers,
bonuses and map are untouched. -/
theorem c8_finish_turn_spec (g : GameState) (p : Player)
    (sh : List Card → List Card) (hsh : ∀ l, List.Perm (sh l) l)
    (hp : g.players.get? g.currPlayerIdx = some p) :
    ∃ g' oc, g.processAction .finishTurn sh = some (g', .ok oc) ∧
      g'.players = g.players.set g.currPlayerIdx (p.finishTurn sh) ∧
      (p.finishTurn sh).played = [] ∧
      (p.finishTurn sh).trashes = 0 ∧
      (p.finishTurn sh).canBuy = true ∧
      (p.finishTurn sh).position = p.position ∧
      List.Perm
        ((p.finishTurn sh).hand ++ (p.finishTurn sh).deck ++
          (p.finishTurn sh).discard)
        (p.hand ++ p.deck ++ (p.discard ++ p.played)) ∧
      (p.finishTurn sh).hand.length =
        max p.hand.length (min handSizeConst p.numCards) ∧
      (if g.currPlayerIdx + 1 = g.players.length then
        g'.currPlayerIdx = 0 ∧ g'.roundIdx = g.roundIdx + 1
       else
        g'.currPlayerIdx = g.currPlayerIdx + 1 ∧ g'.roundIdx = g.roundIdx) ∧
      (oc = ActionOutcome.gameOver ↔
        g.currPlayerIdx + 1 = g.players.length ∧ g.anyFinishedPlayer = true) ∧
      g'.map = g.map ∧ g'.shop = g.shop ∧ g'.storage = g.storage ∧
      g'.barriers = g.barriers ∧ g'.bonuses = g.bonuses := by
  obtain ⟨hpos, hpl, htr, hcb, hperm, hhlen⟩ := finishTurn_spec p sh hsh
  have hany : ∀ (a b : Nat),
      GameState.anyFinishedPlayer
        { g with
          players := g.players.set g.currPlayerIdx (p.finishTurn sh),
          currPlayerIdx := a,
          roundIdx := b } = g.anyFinishedPlayer := by
    intro a b
    rw [GameState.anyFinishedPlayer, GameState.anyFinishedPlayer]
    exact any_set_congr _ _ _ _ _ hp (by rw [hpos])
  simp only [GameState.processAction]
  rw [hp]
  simp only [List.length_set]
  by_cases hw : g.currPlayerIdx + 1 = g.players.length
  · rw [if_pos hw]
    by_cases hfin : g.anyFinishedPlayer = true
    · rw [if_pos (by rw [hany 0 (g.roundIdx + 1)]; exact hfin)]
      refine ⟨_, _, rfl, rfl, hpl, htr, hcb, hpos, hperm, hhlen, ?_, ?_,
        rfl, rfl, rfl, rfl, rfl⟩
      · rw [if_pos hw]
        exact ⟨rfl, rfl⟩
      · simp [hw, hfin]
    · rw [if_neg (by rw [hany 0 (g.roundIdx + 1)]; exact hfin)]
      refine ⟨_, _, rfl, rfl, hpl, htr, hcb, hpos, hperm, hhlen, ?_, ?_,
        rfl, rfl, rfl, rfl, rfl⟩
      · rw [if_pos hw]
        exact ⟨rfl, rfl⟩
      · simp [hfin]
  · rw [if_neg hw]
    refine ⟨_, _, rfl, rfl, hpl, htr, hcb, hpos, hperm, hhlen, ?_, ?_,
      rfl, rfl, rfl, rfl, rfl⟩
    · rw [if_neg hw]
      exact ⟨rfl, rfl⟩
    · simp [hw]

/-! ## C3 — move cost versus card capacity -/

/-- `swap_remove` succeeds on any in-range index. -/
theorem swapRemoveGet_some (l : List α) (i : Nat) (a : α)
    (h : l.get? i = some a) :
    ∃ rest, swapRemoveGet l i = some (a, rest) := by
  have hi : i < l.length := by
    rw [List.get?_eq_getElem?] at h
    exact (List.getElem?_eq_some_iff.mp h).1
  rcases hl : l.get? (l.length - 1) with _ | b
  · rw [List.get?_eq_getElem?, List.getElem?_eq_none_iff] at hl
    omega
  · refine ⟨l.dropLast.set i b, ?_⟩
    rw [swapRemoveGet, h, hl]

/-- `List.get?` after `set` at the same (in-range) index. -/
theorem get?_set_self {α : Type} :
    ∀ (l : List α) (n : Nat) (a : α), n < l.length →
      (l.set n a).get? n = some a
  | [], n, a, h => absurd h (by simp)
  | x :: xs, 0, a, _ => rfl
  | x :: xs, n + 1, a, h => get?_set_self xs n a (Nat.lt_of_succ_lt_succ h)

/-- `mark_played` with one valid index: the exact result. -/
theorem markPlayed_some_single (p : Player) (ci : Nat) (c : Card)
    (rest : List Card) (hsw : swapRemoveGet p.hand ci = some (c, rest)) :
    p.markPlayed [ci] =
      some { p with hand := rest, played := p.played ++ [c] } := by
  have hrs : revSorted [ci] = [ci] := rfl
  rw [Player.markPlayed, hrs, List.foldlM_cons]
  rw [hsw]
  simp only [Option.bind_eq_bind, Option.some_bind, List.foldlM_nil]
  rfl

/-- `trash_cards` with one valid index: the exact result. -/
theorem trashCards_some_single (p : Player) (ci : Nat) (c : Card)
    (rest : List Card) (hsw : swapRemoveGet p.hand ci = some (c, rest)) :
    p.trashCards [ci] = some { p with hand := rest } := by
  have hrs : revSorted [ci] = [ci] := rfl
  rw [Player.trashCards, hrs, List.foldlM_cons]
  simp only [swapRemoveL]
  rw [hsw]
  simp only [Option.map_some', Option.bind_eq_bind, Option.some_bind,
    List.foldlM_nil]
  rfl

/-- If one token scan came back `some false`, every referenced index is
valid, so any other scan also returns a result instead of panicking. -/
theorem anyTokM_some (p1 p2 : BonusToken → Bool) :
    ∀ (idxs : List Nat) (tokens : List BonusToken),
      anyTokM p1 tokens idxs = some false →
      ∃ b, anyTokM p2 tokens idxs = some b
  | [], _, _ => ⟨false, rfl⟩
  | i :: rest, tokens, h => by
    rw [anyTokM] at h ⊢
    cases hg : tokens.get? i with
    | none => rw [hg] at h; exact absurd h (by simp)
    | some t =>
      rw [hg] at h
      simp only [] at h ⊢
      split_ifs at h with hp1
      · exact absurd h (by simp)
      · obtain ⟨b, hb⟩ := anyTokM_some p1 p2 rest tokens h
        split_ifs with hp2
        · exact ⟨true, rfl⟩
        · exact ⟨b, hb⟩

/-- The mutation phase `move_apply` succeeds for a one-card, no-token,
no-barrier move, producing the moved player. -/
theorem moveApply_some_single (g : GameState) (mv : MoveAction) (acc : WalkAcc)
    (isu : Bool) (player : Player) (ci : Nat) (c : Card)
    (hp : g.players.get? g.currPlayerIdx = some player)
    (hcards : mv.cards = [ci])
    (hcard : player.hand.get? ci = some c)
    (htok : mv.tokens = [])
    (hbb : acc.brokenBarrier = none) :
    ∃ p', g.moveApply mv acc 0 isu =
        some { g with players := g.players.set g.currPlayerIdx p' } ∧
      p'.position = acc.pos := by
  obtain ⟨rest, hsw⟩ := swapRemoveGet_some player.hand ci c hcard
  rw [GameState.moveApply, hp]
  simp only []
  rw [hcards, htok, hbb]
  have hsw1 : swapRemoveGet
      (Player.hand { player with position := acc.pos }) ci = some (c, rest) := hsw
  cases isu with
  | true =>
    simp only [Bool.true_or, if_true]
    rw [trashCards_some_single { player with position := acc.pos } ci c rest hsw1]
    simp only []
    exact ⟨_, rfl, rfl⟩
  | false =>
    simp only [Bool.false_or, show decide (0 < 0) = false from rfl,
      Bool.false_and]
    rw [if_neg Bool.false_ne_true]
    rw [markPlayed_some_single { player with position := acc.pos } ci c rest hsw1]
    simp only []
    exact ⟨_, rfl, rfl⟩

/-- `handle_move` after a successful non-cave walk with no free move:
what remains is validation and the mutation phase. -/
theorem handleMove_walk_eq (g : GameState) (mv : MoveAction) (player : Player)
    (startNode : Node) (acc : WalkAcc)
    (hpath : mv.path.isEmpty = false)
    (hp : g.players.get? g.currPlayerIdx = some player)
    (hnode : g.map.nodeAt player.position = some startNode)
    (hwalk : walkPath g mv player.tokens mv.path 0
      ⟨player.position, startNode.boardIdx, 0, 0, 0, 0, none, none, none⟩ =
        some (.ok acc))
    (hcave : acc.visitedCave = none)
    (hfm : mv.isFreeMove player = false) :
    g.handleMove mv =
      match moveValidate player mv acc.mcJ acc.mcD acc.mcW acc.cardCost with
      | none => none
      | some (.error e) => some (g, .error e)
      | some (.ok isSingleUse) =>
        match g.moveApply mv acc acc.cardCost isSingleUse with
        | none => none
        | some g2 => some (g2, .ok acc.ignoreIdx) := by
  rw [GameState.handleMove, hpath]
  rw [if_neg Bool.false_ne_true]
  rw [hp]
  simp only []
  rw [hnode]
  simp only []
  rw [hwalk]
  simp only []
  rw [hcave]
  simp only []
  have hfma : freeMoveAdjust g mv player acc =
      some (.ok (acc.mcJ, acc.mcD, acc.mcW, acc.cardCost)) := by
    rw [freeMoveAdjust, hfm]
    rw [if_neg Bool.false_ne_true]
  rw [hfma]

/-- `move_validate` for a single referenced card with no `SwapSymbol`
token: the capacity checks, spelled out. -/
theorem moveValidate_one_card (player : Player) (mv : MoveAction) (ci : Nat)
    (card : Card) (mcJ mcD mcW : Nat) (b : Bool)
    (hcards : mv.cards = [ci])
    (hcard : player.hand.get? ci = some card)
    (hswap : anyTokM (fun t => t = BonusToken.swapSymbol) player.tokens
      mv.tokens = some false)
    (hdu : anyTokM (fun t => t = BonusToken.doubleUse) player.tokens
      mv.tokens = some b) :
    moveValidate player mv mcJ mcD mcW 0 =
      if mcJ + mcD + mcW ≠ max mcJ (max mcD mcW) then
        some (.error ("Path must contain a single movement type, got J=" ++
          toString mcJ ++ ", D=" ++ toString mcD ++ ", W=" ++ toString mcW))
      else if card.movement.j < mcJ then
        some (.error ("Need " ++ toString mcJ ++ "+ jungle movement on card"))
      else if card.movement.d < mcD then
        some (.error ("Need " ++ toString mcD ++ "+ desert movement on card"))
      else if card.movement.w < mcW then
        some (.error ("Need " ++ toString mcW ++ "+ water movement on card"))
      else if card.singleUse then some (.ok !b) else some (.ok false) := by
  rw [moveValidate]
  rw [if_neg (lt_irrefl 0)]
  simp only []
  by_cases hmix : mcJ + mcD + mcW ≠ max mcJ (max mcD mcW)
  · rw [if_pos hmix, if_pos hmix]
  · rw [if_neg hmix, if_neg hmix]
    rw [hcards]
    rw [if_pos (by simp)]
    rw [if_neg (by simp)]
    simp only [List.headD_cons]
    rw [hcard]
    simp only []
    rw [hswap]
    simp only []
    by_cases hj : card.movement.j < mcJ
    · rw [if_pos hj, if_pos hj]
    · rw [if_neg hj, if_neg hj]
      by_cases hd : card.movement.d < mcD
      · rw [if_pos hd, if_pos hd]
      · rw [if_neg hd, if_neg hd]
        by_cases hw : card.movement.w < mcW
        · rw [if_pos hw, if_pos hw]
        · rw [if_neg hw, if_neg hw]
          rw [hdu]

/-- C3 counterexample: a `FreeMove`-action card with zero movement
capacity still completes a one-step path whose jungle cost is 1 — the
free-move adjustment zeroes the accumulated costs, so the capacity check
of the claim is skipped. -/
theorem c3_counterexample :
    freeMoveCard.movement.maxv = 0 ∧
    walkPath c3state c3move [] c3move.path 0
      ⟨⟨0, 0⟩, 0, 0, 0, 0, 0, none, none, none⟩ =
      some (.ok ⟨⟨1, 0⟩, 1, 1, 0, 0, 0, none, none, none⟩) ∧
    c3state.processAction (.move c3move) id =
      some ({ c3state with
        players := [{ basePlayer with
          position := ⟨1, 0⟩,
          played := [freeMoveCard] }] }, .ok ActionOutcome.ok) := by
  decide

/-- C3 (amended): for a Move paid with exactly one referenced hand card
that is not a `FreeMove`-action card, with no `SwapSymbol` among the
(valid) referenced tokens and no card-cost (swamp/village/barrier) charge:
(a) if the walked path's summed cost in some movement type exceeds the
card's capacity in that type, the action returns an error leaving the
state unchanged; (b) a mixed-type path (summed cost over the three types
differing from the single largest type cost) likewise errors; (c) a
token-free, barrier-free path whose per-type cost exactly matches the
card's capacity in its single type succeeds and moves the player to the
walked position.  (For a `FreeMove` card the costs are zeroed and the
capacity check is skipped, so the original claim fails.) -/
theorem c3_move_cost_spec (g : GameState) (mv : MoveAction)
    (sh : List Card → List Card) :
    (∀ (player : Player) (startNode : Node) (acc : WalkAcc) (ci : Nat)
        (card : Card),
      mv.path.isEmpty = false →
      g.players.get? g.currPlayerIdx = some player →
      g.map.nodeAt player.position = some startNode →
      walkPath g mv player.tokens mv.path 0
        ⟨player.position, startNode.boardIdx, 0, 0, 0, 0, none, none, none⟩ =
          some (.ok acc) →
      acc.visitedCave = none →
      mv.cards = [ci] →
      player.hand.get? ci = some card →
      card.action ≠ some CardAction.freeMove →
      acc.cardCost = 0 →
      anyTokM (fun t => t = BonusToken.swapSymbol) player.tokens mv.tokens =
        some false →
      (card.movement.j < acc.mcJ ∨ card.movement.d < acc.mcD ∨
        card.movement.w < acc.mcW) →
      ∃ e, g.processAction (.move mv) sh = some (g, .error e)) ∧
    (∀ (player : Player) (startNode : Node) (acc : WalkAcc) (ci : Nat)
        (card : Card),
      mv.path.isEmpty = false →
      g.players.get? g.currPlayerIdx = some player →
      g.map.nodeAt player.position = some startNode →
      walkPath g mv player.tokens mv.path 0
        ⟨player.position, startNode.boardIdx, 0, 0, 0, 0, none, none, none⟩ =
          some (.ok acc) →
      acc.visitedCave = none →
      mv.cards = [ci] →
      player.hand.get? ci = some card →
      card.action ≠ some CardAction.freeMove →
      acc.cardCost = 0 →
      anyTokM (fun t => t = BonusToken.swapSymbol) player.tokens mv.tokens =
        some false →
      acc.mcJ + acc.mcD + acc.mcW ≠ max acc.mcJ (max acc.mcD acc.mcW) →
      ∃ e, g.processAction (.move mv) sh = some (g, .error e)) ∧
    (∀ (player : Player) (startNode : Node) (acc : WalkAcc) (ci : Nat)
        (card : Card),
      mv.path.isEmpty = false →
      g.players.get? g.currPlayerIdx = some player →
      g.map.nodeAt player.position = some startNode →
      walkPath g mv player.tokens mv.path 0
        ⟨player.position, startNode.boardIdx, 0, 0, 0, 0, none, none, none⟩ =
          some (.ok acc) →
      acc.visitedCave = none →
      mv.cards = [ci] →
      player.hand.get? ci = some card →
      card.action ≠ some CardAction.freeMove →
      acc.cardCost = 0 →
      mv.tokens = [] →
      acc.brokenBarrier = none →
      ((acc.mcD = 0 ∧ acc.mcW = 0 ∧ acc.mcJ = card.movement.j) ∨
       (acc.mcJ = 0 ∧ acc.mcW = 0 ∧ acc.mcD = card.movement.d) ∨
       (acc.mcJ = 0 ∧ acc.mcD = 0 ∧ acc.mcW = card.movement.w)) →
      ∃ g' oc p', g.processAction (.move mv) sh = some (g', .ok oc) ∧
        g'.players.get? g.currPlayerIdx = some p' ∧
        p'.position = acc.pos) := by
  have freeMoveFalse : ∀ (player : Player) (ci : Nat) (card : Card),
      mv.cards = [ci] → player.hand.get? ci = some card →
      card.action ≠ some CardAction.freeMove →
      mv.isFreeMove player = false := by
    intro player ci card hcards hcard hnotfm
    rw [MoveAction.isFreeMove, hcards]
    rw [if_pos (show [ci].length = 1 from rfl)]
    simp only [List.headD_cons]
    rw [hcard]
    simp only []
    exact decide_eq_false hnotfm
  refine ⟨?_, ?_, ?_⟩
  · intro player startNode acc ci card hpath hp hnode hwalk hcave hcards hcard
      hnotfm hcc hswap hexceed
    obtain ⟨b, hdu⟩ := anyTokM_some _ (fun t => t = BonusToken.doubleUse)
      mv.tokens player.tokens hswap
    have hhm := handleMove_walk_eq g mv player startNode acc hpath hp hnode
      hwalk hcave (freeMoveFalse player ci card hcards hcard hnotfm)
    rw [hcc] at hhm
    rw [moveValidate_one_card player mv ci card acc.mcJ acc.mcD acc.mcW b
      hcards hcard hswap hdu] at hhm
    simp only [GameState.processAction]
    rw [hhm]
    by_cases hmix : acc.mcJ + acc.mcD + acc.mcW ≠
        max acc.mcJ (max acc.mcD acc.mcW)
    · rw [if_pos hmix]
      exact ⟨_, rfl⟩
    · rw [if_neg hmix]
      by_cases hj : card.movement.j < acc.mcJ
      · rw [if_pos hj]
        exact ⟨_, rfl⟩
      · rw [if_neg hj]
        by_cases hd : card.movement.d < acc.mcD
        · rw [if_pos hd]
          exact ⟨_, rfl⟩
        · rw [if_neg hd]
          by_cases hw : card.movement.w < acc.mcW
          · rw [if_pos hw]
            exact ⟨_, rfl⟩
          · rcases hexceed with h | h | h
            · exact absurd h hj
            · exact absurd h hd
            · exact absurd h hw
  · intro player startNode acc ci card hpath hp hnode hwalk hcave hcards hcard
      hnotfm hcc hswap hmix
    obtain ⟨b, hdu⟩ := anyTokM_some _ (fun t => t = BonusToken.doubleUse)
      mv.tokens player.tokens hswap
    have hhm := handleMove_walk_eq g mv player startNode acc hpath hp hnode
      hwalk hcave (freeMoveFalse player ci card hcards hcard hnotfm)
    rw [hcc] at hhm
    rw [moveValidate_one_card player mv ci card acc.mcJ acc.mcD acc.mcW b
      hcards hcard hswap hdu] at hhm
    simp only [GameState.processAction]
    rw [hhm]
    rw [if_pos hmix]
    exact ⟨_, rfl⟩
  · intro player startNode acc ci card hpath hp hnode hwalk hcave hcards hcard
      hnotfm hcc htok hbb hcost
    have hswap : anyTokM (fun t => t = BonusToken.swapSymbol) player.tokens
        mv.tokens = some false := by rw [htok]; rfl
    have hdu : anyTokM (fun t => t = BonusToken.doubleUse) player.tokens
        mv.tokens = some false := by rw [htok]; rfl
    have hhm := handleMove_walk_eq g mv player startNode acc hpath hp hnode
      hwalk hcave (freeMoveFalse player ci card hcards hcard hnotfm)
    rw [hcc] at hhm
    rw [moveValidate_one_card player mv ci card acc.mcJ acc.mcD acc.mcW false
      hcards hcard hswap hdu] at hhm
    have hlt : g.currPlayerIdx < g.players.length := by
      rw [List.get?_eq_getElem?] at hp
      exact (List.getElem?_eq_some_iff.mp hp).1
    rcases hcost with ⟨h1, h2, h3⟩ | ⟨h1, h2, h3⟩ | ⟨h1, h2, h3⟩ <;>
    · rw [h1, h2, h3] at hhm
      rw [if_neg (by omega)] at hhm
      rw [if_neg (by omega), if_neg (by omega), if_neg (by omega)] at hhm
      cases hsu : card.singleUse with
      | true =>
        rw [hsu, if_pos rfl] at hhm
        obtain ⟨p', hma, hpp⟩ := moveApply_some_single g mv acc (!false)
          player ci card hp hcards hcard htok hbb
        simp only [] at hhm
        rw [hma] at hhm
        simp only [] at hhm
        refine ⟨{ g with
            players := g.players.set g.currPlayerIdx p' },
          match acc.ignoreIdx with
          | some i => ActionOutcome.ignoreMoveIdx i
          | none => ActionOutcome.ok, p', ?_, ?_, hpp⟩
        · simp only [GameState.processAction]
          rw [hhm]
          rfl
        · show (g.players.set g.currPlayerIdx p').get? g.currPlayerIdx =
            some p'
          exact get?_set_self g.players g.currPlayerIdx p' hlt
      | false =>
        rw [hsu, if_neg Bool.false_ne_true] at hhm
        obtain ⟨p', hma, hpp⟩ := moveApply_some_single g mv acc false
          player ci card hp hcards hcard htok hbb
        simp only [] at hhm
        rw [hma] at hhm
        simp only [] at hhm
        refine ⟨{ g with
            players := g.players.set g.currPlayerIdx p' },
          match acc.ignoreIdx with
          | some i => ActionOutcome.ignoreMoveIdx i
          | none => ActionOutcome.ok, p', ?_, ?_, hpp⟩
        · simp only [GameState.processAction]
          rw [hhm]
          rfl
        · show (g.players.set g.currPlayerIdx p').get? g.currPlayerIdx =
            some p'
          exact get?_set_self g.players g.currPlayerIdx p' hlt

/-- C3 witness: a one-player state holding an Explorer (1 jungle
movement) moves one step east onto a jungle node of cost 1 — the exact
capacity — and the move succeeds, landing the player at (1,0). -/
theorem c3_witness :
    ∃ g' oc p', c3wstate.processAction (.move c3move) id = some (g', .ok oc) ∧
      g'.players.get? 0 = some p' ∧ p'.position = ⟨1, 0⟩ := by
  obtain ⟨g', oc, p', h1, h2, h3⟩ :=
    (c3_move_cost_spec c3wstate c3move id).2.2
      { basePlayer with hand := [Card.explorer] }
      (Node.mk Terrain.jungle 1 0)
      ⟨⟨1, 0⟩, 1, 1, 0, 0, 0, none, none, none⟩ 0 Card.explorer
      rfl rfl (by decide) (by decide) rfl rfl rfl (by decide) rfl rfl rfl
      (Or.inl (by decide))
  exact ⟨g', oc, p', h1, h2, h3⟩

/-- C8 witness: on the base one-player state, whose player has empty deck
and discard, `FinishTurn` succeeds with all the stated properties. -/
theorem c8_witness :
    baseState.players.get? baseState.currPlayerIdx = some basePlayer ∧
    ∃ g' oc, baseState.processAction .finishTurn id = some (g', .ok oc) := by
  refine ⟨rfl, ?_⟩
  obtain ⟨g', oc, heq, -⟩ :=
    c8_finish_turn_spec baseState basePlayer id (fun l => List.Perm.refl l) rfl
  exact ⟨g', oc, heq⟩

/-! ## C9 — `create_custom` and the coordinate index -/

/-- Totality of the lexicographic order. -/
theorem lexLe_total (a b : AxialCoord) :
    AxialCoord.lexLe a b = true ∨ AxialCoord.lexLe b a = true := by
  simp only [AxialCoord.lexLe, Bool.or_eq_true, Bool.and_eq_true,
    decide_eq_true_eq]
  omega

/-- Transitivity of the lexicographic order. -/
theorem lexLe_trans (a b c : AxialCoord) (h1 : AxialCoord.lexLe a b = true)
    (h2 : AxialCoord.lexLe b c = true) : AxialCoord.lexLe a c = true := by
  simp only [AxialCoord.lexLe, Bool.or_eq_true, Bool.and_eq_true,
    decide_eq_true_eq] at h1 h2 ⊢
  omega

/-- A weak inequality between distinct coordinates is strict. -/
theorem lexLt_of_lexLe_ne (a b : AxialCoord)
    (h : AxialCoord.lexLe a b = true) (hne : a ≠ b) :
    AxialCoord.lexLt a b = true := by
  have hne2 : ¬(a.q = b.q ∧ a.r = b.r) := by
    intro ⟨h1, h2⟩
    apply hne
    cases a
    cases b
    simp_all
  simp only [AxialCoord.lexLe, Bool.or_eq_true, Bool.and_eq_true,
    decide_eq_true_eq] at h
  simp only [AxialCoord.lexLt, Bool.or_eq_true, Bool.and_eq_true,
    decide_eq_true_eq]
  omega

/-- Strict-then-weak transitivity of the lexicographic order. -/
theorem lexLt_le_trans (a b c : AxialCoord) (h1 : AxialCoord.lexLt a b = true)
    (h2 : AxialCoord.lexLe b c = true) : AxialCoord.lexLt a c = true := by
  simp only [AxialCoord.lexLe, AxialCoord.lexLt, Bool.or_eq_true,
    Bool.and_eq_true, decide_eq_true_eq] at h1 h2 ⊢
  omega

/-- Strictly smaller coordinates are distinct. -/
theorem lexLt_ne (a b : AxialCoord) (h : AxialCoord.lexLt a b = true) :
    a ≠ b := by
  intro heq
  subst heq
  simp only [AxialCoord.lexLt, Bool.or_eq_true, Bool.and_eq_true,
    decide_eq_true_eq] at h
  omega

/-- Inserting preserves the multiset (as a permutation). -/
theorem insertLe_perm {α : Type} (le : α → α → Bool) (x : α) :
    ∀ l : List α, List.Perm (insertLe le x l) (x :: l)
  | [] => List.Perm.refl _
  | y :: ys => by
    rw [insertLe]
    split_ifs
    · exact List.Perm.refl _
    · exact (List.Perm.cons y (insertLe_perm le x ys)).trans
        (List.Perm.swap x y ys)

/-- The modelled sort is a permutation of its input. -/
theorem sortLe_perm {α : Type} (le : α → α → Bool) :
    ∀ l : List α, List.Perm (sortLe le l) l
  | [] => List.Perm.refl _
  | x :: xs => by
    show List.Perm (insertLe le x (sortLe le xs)) (x :: xs)
    exact (insertLe_perm le x _).trans (List.Perm.cons x (sortLe_perm le xs))

/-- Insertion into a sorted list stays sorted (for a total transitive
order). -/
theorem insertLe_sorted {α : Type} (le : α → α → Bool)
    (htot : ∀ a b, le a b = true ∨ le b a = true)
    (htrans : ∀ a b c, le a b = true → le b c = true → le a c = true)
    (x : α) :
    ∀ l : List α, l.Pairwise (fun a b => le a b = true) →
      (insertLe le x l).Pairwise (fun a b => le a b = true)
  | [], _ => by simp [insertLe]
  | y :: ys, h => by
    rw [insertLe]
    obtain ⟨hy, hys⟩ := List.pairwise_cons.mp h
    split_ifs with hxy
    · refine List.pairwise_cons.mpr ⟨?_, h⟩
      intro b hb
      rcases List.mem_cons.mp hb with hb | hb
      · rw [hb]
        exact hxy
      · exact htrans x y b hxy (hy b hb)
    · refine List.pairwise_cons.mpr
        ⟨?_, insertLe_sorted le htot htrans x ys hys⟩
      intro b hb
      rcases List.mem_cons.mp ((insertLe_perm le x ys).mem_iff.mp hb) with
        hb | hb
      · rw [hb]
        rcases htot x y with hxy2 | hyx
        · exact absurd hxy2 hxy
        · exact hyx
      · exact hy b hb

/-- The modelled sort sorts (for a total transitive order). -/
theorem sortLe_sorted {α : Type} (le : α → α → Bool)
    (htot : ∀ a b, le a b = true ∨ le b a = true)
    (htrans : ∀ a b c, le a b = true → le b c = true → le a c = true) :
    ∀ l : List α, (sortLe le l).Pairwise (fun a b => le a b = true)
  | [] => List.Pairwise.nil
  | x :: xs => by
    show (insertLe le x (sortLe le xs)).Pairwise _
    exact insertLe_sorted le htot htrans x _ (sortLe_sorted le htot htrans xs)

/-- A key-sorted list without adjacent duplicate coordinates is strictly
sorted by coordinate. -/
theorem pairwise_lt_of_noAdjDup :
    ∀ l : List (AxialCoord × Node),
      l.Pairwise (fun a b => nodeKeyLe a b = true) →
      hasAdjDup l = false →
      l.Pairwise (fun a b => AxialCoord.lexLt a.1 b.1 = true)
  | [], _, _ => List.Pairwise.nil
  | [a], _, _ => by simp
  | a :: b :: rest, hs, hd => by
    rw [hasAdjDup] at hd
    simp only [Bool.or_eq_false_iff, decide_eq_false_iff_not] at hd
    obtain ⟨hne, hd2⟩ := hd
    obtain ⟨ha, hs2⟩ := List.pairwise_cons.mp hs
    have ih := pairwise_lt_of_noAdjDup (b :: rest) hs2 hd2
    refine List.pairwise_cons.mpr ⟨?_, ih⟩
    intro x hx
    have hab : AxialCoord.lexLt a.1 b.1 = true :=
      lexLt_of_lexLe_ne a.1 b.1 (ha b (List.mem_cons_self b rest)) hne
    rcases List.mem_cons.mp hx with hx | hx
    · rw [hx]
      exact hab
    · have hbx : nodeKeyLe b x = true :=
        (List.pairwise_cons.mp hs2).1 x hx
      exact lexLt_le_trans a.1 b.1 x.1 hab hbx

/-- Every index below the `takeWhile` length satisfies the predicate. -/
theorem takeWhile_get_sat {α : Type} (p : α → Bool) :
    ∀ (l : List α) (k : Nat), k < (l.takeWhile p).length →
      ∃ a, l.get? k = some a ∧ p a = true
  | [], k, h => absurd h (by simp)
  | x :: xs, k, h => by
    cases hpx : p x with
    | false =>
      rw [List.takeWhile_cons, hpx] at h
      exact absurd h (by simp)
    | true =>
      rw [List.takeWhile_cons, hpx] at h
      cases k with
      | zero => exact ⟨x, rfl, hpx⟩
      | succ k =>
        simp only [if_true, List.length_cons, Nat.succ_lt_succ_iff] at h
        exact takeWhile_get_sat p xs k h

/-- The element at the `takeWhile` boundary fails the predicate. -/
theorem takeWhile_get_fail {α : Type} (p : α → Bool) :
    ∀ l : List α, (l.takeWhile p).length < l.length →
      ∃ a, l.get? (l.takeWhile p).length = some a ∧ p a = false
  | [], h => absurd h (by simp)
  | x :: xs, h => by
    cases hpx : p x with
    | false =>
      refine ⟨x, ?_, hpx⟩
      rw [List.takeWhile_cons, hpx]
      rfl
    | true =>
      rw [List.takeWhile_cons, hpx] at h ⊢
      simp only [if_true, List.length_cons, Nat.succ_lt_succ_iff] at h
      obtain ⟨a, ha, hpa⟩ := takeWhile_get_fail p xs h
      exact ⟨a, ha, hpa⟩

/-- If the first `n+1` elements all satisfy the predicate, the `takeWhile`
prefix is longer than `n`. -/
theorem takeWhile_length_gt {α : Type} (p : α → Bool) :
    ∀ (l : List α) (n : Nat),
      (∀ k, k ≤ n → ∀ a, l.get? k = some a → p a = true) →
      n < l.length → n < (l.takeWhile p).length
  | [], n, _, h => absurd h (by simp)
  | x :: xs, n, hall, h => by
    have hpx : p x = true := hall 0 (Nat.zero_le n) x rfl
    rw [List.takeWhile_cons, hpx]
    cases n with
    | zero => simp
    | succ n =>
      simp only [if_true, List.length_cons, Nat.succ_lt_succ_iff]
      refine takeWhile_length_gt p xs n ?_ (by simpa using h)
      intro k hk a ha
      exact hall (k + 1) (Nat.succ_le_succ hk) a ha

/-- Reading a `zip` entry reads both lists. -/
theorem zip_get? {α β : Type} :
    ∀ (l : List α) (l2 : List β) (i : Nat) (a : α) (b : β),
      (l.zip l2).get? i = some (a, b) →
      l.get? i = some a ∧ l2.get? i = some b
  | [], _, i, _, _, h => absurd h (by simp)
  | _ :: _, [], i, _, _, h => absurd h (by simp)
  | x :: xs, y :: ys, 0, a, b, h => by
    have hxy : (x, y) = (a, b) := by simpa using h
    obtain ⟨h1, h2⟩ := Prod.mk.injEq .. |>.mp hxy
    exact ⟨by rw [← h1]; rfl, by rw [← h2]; rfl⟩
  | x :: xs, y :: ys, i + 1, a, b, h =>
    zip_get? xs ys i a b h

/-- Writing a `zip` entry from both lists. -/
theorem zip_get?_mk {α β : Type} :
    ∀ (l : List α) (l2 : List β) (i : Nat) (a : α) (b : β),
      l.get? i = some a → l2.get? i = some b →
      (l.zip l2).get? i = some (a, b)
  | [], _, i, _, _, h, _ => absurd h (by simp)
  | _ :: _, [], i, _, _, _, h => absurd h (by simp)
  | x :: xs, y :: ys, 0, a, b, h1, h2 => by
    have hx : x = a := by simpa using h1
    have hy : y = b := by simpa using h2
    rw [List.zip_cons_cons]
    rw [hx, hy]
    rfl
  | x :: xs, y :: ys, i + 1, a, b, h1, h2 =>
    zip_get?_mk xs ys i a b h1 h2

/-- Reading a coordinate of the map reads both coordinate arrays. -/
theorem coords_get? (m : HexMap) (i : Nat) (c : AxialCoord)
    (h : m.coords.get? i = some c) :
    m.qs.get? i = some c.q ∧ m.rs.get? i = some c.r := by
  rw [HexMap.coords, List.get?_eq_getElem?, List.getElem?_map] at h
  cases hz : (m.qs.zip m.rs)[i]? with
  | none => rw [hz] at h; exact absurd h (by simp)
  | some pr =>
    rw [hz] at h
    simp only [Option.map_some'] at h
    obtain ⟨hq, hr⟩ := zip_get? m.qs m.rs i pr.1 pr.2
      (by rw [List.get?_eq_getElem?, hz])
    injection h with h
    rw [← h]
    exact ⟨hq, hr⟩

/-- Writing a coordinate of the map from both coordinate arrays. -/
theorem coords_get?_mk (m : HexMap) (i : Nat) (q r : Int)
    (hq : m.qs.get? i = some q) (hr : m.rs.get? i = some r) :
    m.coords.get? i = some ⟨q, r⟩ := by
  rw [HexMap.coords, List.get?_eq_getElem?, List.getElem?_map,
    ← List.get?_eq_getElem?, zip_get?_mk m.qs m.rs i q r hq hr]
  rfl

/-- Soundness of `node_idx`: a returned index holds the searched
coordinate (no sortedness required). -/
theorem nodeIdx_sound (m : HexMap) (c : AxialCoord) (i : Nat)
    (h : m.nodeIdx c = some i) :
    m.qs.get? i = some c.q ∧ m.rs.get? i = some c.r := by
  rw [HexMap.nodeIdx] at h
  obtain ⟨j, hj, hji⟩ := Option.map_eq_some'.mp h
  rw [binarySearchIdx, List.findIdx?_eq_some_iff_getElem] at hj
  obtain ⟨hlt, hpj, -⟩ := hj
  have hwin := hlt
  rw [List.length_take, List.length_drop] at hwin
  have hrval : m.rs.get? (partitionPoint (· < c.q) m.qs + j) = some c.r := by
    have hget := List.getElem?_eq_getElem hlt
    rw [List.getElem?_take, if_pos (by omega), List.getElem?_drop] at hget
    rw [List.get?_eq_getElem?, hget]
    exact congrArg some (of_decide_eq_true hpj)
  have hqval : m.qs.get? (partitionPoint (· < c.q) m.qs + j) = some c.q := by
    obtain ⟨a, ha, hpa⟩ := takeWhile_get_sat (fun q => decide (q = c.q))
      (m.qs.drop (partitionPoint (· < c.q) m.qs)) j (by
        show j < partitionPoint (· = c.q)
          (m.qs.drop (partitionPoint (· < c.q) m.qs))
        omega)
    rw [List.get?_eq_getElem?, List.getElem?_drop] at ha
    rw [List.get?_eq_getElem?, ha]
    exact congrArg some (of_decide_eq_true hpa)
  rw [← hji, Nat.add_comm j (partitionPoint (· < c.q) m.qs)]
  exact ⟨hqval, hrval⟩

/-- Completeness of `node_idx` on a strictly lexicographically sorted
coordinate list: every present coordinate is found at its index. -/
theorem nodeIdx_complete (m : HexMap) (hlen : m.rs.length = m.qs.length)
    (hsort : ∀ (i j : Nat) (a b : AxialCoord), i < j →
      m.coords.get? i = some a → m.coords.get? j = some b →
      AxialCoord.lexLt a b = true)
    (i : Nat) (c : AxialCoord) (hc : m.coords.get? i = some c) :
    m.nodeIdx c = some i := by
  obtain ⟨hiq, hir⟩ := coords_get? m i c hc
  have hilt : i < m.qs.length := by
    rw [List.get?_eq_getElem?] at hiq
    exact (List.getElem?_eq_some_iff.mp hiq).1
  have hclen : m.coords.length = min m.qs.length m.rs.length := by
    rw [HexMap.coords, List.length_map, List.length_zip]
  have hpp1 : partitionPoint (fun x => decide (x < c.q)) m.qs =
      (m.qs.takeWhile (fun q => decide (q < c.q))).length := rfl
  -- every index below `i` is in range of coords
  have hcoord : ∀ k, k < m.qs.length → ∃ ck, m.coords.get? k = some ck ∧
      m.qs.get? k = some ck.q ∧ m.rs.get? k = some ck.r := by
    intro k hk
    have hk2 : k < m.coords.length := by omega
    have hsome := List.getElem?_eq_getElem hk2
    rw [← List.get?_eq_getElem?] at hsome
    exact ⟨_, hsome, coords_get? m k _ hsome⟩
  -- the partition point is at most i
  have hsle : partitionPoint (· < c.q) m.qs ≤ i := by
    by_contra hgt
    obtain ⟨a, ha, hpa⟩ := takeWhile_get_sat (fun q => decide (q < c.q))
      m.qs i (by omega)
    rw [hiq] at ha
    injection ha with ha
    rw [ha] at hpa
    have := of_decide_eq_true hpa
    omega
  -- every index in [s, i] has q-coordinate c.q
  have hsq : ∀ k, partitionPoint (· < c.q) m.qs ≤ k → k ≤ i →
      m.qs.get? k = some c.q := by
    intro k hks hki
    rcases Nat.eq_or_lt_of_le hki with hk | hk
    · rw [hk]
      exact hiq
    obtain ⟨ck, hck, hckq, hckr⟩ := hcoord k (by omega)
    have hkle : ck.q ≤ c.q := by
      have := hsort k i ck c hk hck hc
      simp only [AxialCoord.lexLt, Bool.or_eq_true, Bool.and_eq_true,
        decide_eq_true_eq] at this
      omega
    obtain ⟨a0, ha0, hpa0⟩ := takeWhile_get_fail (fun q => decide (q < c.q))
      m.qs (by omega)
    have hfail : ¬(a0 < c.q) := of_decide_eq_false hpa0
    obtain ⟨cs, hcs, hcsq, hcsr⟩ :=
      hcoord (partitionPoint (· < c.q) m.qs) (by omega)
    have hcsa : cs.q = a0 := by
      rw [← hpp1] at ha0
      rw [hcsq] at ha0
      injection ha0
    have hsk : cs.q ≤ ck.q := by
      rcases Nat.eq_or_lt_of_le hks with hk2 | hk2
      · rw [← hk2] at hck
        rw [hcs] at hck
        injection hck with hck
        rw [hck]
      · have := hsort _ k cs ck hk2 hcs hck
        simp only [AxialCoord.lexLt, Bool.or_eq_true, Bool.and_eq_true,
          decide_eq_true_eq] at this
        omega
    rw [hckq]
    have : ck.q = c.q := by omega
    rw [this]
  -- i lies inside the equal-q block
  have hblock : i - partitionPoint (· < c.q) m.qs <
      partitionPoint (· = c.q)
        (m.qs.drop (partitionPoint (· < c.q) m.qs)) := by
    show i - partitionPoint (· < c.q) m.qs <
      ((m.qs.drop (partitionPoint (· < c.q) m.qs)).takeWhile
        (fun q => decide (q = c.q))).length
    refine takeWhile_length_gt _ _ _ ?_ (by rw [List.length_drop]; omega)
    intro k hk a ha
    rw [List.get?_eq_getElem?, List.getElem?_drop,
      ← List.get?_eq_getElem?] at ha
    rw [hsq (partitionPoint (· < c.q) m.qs + k) (by omega) (by omega)] at ha
    injection ha with ha
    rw [← ha]
    exact decide_eq_true rfl
  -- assemble the binary-search result
  rw [HexMap.nodeIdx]
  have hws : (partitionPoint (· = c.q)
        (m.qs.drop (partitionPoint (· < c.q) m.qs)) +
      partitionPoint (· < c.q) m.qs) - partitionPoint (· < c.q) m.qs =
      partitionPoint (· = c.q)
        (m.qs.drop (partitionPoint (· < c.q) m.qs)) := by omega
  have hwlen : ((m.rs.drop (partitionPoint (· < c.q) m.qs)).take
      (partitionPoint (· = c.q)
          (m.qs.drop (partitionPoint (· < c.q) m.qs)) +
        partitionPoint (· < c.q) m.qs -
        partitionPoint (· < c.q) m.qs)).length =
      min (partitionPoint (· = c.q)
        (m.qs.drop (partitionPoint (· < c.q) m.qs)))
        (m.rs.length - partitionPoint (· < c.q) m.qs) := by
    rw [List.length_take, List.length_drop, hws]
  have hwget : ∀ k, k < i - partitionPoint (· < c.q) m.qs + 1 →
      ((m.rs.drop (partitionPoint (· < c.q) m.qs)).take
        (partitionPoint (· = c.q)
            (m.qs.drop (partitionPoint (· < c.q) m.qs)) +
          partitionPoint (· < c.q) m.qs -
          partitionPoint (· < c.q) m.qs))[k]? =
      m.rs[partitionPoint (· < c.q) m.qs + k]? := by
    intro k hk
    rw [List.getElem?_take, if_pos (by omega), List.getElem?_drop]
  have hfi : binarySearchIdx
      ((m.rs.drop (partitionPoint (· < c.q) m.qs)).take
        (partitionPoint (· = c.q)
            (m.qs.drop (partitionPoint (· < c.q) m.qs)) +
          partitionPoint (· < c.q) m.qs -
          partitionPoint (· < c.q) m.qs)) c.r =
      some (i - partitionPoint (· < c.q) m.qs) := by
    rw [binarySearchIdx, List.findIdx?_eq_some_iff_getElem]
    have hwl : i - partitionPoint (· < c.q) m.qs <
        ((m.rs.drop (partitionPoint (· < c.q) m.qs)).take
          (partitionPoint (· = c.q)
              (m.qs.drop (partitionPoint (· < c.q) m.qs)) +
            partitionPoint (· < c.q) m.qs -
            partitionPoint (· < c.q) m.qs)).length := by
      rw [hwlen]
      omega
    refine ⟨hwl, ?_, ?_⟩
    · have h1 := List.getElem?_eq_getElem hwl
      rw [hwget _ (by omega)] at h1
      have h2 : m.rs[partitionPoint (· < c.q) m.qs +
          (i - partitionPoint (· < c.q) m.qs)]? = some c.r := by
        rw [show partitionPoint (· < c.q) m.qs +
          (i - partitionPoint (· < c.q) m.qs) = i by omega]
        rw [← List.get?_eq_getElem?]
        exact hir
      rw [h2] at h1
      injection h1 with h1
      rw [h1]
      exact decide_eq_true rfl
    · intro j hj
      have hjw : j < ((m.rs.drop (partitionPoint (· < c.q) m.qs)).take
          (partitionPoint (· = c.q)
              (m.qs.drop (partitionPoint (· < c.q) m.qs)) +
            partitionPoint (· < c.q) m.qs -
            partitionPoint (· < c.q) m.qs)).length := by omega
      have h1 := List.getElem?_eq_getElem hjw
      rw [hwget _ (by omega)] at h1
      obtain ⟨cj, hcj, hcjq, hcjr⟩ :=
        hcoord (partitionPoint (· < c.q) m.qs + j) (by omega)
      have hlex := hsort (partitionPoint (· < c.q) m.qs + j) i cj c
        (by omega) hcj hc
      have hq : cj.q = c.q := by
        have := hsq (partitionPoint (· < c.q) m.qs + j) (by omega) (by omega)
        rw [hcjq] at this
        injection this
      have hr : cj.r < c.r := by
        simp only [AxialCoord.lexLt, Bool.or_eq_true, Bool.and_eq_true,
          decide_eq_true_eq] at hlex
        omega
      rw [← List.get?_eq_getElem?, hcjr] at h1
      injection h1 with h1
      rw [← h1]
      simp only [decide_eq_true_eq]
      omega
  rw [hfi]
  simp only [Option.map_some']
  congr 1
  omega

/-- A map whose coordinates are strictly sorted has duplicate-free
coordinates, and every stored coordinate round-trips through the index
functions. -/
theorem hexmap_roundtrip (m : HexMap) (hlen : m.rs.length = m.qs.length)
    (hstrict : m.coords.Pairwise (fun a b => AxialCoord.lexLt a b = true)) :
    m.coords.Nodup ∧
    ∀ (i : Nat) (c : AxialCoord), m.coords.get? i = some c →
      m.nodeIdx c = some i ∧ m.coordAtIdx i = some c ∧
      m.nodeAt c = m.nodes.get? i := by
  have hsort2 : ∀ (i j : Nat) (a b : AxialCoord), i < j →
      m.coords.get? i = some a → m.coords.get? j = some b →
      AxialCoord.lexLt a b = true := by
    intro i j a b hij ha hb
    rw [List.get?_eq_getElem?] at ha hb
    obtain ⟨hi, ha2⟩ := List.getElem?_eq_some_iff.mp ha
    obtain ⟨hj, hb2⟩ := List.getElem?_eq_some_iff.mp hb
    have hp := List.pairwise_iff_getElem.mp hstrict i j hi hj hij
    rw [ha2, hb2] at hp
    exact hp
  refine ⟨hstrict.imp (fun h => lexLt_ne _ _ h), ?_⟩
  intro i c hc
  obtain ⟨hq, hr⟩ := coords_get? m i c hc
  refine ⟨nodeIdx_complete m hlen hsort2 i c hc, ?_, ?_⟩
  · rw [HexMap.coordAtIdx, hq]
    simp only [Option.some_bind]
    rw [hr]
    rfl
  · rw [HexMap.nodeAt, nodeIdx_complete m hlen hsort2 i c hc]
    rfl

/-- C9: `create_custom` errors on an empty layout; it errors whenever the
placed segments would put two nodes at the same coordinate; and on every
successful layout the produced map has duplicate-free coordinates, and
every coordinate it stores round-trips — `node_idx` finds its index,
`coord_at_idx` of that index returns the coordinate, and `node_at`
returns the node stored at that index. -/
theorem c9_create_custom_spec
    (loadBoard : Char → Except String (List SavedNode))
    (layout : List LayoutInfo) :
    (layout = [] →
      createCustom loadBoard layout =
        .error "Cannot create map with an empty layout") ∧
    (∀ ns, buildNodes loadBoard layout 0 = .ok ns →
      ¬(ns.map (·.1)).Nodup →
      ∃ e, createCustom loadBoard layout = .error e) ∧
    (∀ m, createCustom loadBoard layout = .ok m →
      m.coords.Nodup ∧
      ∀ (i : Nat) (c : AxialCoord), m.coords.get? i = some c →
        m.nodeIdx c = some i ∧ m.coordAtIdx i = some c ∧
        m.nodeAt c = m.nodes.get? i) := by
  have htot : ∀ a b : AxialCoord × Node,
      nodeKeyLe a b = true ∨ nodeKeyLe b a = true :=
    fun a b => lexLe_total a.1 b.1
  have htrans : ∀ a b c : AxialCoord × Node, nodeKeyLe a b = true →
      nodeKeyLe b c = true → nodeKeyLe a c = true :=
    fun a b c => lexLe_trans a.1 b.1 c.1
  refine ⟨?_, ?_, ?_⟩
  · intro hL
    rw [hL, createCustom]
    rfl
  · intro ns hb hdup
    rw [createCustom]
    by_cases hL : layout.isEmpty
    · rw [if_pos hL]
      exact ⟨_, rfl⟩
    · rw [if_neg hL, hb]
      simp only []
      cases had : hasAdjDup (sortLe nodeKeyLe ns) with
      | true =>
        rw [if_pos rfl]
        exact ⟨_, rfl⟩
      | false =>
        exfalso
        have hsorted := sortLe_sorted nodeKeyLe htot htrans ns
        have hstrict := pairwise_lt_of_noAdjDup _ hsorted had
        have hnodup : ((sortLe nodeKeyLe ns).map (·.1)).Nodup :=
          List.pairwise_map.mpr (hstrict.imp (fun h => lexLt_ne _ _ h))
        exact hdup (((sortLe_perm nodeKeyLe ns).map (·.1)).nodup_iff.mp hnodup)
  · intro m hok
    rw [createCustom] at hok
    by_cases hL : layout.isEmpty
    · rw [if_pos hL] at hok
      exact absurd hok (by simp)
    rw [if_neg hL] at hok
    cases hb : buildNodes loadBoard layout 0 with
    | error e =>
      rw [hb] at hok
      exact absurd hok (by simp)
    | ok ns =>
      rw [hb] at hok
      simp only [] at hok
      cases had : hasAdjDup (sortLe nodeKeyLe ns) with
      | true =>
        rw [if_pos had] at hok
        exact absurd hok (by simp)
      | false =>
        rw [if_neg (by simp [had])] at hok
        injection hok with hok
        subst hok
        have hsorted := sortLe_sorted nodeKeyLe htot htrans ns
        have hstrict := pairwise_lt_of_noAdjDup _ hsorted had
        refine hexmap_roundtrip _ ?_ ?_
        · show ((sortLe nodeKeyLe ns).map (fun x => x.1.r)).length =
            ((sortLe nodeKeyLe ns).map (fun x => x.1.q)).length
          rw [List.length_map, List.length_map]
        · show List.Pairwise _
            (HexMap.coords
              { qs := (sortLe nodeKeyLe ns).map (fun x => x.1.q),
                rs := (sortLe nodeKeyLe ns).map (fun x => x.1.r),
                nodes := (sortLe nodeKeyLe ns).map (fun x => x.2),
                finishIdx := layout.length - 1 })
          have hcoords : HexMap.coords
              { qs := (sortLe nodeKeyLe ns).map (fun x => x.1.q),
                rs := (sortLe nodeKeyLe ns).map (fun x => x.1.r),
                nodes := (sortLe nodeKeyLe ns).map (fun x => x.2),
                finishIdx := layout.length - 1 } =
              (sortLe nodeKeyLe ns).map (·.1) := by
            rw [HexMap.coords]
            show (((sortLe nodeKeyLe ns).map (fun x => x.1.q)).zip
                ((sortLe nodeKeyLe ns).map (fun x => x.1.r))).map
                (fun p => AxialCoord.mk p.1 p.2) =
              (sortLe nodeKeyLe ns).map (fun x => x.1)
            rw [List.zip_map', List.map_map]
            rfl
          rw [hcoords]
          exact List.pairwise_map.mpr hstrict

/-- C9 witness: the two-segment layout at centres (0,0) and (1,0)
produces exactly `mapA`, whose coordinates are duplicate-free and
round-trip; the overlapping layout errors. -/
theorem c9_witness :
    createCustom c9load c9layout = .ok mapA ∧
    (∃ e, createCustom c9load c9dupLayout = .error e) ∧
    mapA.coords.Nodup ∧
    mapA.nodeIdx ⟨1, 0⟩ = some 1 ∧ mapA.coordAtIdx 1 = some ⟨1, 0⟩ ∧
    mapA.nodeAt ⟨1, 0⟩ = mapA.nodes.get? 1 := by
  have h3 := (c9_create_custom_spec c9load c9layout).2.2 mapA (by decide)
  have h2 := (c9_create_custom_spec c9load c9dupLayout).2.1
    [(⟨0, 0⟩, Node.mk Terrain.jungle 1 0), (⟨0, 0⟩, Node.mk Terrain.jungle 1 1)]
    (by decide) (by decide)
  obtain ⟨hrt1, hrt2, hrt3⟩ := h3.2 1 ⟨1, 0⟩ (by decide)
  exact ⟨by decide, h2, h3.1, hrt1, hrt2, hrt3⟩

/-! ## C5 — BFS distances -/

/-- Reading after `set`: the written index, or the old value. -/
theorem get?_set_cases {α : Type} :
    ∀ (l : List α) (i j : Nat) (a w : α),
      (l.set i a).get? j = some w →
      (j = i ∧ w = a ∧ j < l.length) ∨ l.get? j = some w
  | [], _, _, _, _, h => Or.inr h
  | x :: xs, 0, 0, a, w, h => by
    have hw : a = w := by simpa using h
    exact Or.inl ⟨rfl, hw.symm, by simp⟩
  | x :: xs, 0, j + 1, a, w, h => Or.inr h
  | x :: xs, i + 1, 0, a, w, h => Or.inr h
  | x :: xs, i + 1, j + 1, a, w, h => by
    rcases get?_set_cases xs i j a w h with ⟨h1, h2, h3⟩ | h1
    · exact Or.inl ⟨by omega, h2, by simpa using Nat.succ_lt_succ h3⟩
    · exact Or.inr h1

/-- In-range reads succeed. -/
theorem get?_of_lt {α : Type} (l : List α) (j : Nat) (h : j < l.length) :
    ∃ v, l.get? j = some v := by
  rw [List.get?_eq_getElem?]
  exact ⟨l[j], List.getElem?_eq_getElem h⟩

/-- Overwriting with a strictly smaller value strictly shrinks the sum. -/
theorem sum_set_le :
    ∀ (l : List Nat) (i a v : Nat), l.get? i = some v → a < v →
      (l.set i a).sum + 1 ≤ l.sum
  | [], _, _, _, h, _ => absurd h (by simp)
  | x :: xs, 0, a, v, h, hav => by
    have hx : x = v := by simpa using h
    simp only [List.set_cons_zero, List.sum_cons]
    omega
  | x :: xs, i + 1, a, v, h, hav => by
    have := sum_set_le xs i a v h hav
    simp only [List.set_cons_succ, List.sum_cons]
    omega

/-- The relaxation loop only appends to the queue. -/
theorem relaxNbrs_queue_prefix (m : HexMap) (nd : Nat) :
    ∀ (nbrs : List Nat) (dists : List Nat) (q : List (Nat × Nat)),
      ∃ extra, (relaxNbrs m nd nbrs dists q).2 = q ++ extra
  | [], dists, q => ⟨[], by rw [relaxNbrs, List.append_nil]⟩
  | nbr :: rest, dists, q => by
    rw [relaxNbrs]
    cases hd : dists.get? nbr with
    | none =>
      simp only []
      exact relaxNbrs_queue_prefix m nd rest dists q
    | some d =>
      cases hn : m.nodes.get? nbr with
      | none =>
        simp only []
        exact relaxNbrs_queue_prefix m nd rest dists q
      | some node =>
        simp only []
        split_ifs with hc
        · obtain ⟨extra, he⟩ := relaxNbrs_queue_prefix m nd rest
            (dists.set nbr nd) (q ++ [(nbr, nd)])
          exact ⟨(nbr, nd) :: extra, by rw [he, List.append_assoc]; rfl⟩
        · exact relaxNbrs_queue_prefix m nd rest dists q

/-- The relaxation loop preserves the length of the distance array. -/
theorem relaxNbrs_len (m : HexMap) (nd : Nat) :
    ∀ (nbrs : List Nat) (dists : List Nat) (q : List (Nat × Nat)),
      (relaxNbrs m nd nbrs dists q).1.length = dists.length
  | [], dists, q => by rw [relaxNbrs]
  | nbr :: rest, dists, q => by
    rw [relaxNbrs]
    cases hd : dists.get? nbr with
    | none =>
      simp only []
      exact relaxNbrs_len m nd rest dists q
    | some d =>
      cases hn : m.nodes.get? nbr with
      | none =>
        simp only []
        exact relaxNbrs_len m nd rest dists q
      | some node =>
        simp only []
        split_ifs with hc
        · rw [relaxNbrs_len m nd rest (dists.set nbr nd) (q ++ [(nbr, nd)])]
          rw [List.length_set]
        · exact relaxNbrs_len m nd rest dists q

/-- Pointwise effect of the relaxation loop: every entry keeps its value
or is lowered to exactly `nd`, and lowered entries are low-cost nodes that
were enqueued. -/
theorem relaxNbrs_get (m : HexMap) (nd : Nat) :
    ∀ (nbrs : List Nat) (dists : List Nat) (q : List (Nat × Nat))
      (k v : Nat), dists.get? k = some v →
      ∃ v2, (relaxNbrs m nd nbrs dists q).1.get? k = some v2 ∧ v2 ≤ v ∧
        (v2 = v ∨ (v2 = nd ∧ nd < v ∧
          (∃ node, m.nodes.get? k = some node ∧ node.cost < 10) ∧
          (k, nd) ∈ (relaxNbrs m nd nbrs dists q).2))
  | [], dists, q, k, v, hv => ⟨v, by rw [relaxNbrs]; exact hv, le_refl v,
      Or.inl rfl⟩
  | nbr :: rest, dists, q, k, v, hv => by
    rw [relaxNbrs]
    cases hd : dists.get? nbr with
    | none =>
      simp only []
      exact relaxNbrs_get m nd rest dists q k v hv
    | some d =>
      cases hn : m.nodes.get? nbr with
      | none =>
        simp only []
        exact relaxNbrs_get m nd rest dists q k v hv
      | some node =>
        simp only []
        split_ifs with hc
        · by_cases hk : k = nbr
          · subst hk
            have hdv : d = v := by
              rw [hv] at hd
              injection hd with h
              exact h.symm
            subst hdv
            have hset : (dists.set k nd).get? k = some nd := by
              have hklen : k < dists.length := by
                rw [List.get?_eq_getElem?] at hv
                exact (List.getElem?_eq_some_iff.mp hv).1
              exact get?_set_self dists k nd hklen
            obtain ⟨v2, hv2, hle, hor⟩ := relaxNbrs_get m nd rest
              (dists.set k nd) (q ++ [(k, nd)]) k nd hset
            rw [Bool.and_eq_true, decide_eq_true_eq, decide_eq_true_eq] at hc
            have hv2nd : v2 = nd := by
              rcases hor with h | ⟨h, hlt, -⟩
              · exact h
              · exact h
            refine ⟨v2, hv2, by omega, Or.inr ⟨hv2nd, by omega,
              ⟨node, hn, hc.2⟩, ?_⟩⟩
            obtain ⟨extra, he⟩ := relaxNbrs_queue_prefix m nd rest
              (dists.set k nd) (q ++ [(k, nd)])
            rw [he]
            simp
          · have hget : (dists.set nbr nd).get? k = some v := by
              cases hset : (dists.set nbr nd).get? k with
              | none =>
                exfalso
                have hklen : k < dists.length := by
                  rw [List.get?_eq_getElem?] at hv
                  exact (List.getElem?_eq_some_iff.mp hv).1
                obtain ⟨w, hw⟩ := get?_of_lt (dists.set nbr nd) k
                  (by rw [List.length_set]; exact hklen)
                rw [hw] at hset
                exact Option.noConfusion hset
              | some w =>
                rcases get?_set_cases dists nbr k nd w hset with
                  ⟨h1, -, -⟩ | h1
                · exact absurd h1 hk
                · rw [h1] at hv
                  rw [hv]
            exact relaxNbrs_get m nd rest (dists.set nbr nd)
              (q ++ [(nbr, nd)]) k v hget
        · exact relaxNbrs_get m nd rest dists q k v hv

/-- Entries appended by the relaxation loop carry value `nd`, and the
written slot holds `nd` when the loop finishes. -/
theorem relaxNbrs_extra (m : HexMap) (nd : Nat) :
    ∀ (nbrs : List Nat) (dists : List Nat) (q : List (Nat × Nat)),
      ∃ extra, (relaxNbrs m nd nbrs dists q).2 = q ++ extra ∧
        ∀ i v, (i, v) ∈ extra → v = nd ∧
          (relaxNbrs m nd nbrs dists q).1.get? i = some nd
  | [], dists, q => ⟨[], by rw [relaxNbrs, List.append_nil], by simp⟩
  | nbr :: rest, dists, q => by
    rw [relaxNbrs]
    cases hd : dists.get? nbr with
    | none =>
      simp only []
      exact relaxNbrs_extra m nd rest dists q
    | some d =>
      cases hn : m.nodes.get? nbr with
      | none =>
        simp only []
        exact relaxNbrs_extra m nd rest dists q
      | some node =>
        simp only []
        split_ifs with hc
        · obtain ⟨extra, he, hex⟩ := relaxNbrs_extra m nd rest
            (dists.set nbr nd) (q ++ [(nbr, nd)])
          refine ⟨(nbr, nd) :: extra, by rw [he, List.append_assoc]; rfl, ?_⟩
          intro i v hiv
          rcases List.mem_cons.mp hiv with hiv | hiv
          · have hi : i = nbr ∧ v = nd := by
              rw [Prod.mk.injEq] at hiv
              exact hiv
            obtain ⟨hi1, hi2⟩ := hi
            refine ⟨hi2, ?_⟩
            rw [hi1]
            have hklen : nbr < dists.length := by
              rw [List.get?_eq_getElem?] at hd
              exact (List.getElem?_eq_some_iff.mp hd).1
            have hset : (dists.set nbr nd).get? nbr = some nd :=
              get?_set_self dists nbr nd hklen
            obtain ⟨v2, hv2, hle, hor⟩ := relaxNbrs_get m nd rest
              (dists.set nbr nd) (q ++ [(nbr, nd)]) nbr nd hset
            have hveq : v2 = nd := by
              rcases hor with h | ⟨h, -, -⟩
              · exact h
              · exact h
            rw [hveq] at hv2
            exact hv2
          · exact hex i v hiv
        · exact relaxNbrs_extra m nd rest dists q

/-- After the relaxation loop, every processed neighbor that is a stored
low-cost node has distance at most `nd`. -/
theorem relaxNbrs_relaxed (m : HexMap) (nd : Nat) :
    ∀ (nbrs : List Nat) (dists : List Nat) (q : List (Nat × Nat))
      (i : Nat), i ∈ nbrs → ∀ di node,
      (relaxNbrs m nd nbrs dists q).1.get? i = some di →
      m.nodes.get? i = some node → node.cost < 10 → di ≤ nd
  | [], _, _, i, hi => absurd hi (List.not_mem_nil i)
  | nbr :: rest, dists, q, i, hi => by
    intro di node hdi hnode hcost
    rw [relaxNbrs] at hdi
    cases hd : dists.get? nbr with
    | none =>
      rw [hd] at hdi
      simp only [] at hdi
      rcases List.mem_cons.mp hi with hieq | hirest
      · exfalso
        have hilt : i < (relaxNbrs m nd rest dists q).1.length := by
          rw [List.get?_eq_getElem?] at hdi
          exact (List.getElem?_eq_some_iff.mp hdi).1
        rw [relaxNbrs_len m nd rest dists q] at hilt
        obtain ⟨w, hw⟩ := get?_of_lt dists i hilt
        rw [← hieq] at hd
        rw [hw] at hd
        exact Option.noConfusion hd
      · exact relaxNbrs_relaxed m nd rest dists q i hirest di node hdi
          hnode hcost
    | some d =>
      cases hn : m.nodes.get? nbr with
      | none =>
        rw [hd, hn] at hdi
        simp only [] at hdi
        rcases List.mem_cons.mp hi with hieq | hirest
        · exfalso
          rw [← hieq] at hn
          rw [hnode] at hn
          exact Option.noConfusion hn
        · exact relaxNbrs_relaxed m nd rest dists q i hirest di node hdi
            hnode hcost
      | some node2 =>
        rw [hd, hn] at hdi
        simp only [] at hdi
        split_ifs at hdi with hc
        · rcases List.mem_cons.mp hi with hieq | hirest
          · have hklen : nbr < dists.length := by
              rw [List.get?_eq_getElem?] at hd
              exact (List.getElem?_eq_some_iff.mp hd).1
            have hset : (dists.set nbr nd).get? nbr = some nd :=
              get?_set_self dists nbr nd hklen
            obtain ⟨v2, hv2, hle, -⟩ := relaxNbrs_get m nd rest
              (dists.set nbr nd) (q ++ [(nbr, nd)]) nbr nd hset
            rw [hieq] at hdi
            rw [hdi] at hv2
            injection hv2 with hv2
            omega
          · exact relaxNbrs_relaxed m nd rest (dists.set nbr nd)
              (q ++ [(nbr, nd)]) i hirest di node hdi hnode hcost
        · rcases List.mem_cons.mp hi with hieq | hirest
          · rw [Bool.and_eq_true, decide_eq_true_eq, decide_eq_true_eq] at hc
            rw [← hieq] at hn
            rw [hnode] at hn
            injection hn with hn
            have hnd : ¬nd < d := by
              intro hlt
              exact hc ⟨hlt, by rw [← hn]; exact hcost⟩
            rw [← hieq] at hd
            obtain ⟨v2, hv2, hle, -⟩ := relaxNbrs_get m nd rest dists q i d hd
            rw [hdi] at hv2
            injection hv2 with hv2
            omega
          · exact relaxNbrs_relaxed m nd rest dists q i hirest di node hdi
              hnode hcost

/-- The BFS potential (distance sum plus queue length) does not grow
under relaxation. -/
theorem relaxNbrs_sum (m : HexMap) (nd : Nat) :
    ∀ (nbrs : List Nat) (dists : List Nat) (q : List (Nat × Nat)),
      (relaxNbrs m nd nbrs dists q).1.sum +
        (relaxNbrs m nd nbrs dists q).2.length ≤ dists.sum + q.length
  | [], dists, q => by rw [relaxNbrs]
  | nbr :: rest, dists, q => by
    rw [relaxNbrs]
    cases hd : dists.get? nbr with
    | none =>
      simp only []
      exact relaxNbrs_sum m nd rest dists q
    | some d =>
      cases hn : m.nodes.get? nbr with
      | none =>
        simp only []
        exact relaxNbrs_sum m nd rest dists q
      | some node =>
        simp only []
        split_ifs with hc
        · have h1 := relaxNbrs_sum m nd rest (dists.set nbr nd)
            (q ++ [(nbr, nd)])
          rw [Bool.and_eq_true, decide_eq_true_eq, decide_eq_true_eq] at hc
          have h2 := sum_set_le dists nbr nd d hd hc.1
          simp only [List.length_append, List.length_cons,
            List.length_nil] at h1
          omega
        · exact relaxNbrs_sum m nd rest dists q

/-- Writing a different index leaves a read unchanged. -/
theorem get?_set_ne {α : Type} :
    ∀ (l : List α) (i j : Nat) (a : α), i ≠ j →
      (l.set i a).get? j = l.get? j
  | [], _, _, _, _ => rfl
  | _ :: _, 0, 0, _, h => absurd rfl h
  | _ :: _, 0, _ + 1, _, _ => rfl
  | _ :: _, _ + 1, 0, _, _ => rfl
  | _ :: xs, i + 1, j + 1, a, h =>
    get?_set_ne xs i j a (fun hx => h (by rw [hx]))

/-- A changed entry of the relaxation loop was a processed neighbor. -/
theorem relaxNbrs_changed_mem (m : HexMap) (nd : Nat) :
    ∀ (nbrs : List Nat) (dists : List Nat) (q : List (Nat × Nat))
      (k v v2 : Nat), dists.get? k = some v →
      (relaxNbrs m nd nbrs dists q).1.get? k = some v2 →
      v2 ≠ v → k ∈ nbrs
  | [], dists, q, k, v, v2, hv, hk, hne => by
    rw [relaxNbrs] at hk
    rw [hv] at hk
    injection hk with hk
    exact absurd hk.symm hne
  | nbr :: rest, dists, q, k, v, v2, hv, hk, hne => by
    rw [relaxNbrs] at hk
    cases hd : dists.get? nbr with
    | none =>
      rw [hd] at hk
      simp only [] at hk
      exact List.mem_cons_of_mem nbr
        (relaxNbrs_changed_mem m nd rest dists q k v v2 hv hk hne)
    | some d =>
      cases hn : m.nodes.get? nbr with
      | none =>
        rw [hd, hn] at hk
        simp only [] at hk
        exact List.mem_cons_of_mem nbr
          (relaxNbrs_changed_mem m nd rest dists q k v v2 hv hk hne)
      | some node =>
        rw [hd, hn] at hk
        simp only [] at hk
        split_ifs at hk with hc
        · by_cases hkn : k = nbr
          · rw [hkn]
            exact List.mem_cons_self nbr rest
          · have hget : (dists.set nbr nd).get? k = some v := by
              rw [get?_set_ne dists nbr k nd (fun hx => hkn hx.symm)]
              exact hv
            exact List.mem_cons_of_mem nbr
              (relaxNbrs_changed_mem m nd rest (dists.set nbr nd)
                (q ++ [(nbr, nd)]) k v v2 hget hk hne)
        · exact List.mem_cons_of_mem nbr
            (relaxNbrs_changed_mem m nd rest dists q k v v2 hv hk hne)

/-- Membership in the BFS seed queue. -/
theorem bfsSeeds_mem (m : HexMap) (fi : Nat) (i v : Nat) :
    (i, v) ∈ bfsSeeds m fi ↔
      v = 0 ∧ ∃ pn, m.allNodes.get? i = some pn ∧ pn.2.boardIdx = fi := by
  rw [bfsSeeds, List.mem_filterMap]
  constructor
  · rintro ⟨a, ha, hfa⟩
    split_ifs at hfa with hb
    · injection hfa with hfa
      obtain ⟨h1, h2⟩ := Prod.mk.injEq .. |>.mp hfa
      refine ⟨h2.symm, a.2, ?_, hb⟩
      rw [List.get?_eq_getElem?, ← h1]
      exact List.mk_mem_enum_iff_getElem?.mp ha
  · rintro ⟨hv, pn, hpn, hb⟩
    refine ⟨(i, pn), ?_, ?_⟩
    · refine List.mk_mem_enum_iff_getElem?.mpr ?_
      rw [← List.get?_eq_getElem?]
      exact hpn
    · rw [if_pos hb, hv]

/-- The seeding fold preserves length. -/
theorem foldSet_len :
    ∀ (sl : List (Nat × Nat)) (d0 : List Nat),
      (sl.foldl (fun d iv => d.set iv.1 0) d0).length = d0.length
  | [], _ => rfl
  | iv :: rest, d0 => by
    rw [List.foldl_cons, foldSet_len rest (d0.set iv.1 0), List.length_set]

/-- The seeding fold only writes zeros. -/
theorem foldSet_get :
    ∀ (sl : List (Nat × Nat)) (d0 : List Nat) (j w : Nat),
      (sl.foldl (fun d iv => d.set iv.1 0) d0).get? j = some w →
      w = 0 ∨ d0.get? j = some w
  | [], _, _, _, h => Or.inr h
  | iv :: rest, d0, j, w, h => by
    rw [List.foldl_cons] at h
    rcases foldSet_get rest (d0.set iv.1 0) j w h with h1 | h1
    · exact Or.inl h1
    · rcases get?_set_cases d0 iv.1 j 0 w h1 with ⟨-, h2, -⟩ | h2
      · exact Or.inl h2
      · exact Or.inr h2

/-- The seeding fold keeps zeros. -/
theorem foldSet_zero :
    ∀ (sl : List (Nat × Nat)) (d0 : List Nat) (j : Nat),
      d0.get? j = some 0 →
      (sl.foldl (fun d iv => d.set iv.1 0) d0).get? j = some 0
  | [], _, _, h => h
  | iv :: rest, d0, j, h => by
    rw [List.foldl_cons]
    refine foldSet_zero rest (d0.set iv.1 0) j ?_
    by_cases hj : iv.1 = j
    · rw [← hj] at h ⊢
      have hlen : iv.1 < d0.length := by
        rw [List.get?_eq_getElem?] at h
        exact (List.getElem?_eq_some_iff.mp h).1
      exact get?_set_self d0 iv.1 0 hlen
    · rw [get?_set_ne d0 iv.1 j 0 hj]
      exact h

/-- The seeding fold zeroes every seeded in-range index. -/
theorem foldSet_seed :
    ∀ (sl : List (Nat × Nat)) (d0 : List Nat) (j v : Nat),
      (j, v) ∈ sl → j < d0.length →
      (sl.foldl (fun d iv => d.set iv.1 0) d0).get? j = some 0
  | [], _, _, _, h, _ => absurd h (List.not_mem_nil _)
  | iv :: rest, d0, j, v, h, hlen => by
    rw [List.foldl_cons]
    rcases List.mem_cons.mp h with heq | hrest
    · refine foldSet_zero rest (d0.set iv.1 0) j ?_
      rw [← heq]
      exact get?_set_self d0 j 0 hlen
    · exact foldSet_seed rest (d0.set iv.1 0) j v hrest
        (by rw [List.length_set]; exact hlen)

/-- The BFS loop never increases an entry, and any change produces a
positive value at a stored low-cost node. -/
theorem bfsAux_get (m : HexMap) (adj : List (List Nat)) :
    ∀ (fuel : Nat) (q : List (Nat × Nat)) (dists : List Nat) (k v : Nat),
      dists.get? k = some v →
      ∃ v2, (bfsAux m adj fuel q dists).get? k = some v2 ∧ v2 ≤ v ∧
        (v2 = v ∨ (0 < v2 ∧ ∃ node, m.nodes.get? k = some node ∧
          node.cost < 10))
  | 0, q, dists, k, v, hv =>
    ⟨v, by rw [bfsAux]; exact hv, le_refl v, Or.inl rfl⟩
  | fuel + 1, [], dists, k, v, hv =>
    ⟨v, by rw [bfsAux]; exact hv, le_refl v, Or.inl rfl⟩
  | fuel + 1, (idx, dist) :: rest, dists, k, v, hv => by
    rw [bfsAux]
    obtain ⟨v1, hv1, hle1, hor1⟩ := relaxNbrs_get m (dist + 1)
      ((adj.get? idx).getD []) dists rest k v hv
    obtain ⟨v2, hv2, hle2, hor2⟩ := bfsAux_get m adj fuel
      (relaxNbrs m (dist + 1) ((adj.get? idx).getD []) dists rest).2
      (relaxNbrs m (dist + 1) ((adj.get? idx).getD []) dists rest).1 k v1 hv1
    refine ⟨v2, hv2, by omega, ?_⟩
    rcases hor2 with h2 | h2
    · rcases hor1 with h1 | ⟨h1a, h1b, h1c, -⟩
      · exact Or.inl (by omega)
      · exact Or.inr ⟨by omega, h1c⟩
    · exact Or.inr h2

/-- With enough fuel, the BFS loop drains the queue; the final array is
fully relaxed, and every finite positive entry has a neighbor-list
witness one step closer. -/
theorem bfsAux_final (m : HexMap) (adj : List (List Nat)) :
    ∀ (fuel : Nat) (q : List (Nat × Nat)) (dists : List Nat),
      dists.sum + q.length + 1 ≤ fuel →
      (∀ i v, (i, v) ∈ q → ∃ d, dists.get? i = some d ∧ d ≤ v) →
      (∀ j w, dists.get? j = some w → w < intMax →
        ((j, w) ∈ q ∨
          ∀ i, i ∈ (adj.get? j).getD [] → ∀ di node,
            dists.get? i = some di → m.nodes.get? i = some node →
            node.cost < 10 → di ≤ w + 1)) →
      (∀ i d, dists.get? i = some d → 0 < d → d < intMax →
        ∃ j w, i ∈ (adj.get? j).getD [] ∧ dists.get? j = some w ∧
          w + 1 ≤ d ∧ w < intMax) →
      (∀ j w, (bfsAux m adj fuel q dists).get? j = some w → w < intMax →
        ∀ i, i ∈ (adj.get? j).getD [] → ∀ di node,
          (bfsAux m adj fuel q dists).get? i = some di →
          m.nodes.get? i = some node → node.cost < 10 → di ≤ w + 1) ∧
      (∀ i d, (bfsAux m adj fuel q dists).get? i = some d → 0 < d →
        d < intMax →
        ∃ j w, i ∈ (adj.get? j).getD [] ∧
          (bfsAux m adj fuel q dists).get? j = some w ∧ w + 1 ≤ d ∧
          w < intMax)
  | 0, q, dists => by
    intro hf
    exact absurd hf (by omega)
  | fuel + 1, [], dists => by
    intro hf hI2 hA hB
    rw [bfsAux]
    refine ⟨?_, hB⟩
    intro j w hw hwlt i hi di node hdi hnode hcost
    rcases hA j w hw hwlt with hq | hrel
    · exact absurd hq (List.not_mem_nil _)
    · exact hrel i hi di node hdi hnode hcost
  | fuel + 1, (idx, dist) :: rest, dists => by
    intro hf hI2 hA hB
    rw [bfsAux]
    obtain ⟨extra, hext, hexval⟩ := relaxNbrs_extra m (dist + 1)
      ((adj.get? idx).getD []) dists rest
    have hsum := relaxNbrs_sum m (dist + 1) ((adj.get? idx).getD []) dists rest
    have hlen := relaxNbrs_len m (dist + 1) ((adj.get? idx).getD []) dists rest
    have hf2 : (relaxNbrs m (dist + 1) ((adj.get? idx).getD [])
          dists rest).1.sum +
        (relaxNbrs m (dist + 1) ((adj.get? idx).getD [])
          dists rest).2.length + 1 ≤ fuel := by
      simp only [List.length_cons] at hf
      omega
    have hback : ∀ k v2, (relaxNbrs m (dist + 1) ((adj.get? idx).getD [])
          dists rest).1.get? k = some v2 →
        ∃ v, dists.get? k = some v ∧ v2 ≤ v ∧
          (v2 = v ∨ (v2 = dist + 1 ∧ dist + 1 < v)) := by
      intro k v2 hk
      have hklt : k < dists.length := by
        rw [List.get?_eq_getElem?] at hk
        have h1 := (List.getElem?_eq_some_iff.mp hk).1
        omega
      obtain ⟨v, hv⟩ := get?_of_lt dists k hklt
      obtain ⟨v2b, hv2b, hle, hor⟩ := relaxNbrs_get m (dist + 1)
        ((adj.get? idx).getD []) dists rest k v hv
      rw [hk] at hv2b
      injection hv2b with hv2b
      rw [← hv2b] at hle hor
      refine ⟨v, hv, hle, ?_⟩
      rcases hor with h | ⟨h1, h2, -, -⟩
      · exact Or.inl h
      · exact Or.inr ⟨h1, h2⟩
    have hI2' : ∀ i v, (i, v) ∈ (relaxNbrs m (dist + 1)
          ((adj.get? idx).getD []) dists rest).2 →
        ∃ d, (relaxNbrs m (dist + 1) ((adj.get? idx).getD [])
          dists rest).1.get? i = some d ∧ d ≤ v := by
      intro i v hiv
      rw [hext] at hiv
      rcases List.mem_append.mp hiv with hr | hx
      · obtain ⟨d0, hd0, hd0le⟩ := hI2 i v (List.mem_cons_of_mem _ hr)
        obtain ⟨v2b, hv2b, hle, -⟩ := relaxNbrs_get m (dist + 1)
          ((adj.get? idx).getD []) dists rest i d0 hd0
        exact ⟨v2b, hv2b, by omega⟩
      · obtain ⟨hveq, hival⟩ := hexval i v hx
        exact ⟨dist + 1, hival, by omega⟩
    have hA' : ∀ j w, (relaxNbrs m (dist + 1) ((adj.get? idx).getD [])
          dists rest).1.get? j = some w → w < intMax →
        ((j, w) ∈ (relaxNbrs m (dist + 1) ((adj.get? idx).getD [])
            dists rest).2 ∨
          ∀ i, i ∈ (adj.get? j).getD [] → ∀ di node,
            (relaxNbrs m (dist + 1) ((adj.get? idx).getD [])
              dists rest).1.get? i = some di →
            m.nodes.get? i = some node → node.cost < 10 → di ≤ w + 1) := by
      intro j w hw hwlt
      obtain ⟨v, hv, hle, hor⟩ := hback j w hw
      rcases hor with heq | ⟨heq, hlt⟩
      · rw [← heq] at hv
        rcases hA j w hv hwlt with hq | hrel
        · rcases List.mem_cons.mp hq with hpop | hqrest
          · obtain ⟨hj1, hj2⟩ := Prod.mk.injEq .. |>.mp hpop
            right
            intro i hi di node hdi hnode2 hcost
            rw [hj1] at hi
            have hrx := relaxNbrs_relaxed m (dist + 1)
              ((adj.get? idx).getD []) dists rest i hi di node hdi
              hnode2 hcost
            omega
          · left
            rw [hext]
            exact List.mem_append.mpr (Or.inl hqrest)
        · right
          intro i hi di node hdi hnode2 hcost
          obtain ⟨vi, hvi, hile, -⟩ := hback i di hdi
          have := hrel i hi vi node hvi hnode2 hcost
          omega
      · left
        have hfresh := hexval j (dist + 1)
        rw [heq]
        rw [hext]
        refine List.mem_append.mpr (Or.inr ?_)
        by_contra hnx
        have hjr : (j, dist + 1) ∈ rest := by
          have hmem2 : (j, dist + 1) ∈ (relaxNbrs m (dist + 1)
              ((adj.get? idx).getD []) dists rest).2 := by
            have hchg : j ∈ (adj.get? idx).getD [] :=
              relaxNbrs_changed_mem m (dist + 1) ((adj.get? idx).getD [])
                dists rest j v w hv hw (by omega)
            obtain ⟨v3, hv3, hle3, hor3⟩ := relaxNbrs_get m (dist + 1)
              ((adj.get? idx).getD []) dists rest j v hv
            rw [hw] at hv3
            injection hv3 with hv3
            rcases hor3 with h3 | ⟨-, -, -, h3⟩
            · omega
            · exact h3
          rw [hext] at hmem2
          rcases List.mem_append.mp hmem2 with h4 | h4
          · exact h4
          · exact absurd h4 hnx
        obtain ⟨d4, hd4, hle4⟩ := hI2 j (dist + 1)
          (List.mem_cons_of_mem _ hjr)
        rw [hv] at hd4
        injection hd4 with hd4
        omega
    have hB' : ∀ i d, (relaxNbrs m (dist + 1) ((adj.get? idx).getD [])
          dists rest).1.get? i = some d → 0 < d → d < intMax →
        ∃ j w, i ∈ (adj.get? j).getD [] ∧
          (relaxNbrs m (dist + 1) ((adj.get? idx).getD [])
            dists rest).1.get? j = some w ∧ w + 1 ≤ d ∧ w < intMax := by
      intro i d hd hdpos hdlt
      obtain ⟨v, hv, hle, hor⟩ := hback i d hd
      rcases hor with heq | ⟨heq, hlt⟩
      · rw [← heq] at hv
        obtain ⟨j, w, hji, hjw, hwle, hwlt⟩ := hB i d hv hdpos hdlt
        obtain ⟨w2, hw2, hw2le, -⟩ := relaxNbrs_get m (dist + 1)
          ((adj.get? idx).getD []) dists rest j w hjw
        exact ⟨j, w2, hji, hw2, by omega, by omega⟩
      · have hmem : i ∈ (adj.get? idx).getD [] :=
          relaxNbrs_changed_mem m (dist + 1) ((adj.get? idx).getD [])
            dists rest i v d hv hd (by omega)
        obtain ⟨didx, hdidx, hdidxle⟩ := hI2 idx dist (List.mem_cons_self _ _)
        obtain ⟨w2, hw2, hw2le, -⟩ := relaxNbrs_get m (dist + 1)
          ((adj.get? idx).getD []) dists rest idx didx hdidx
        exact ⟨idx, w2, hmem, hw2, by omega, by omega⟩
    exact bfsAux_final m adj fuel
      (relaxNbrs m (dist + 1) ((adj.get? idx).getD []) dists rest).2
      (relaxNbrs m (dist + 1) ((adj.get? idx).getD []) dists rest).1
      hf2 hI2' hA' hB'

/-- The BFS loop preserves the length of the distance array. -/
theorem bfsAux_len (m : HexMap) (adj : List (List Nat)) :
    ∀ (fuel : Nat) (q : List (Nat × Nat)) (dists : List Nat),
      (bfsAux m adj fuel q dists).length = dists.length
  | 0, _, dists => by rw [bfsAux]
  | _ + 1, [], dists => by rw [bfsAux]
  | fuel + 1, (idx, dist) :: rest, dists => by
    rw [bfsAux]
    rw [bfsAux_len m adj fuel _ _]
    rw [relaxNbrs_len]

/-- An entry of the seeded array comes from the base array or a seed. -/
theorem foldSet_written :
    ∀ (sl : List (Nat × Nat)) (d0 : List Nat) (j w : Nat),
      (sl.foldl (fun d iv => d.set iv.1 0) d0).get? j = some w →
      d0.get? j = some w ∨ ∃ v, (j, v) ∈ sl
  | [], _, _, _, h => Or.inl h
  | iv :: rest, d0, j, w, h => by
    rw [List.foldl_cons] at h
    rcases foldSet_written rest (d0.set iv.1 0) j w h with h1 | ⟨v, h1⟩
    · rcases get?_set_cases d0 iv.1 j 0 w h1 with ⟨hj, -, -⟩ | h2
      · right
        refine ⟨iv.2, ?_⟩
        rw [hj]
        exact List.mem_cons_self iv rest
      · exact Or.inl h2
    · exact Or.inr ⟨v, List.mem_cons_of_mem iv h1⟩

/-- C5 counterexample: the single node of `c5map` has cost 10 and lies on
the finish segment, so BFS seeds it with distance 0 rather than the
`i32::MAX` sentinel the claim requires for cost-10 nodes. -/
theorem c5_counterexample :
    c5map.nodes.get? 0 = some (Node.mk Terrain.jungle 10 0) ∧
    c5map.finishIdx = 0 ∧
    (HexGraph.new c5map).dists.get? 0 = some 0 ∧
    intMax ≠ 0 := by
  decide

/-- C5 (amended): the distance array of `HexGraph::new` satisfies:
(1) every node on the finish segment has distance 0 — including, contrary
to the original claim, finish nodes of cost ≥ 10; (2) every node with a
finite positive distance `d` is listed among the neighbors of some node
with distance `d − 1` (for the hex maps of this game the neighbor
relation is symmetric, so that node is an adjacent node); (3) every node
off the finish segment with cost ≥ 10 keeps the `i32::MAX` sentinel. -/
theorem c5_bfs_distances_spec (m : HexMap) :
    (∀ i pn, m.allNodes.get? i = some pn → pn.2.boardIdx = m.finishIdx →
      (HexGraph.new m).dists.get? i = some 0) ∧
    (∀ i d, (HexGraph.new m).dists.get? i = some d → 0 < d → d < intMax →
      ∃ j, i ∈ ((HexGraph.new m).adj.get? j).getD [] ∧
        (HexGraph.new m).dists.get? j = some (d - 1)) ∧
    (∀ i pn, m.allNodes.get? i = some pn → pn.2.boardIdx ≠ m.finishIdx →
      10 ≤ pn.2.cost → (HexGraph.new m).dists.get? i = some intMax) := by
  have hGd : (HexGraph.new m).dists = bfsAux m (createAdjacencies m)
      ((((bfsSeeds m m.finishIdx).foldl (fun d iv => d.set iv.1 0)
        (List.replicate (createAdjacencies m).length intMax)).sum +
        (bfsSeeds m m.finishIdx).length) + 1)
      (bfsSeeds m m.finishIdx)
      ((bfsSeeds m m.finishIdx).foldl (fun d iv => d.set iv.1 0)
        (List.replicate (createAdjacencies m).length intMax)) := rfl
  have hGa : (HexGraph.new m).adj = createAdjacencies m := rfl
  rw [hGd, hGa]
  have hMaxPos : 0 < intMax := by decide
  have hadjlen : (createAdjacencies m).length = m.allNodes.length := by
    rw [createAdjacencies, List.length_map]
  have hd1len : ((bfsSeeds m m.finishIdx).foldl (fun d iv => d.set iv.1 0)
      (List.replicate (createAdjacencies m).length intMax)).length =
      (createAdjacencies m).length := by
    rw [foldSet_len, List.length_replicate]
  have hd1char : ∀ j w, ((bfsSeeds m m.finishIdx).foldl
        (fun d iv => d.set iv.1 0)
        (List.replicate (createAdjacencies m).length intMax)).get? j =
      some w → w = 0 ∨ w = intMax := by
    intro j w h
    rcases foldSet_get _ _ j w h with h1 | h1
    · exact Or.inl h1
    · rw [List.get?_eq_getElem?, List.getElem?_replicate] at h1
      split_ifs at h1
      injection h1 with h1
      exact Or.inr h1.symm
  have hseed0 : ∀ i pn, m.allNodes.get? i = some pn →
      pn.2.boardIdx = m.finishIdx →
      ((bfsSeeds m m.finishIdx).foldl (fun d iv => d.set iv.1 0)
        (List.replicate (createAdjacencies m).length intMax)).get? i =
      some 0 := by
    intro i pn hpn hb
    have hmem : (i, 0) ∈ bfsSeeds m m.finishIdx :=
      (bfsSeeds_mem m m.finishIdx i 0).mpr ⟨rfl, pn, hpn, hb⟩
    refine foldSet_seed _ _ i 0 hmem ?_
    rw [List.length_replicate, hadjlen]
    rw [List.get?_eq_getElem?] at hpn
    exact (List.getElem?_eq_some_iff.mp hpn).1
  have hI2 : ∀ i v, (i, v) ∈ bfsSeeds m m.finishIdx →
      ∃ d, ((bfsSeeds m m.finishIdx).foldl (fun d iv => d.set iv.1 0)
        (List.replicate (createAdjacencies m).length intMax)).get? i =
        some d ∧ d ≤ v := by
    intro i v hiv
    obtain ⟨hv0, pn, hpn, hb⟩ := (bfsSeeds_mem m m.finishIdx i v).mp hiv
    exact ⟨0, hseed0 i pn hpn hb, by omega⟩
  have hA : ∀ j w, ((bfsSeeds m m.finishIdx).foldl (fun d iv => d.set iv.1 0)
        (List.replicate (createAdjacencies m).length intMax)).get? j =
        some w → w < intMax →
      ((j, w) ∈ bfsSeeds m m.finishIdx ∨
        ∀ i, i ∈ ((createAdjacencies m).get? j).getD [] → ∀ di node,
          ((bfsSeeds m m.finishIdx).foldl (fun d iv => d.set iv.1 0)
            (List.replicate (createAdjacencies m).length intMax)).get? i =
            some di →
          m.nodes.get? i = some node → node.cost < 10 → di ≤ w + 1) := by
    intro j w hw hwlt
    rcases hd1char j w hw with h0 | hMax
    · left
      rcases foldSet_written _ _ j w hw with h1 | ⟨v, h1⟩
      · rw [List.get?_eq_getElem?, List.getElem?_replicate] at h1
        split_ifs at h1
        injection h1 with h1
        exfalso
        omega
      · obtain ⟨hv0, -⟩ := (bfsSeeds_mem m m.finishIdx j v).mp h1
        rw [h0]
        rw [hv0] at h1
        exact h1
    · exact absurd hMax (by omega)
  have hB : ∀ i d, ((bfsSeeds m m.finishIdx).foldl (fun d iv => d.set iv.1 0)
        (List.replicate (createAdjacencies m).length intMax)).get? i =
        some d → 0 < d → d < intMax →
      ∃ j w, i ∈ ((createAdjacencies m).get? j).getD [] ∧
        ((bfsSeeds m m.finishIdx).foldl (fun d iv => d.set iv.1 0)
          (List.replicate (createAdjacencies m).length intMax)).get? j =
          some w ∧ w + 1 ≤ d ∧ w < intMax := by
    intro i d hd hdpos hdlt
    rcases hd1char i d hd with h | h
    · omega
    · omega
  obtain ⟨hAfin, hBfin⟩ := bfsAux_final m (createAdjacencies m)
    ((((bfsSeeds m m.finishIdx).foldl (fun d iv => d.set iv.1 0)
      (List.replicate (createAdjacencies m).length intMax)).sum +
      (bfsSeeds m m.finishIdx).length) + 1)
    (bfsSeeds m m.finishIdx)
    ((bfsSeeds m m.finishIdx).foldl (fun d iv => d.set iv.1 0)
      (List.replicate (createAdjacencies m).length intMax))
    (le_refl _) hI2 hA hB
  refine ⟨?_, ?_, ?_⟩
  · intro i pn hpn hb
    obtain ⟨v2, hv2, hle, -⟩ := bfsAux_get m (createAdjacencies m) _ _ _ i 0
      (hseed0 i pn hpn hb)
    have hz : v2 = 0 := by omega
    rw [hz] at hv2
    exact hv2
  · intro i d hd hdpos hdlt
    obtain ⟨j, w, hji, hjw, hwle, hwlt⟩ := hBfin i d hd hdpos hdlt
    have hilt : i < ((bfsSeeds m m.finishIdx).foldl (fun d iv => d.set iv.1 0)
        (List.replicate (createAdjacencies m).length intMax)).length := by
      rw [List.get?_eq_getElem?] at hd
      have h1 := (List.getElem?_eq_some_iff.mp hd).1
      rw [bfsAux_len] at h1
      exact h1
    obtain ⟨w0, hw0⟩ := get?_of_lt _ i hilt
    obtain ⟨v2, hv2, hle0, hor⟩ := bfsAux_get m (createAdjacencies m)
      _ _ _ i w0 hw0
    rw [hd] at hv2
    injection hv2 with hv2
    have hcost : ∃ node, m.nodes.get? i = some node ∧ node.cost < 10 := by
      rcases hor with he | ⟨-, hn⟩
      · exfalso
        rcases hd1char i w0 hw0 with h0 | hM
        · omega
        · omega
      · exact hn
    obtain ⟨node, hnode, hc10⟩ := hcost
    have hrel := hAfin j w hjw hwlt i hji d node hd hnode hc10
    refine ⟨j, hji, ?_⟩
    have hwd : w = d - 1 := by omega
    rw [← hwd]
    exact hjw
  · intro i pn hpn hnb hcost
    have hilt : i < ((bfsSeeds m m.finishIdx).foldl (fun d iv => d.set iv.1 0)
        (List.replicate (createAdjacencies m).length intMax)).length := by
      rw [hd1len, hadjlen]
      rw [List.get?_eq_getElem?] at hpn
      exact (List.getElem?_eq_some_iff.mp hpn).1
    obtain ⟨w0, hw0⟩ := get?_of_lt _ i hilt
    have hwMax : w0 = intMax := by
      rcases foldSet_written _ _ i w0 hw0 with h1 | ⟨v, h1⟩
      · rw [List.get?_eq_getElem?, List.getElem?_replicate] at h1
        split_ifs at h1
        injection h1 with h1
        exact h1.symm
      · exfalso
        obtain ⟨-, pn2, hpn2, hb2⟩ := (bfsSeeds_mem m m.finishIdx i v).mp h1
        rw [hpn] at hpn2
        injection hpn2 with hpn2
        rw [← hpn2] at hb2
        exact hnb hb2
    obtain ⟨v2, hv2, hle, hor⟩ := bfsAux_get m (createAdjacencies m)
      _ _ _ i w0 hw0
    rcases hor with he | ⟨-, node, hnode, hc10⟩
    · rw [hwMax] at he
      rw [he] at hv2
      exact hv2
    · exfalso
      have hn2 : m.nodes.get? i = some pn.2 := by
        have hz := zip_get? m.coords m.nodes i pn.1 pn.2 hpn
        exact hz.2
      rw [hnode] at hn2
      injection hn2 with hn2
      rw [← hn2] at hcost
      omega

/-- C5 witness: on `mapA` the finish node has distance 0, and the start
node (distance 1) is listed among the neighbors of a node at distance 0. -/
theorem c5_witness :
    (HexGraph.new mapA).dists.get? 1 = some 0 ∧
    ∃ j, 0 ∈ ((HexGraph.new mapA).adj.get? j).getD [] ∧
      (HexGraph.new mapA).dists.get? j = some 0 := by
  have h := c5_bfs_distances_spec mapA
  refine ⟨h.1 1 (⟨1, 0⟩, Node.mk Terrain.jungle 1 1) (by decide) (by decide),
    ?_⟩
  obtain ⟨j, hj1, hj2⟩ := h.2.1 0 1 (by decide) (by decide) (by decide)
  exact ⟨j, hj1, hj2⟩

end Durango
